import Mathlib

/-!
# LightIPC: a shallow embedding of the codec, the socket framing and the
# client/server receive loops, with the properties proved about them.

Conventions of the embedding.

* A byte is a `Fin 256`; a `std::string` used as a byte container is a `List Byte`.
* `unsigned int` is a `Fin 4294967296`, `int` is an `Int` in the 32-bit signed range
  (`CInt`), `size_t` is a `Nat` taken modulo `2^64` where the code does arithmetic on it.
* The byte image of a primitive is its little-endian image (the code copies the raw
  machine image with `memcpy`; any fixed byte order gives the same theorems, which only use
  that copying the image out and back is the identity).
* A read outside the byte sequence is undefined in the source; it is modelled as `none`.
-/

namespace LightIPC

/-! ## Bytes and machine integers -/

abbrev Byte := Fin 256

/-- Little-endian image of `n` on `w` bytes (the low `w` bytes of `n`). -/
def leBytes : Nat → Nat → List Byte
  | 0, _ => []
  | w + 1, n => ⟨n % 256, Nat.mod_lt _ (by decide)⟩ :: leBytes w (n / 256)

/-- Value of a little-endian byte image. -/
def leValue : List Byte → Nat
  | [] => 0
  | b :: bs => b.val + 256 * leValue bs

/-- The C type `unsigned int` (32 bits). -/
abbrev CUInt := Fin 4294967296

/-- The C type `int` (32 bits, two's complement). -/
abbrev CInt := { v : Int // -2147483648 ≤ v ∧ v < 2147483648 }

/-- Reinterpretation of a 32-bit pattern as a signed `int`. -/
def toCInt (n : Nat) : CInt :=
  if h : n % 4294967296 < 2147483648 then
    ⟨((n % 4294967296 : Nat) : Int), by omega⟩
  else
    ⟨((n % 4294967296 : Nat) : Int) - 4294967296, by omega⟩

/-- Conversion `static_cast<int>(size_t)`: keep the low 32 bits, read them as signed. -/
def castSizeToInt (n : Nat) : CInt := toCInt (n % 18446744073709551616)

/-- Conversion of an `int` to `size_t` (64 bits): negative values wrap. -/
def castIntToSize (v : CInt) : Nat := (v.val % 18446744073709551616).toNat

/-- Conversion of an `int` to `unsigned int`: negative values wrap. -/
def castIntToUInt (v : CInt) : Nat := (v.val % 4294967296).toNat

/-- A fixed-width primitive type, as handled by the generic `Append(T)` / `Value(T&)`
templates: its `sizeof`, its byte image, and the value a `memcpy` of `sizeof` bytes reads
back. Copying a value out and back is the identity. -/
class Primitive (T : Type) where
  sizeof : Nat
  image : T → List Byte
  ofImage : List Byte → T
  sizeof_pos : 0 < sizeof
  image_length : ∀ v, (image v).length = sizeof
  ofImage_image : ∀ v, ofImage (image v) = v

instance instPrimitiveCUInt : Primitive CUInt where
  sizeof := 4
  image v := leBytes 4 v.val
  ofImage bs := ⟨leValue bs % 4294967296, Nat.mod_lt _ (by decide)⟩
  sizeof_pos := by decide
  image_length v := by simp [leBytes]
  ofImage_image v := by
    apply Fin.ext
    have := v.isLt
    simp only [leBytes, leValue]
    omega

instance instPrimitiveByte : Primitive Byte where
  sizeof := 1
  image v := [v]
  ofImage bs := bs.headD 0
  sizeof_pos := by decide
  image_length _ := rfl
  ofImage_image _ := rfl

instance instPrimitiveCInt : Primitive CInt where
  sizeof := 4
  image v := leBytes 4 (castIntToUInt v)
  ofImage bs := toCInt (leValue bs)
  sizeof_pos := by decide
  image_length v := by simp [leBytes]
  ofImage_image v := by
    apply Subtype.ext
    obtain ⟨v, h1, h2⟩ := v
    simp only [leBytes, leValue, castIntToUInt, toCInt]
    split <;> simp only [] <;> omega

/-! ## Result (src/Result.cpp) -/

/-- The byte of value `n mod 256`. -/
def byteOf (n : Nat) : Byte := ⟨n % 256, Nat.mod_lt _ (by decide)⟩

/-- The bytes of a character in a C string (UTF-8). -/
def utf8EncodeChar (c : Char) : List Byte :=
  let v := c.toNat
  if v < 128 then [byteOf v]
  else if v < 2048 then [byteOf (192 + v / 64), byteOf (128 + v % 64)]
  else if v < 65536 then
    [byteOf (224 + v / 4096), byteOf (128 + v / 64 % 64), byteOf (128 + v % 64)]
  else
    [byteOf (240 + v / 262144), byteOf (128 + v / 4096 % 64), byteOf (128 + v / 64 % 64),
     byteOf (128 + v % 64)]

/-- The bytes of a text in a C string (UTF-8, without the terminator). -/
def utf8 (s : String) : List Byte := (s.toList.map utf8EncodeChar).flatten

/-- A `std::string` holding the bytes `bytes`, as a text with one character per byte. -/
def cText (bytes : List Byte) : String := String.mk (bytes.map (fun b => Char.ofNat b.val))

/-- A text made of ASCII characters other than NUL: its bytes are its characters. -/
def isAsciiText (l : List Char) : Bool := l.all (fun c => c.toNat != 0 && decide (c.toNat < 128))

/-- The class `Result`: a success flag and an error message. The message is a
`std::string`; it is held with one character per byte. -/
structure Result where
  m_result : Bool
  m_errorMessage : String
deriving DecidableEq

namespace Result

/-- Constructor `Result(bool, const std::string&)`: the message is kept only on error. -/
def ctor (r : Bool) (errorMessage : String) : Result :=
  { m_result := r, m_errorMessage := if !r then errorMessage else "" }

/-- Default constructor `Result()`. -/
def default : Result := { m_result := true, m_errorMessage := "" }

/-- The static method `Result::CreateSuccess`. -/
def CreateSuccess : Result := ctor true ""

/-- The static method `Result::CreateError`, applied to the text that the printf-style
format expands to: `vsnprintf(text, TEXT_MAX_LEN - 1, ...)` writes at most 1022 bytes of
it and a terminator, and `std::string errorMessage(text)` takes the bytes before the
first zero byte. -/
def CreateError (formatted : String) : Result :=
  ctor false (cText (((utf8 formatted).take 1022).takeWhile (fun b => b != 0)))

def ErrorMessage (r : Result) : String := r.m_errorMessage

def IsSuccess (r : Result) : Bool := r.m_result

def IsError (r : Result) : Bool := !r.m_result

/-- Conversion `operator bool`: true on success. -/
def toBool (r : Result) : Bool := r.IsSuccess

end Result

/-- Expansion of the conversion `%lu`. -/
def fmtLu (n : Nat) : String := toString n

/-- Hexadecimal digit, upper case. -/
def hexDigitUpper (n : Nat) : Char :=
  if n < 10 then Char.ofNat (48 + n) else Char.ofNat (55 + n)

/-- Expansion of the conversion `%02X` for an `unsigned char`. -/
def fmt02X (b : Byte) : String :=
  String.mk [hexDigitUpper (b.val / 16), hexDigitUpper (b.val % 16)]

/-! ## ByteBuffer (include/ByteBuffer.h, src/ByteBuffer.cpp) -/

/-- The class `ByteBuffer`: the byte sequence and the read position (`unsigned int`). -/
structure ByteBuffer where
  m_buffer : List Byte
  m_position : Nat
deriving DecidableEq

namespace ByteBuffer

/-- Constructor `ByteBuffer(int _reserve = 2048)`. -/
def ctor : ByteBuffer := { m_buffer := [], m_position := 0 }

/-- Constructor `ByteBuffer(const std::string &_data, int _reserve)`. -/
def ctorData (data : List Byte) : ByteBuffer := { m_buffer := data, m_position := 0 }

/-- Constructor `ByteBuffer(const char *_data, size_t _size, int _reserve)`: `mem` is the
memory readable from the pointer; `none` when `_size` bytes are not readable there. -/
def ctorRaw (mem : List Byte) (size : Nat) : Option ByteBuffer :=
  if size ≤ mem.length then some { m_buffer := mem.take size, m_position := 0 } else none

def IsEmpty (b : ByteBuffer) : Bool := b.m_buffer.isEmpty

def Size (b : ByteBuffer) : Nat := b.m_buffer.length

def Clear (_b : ByteBuffer) : ByteBuffer := { m_buffer := [], m_position := 0 }

def Data (b : ByteBuffer) : List Byte := b.m_buffer

def Position (b : ByteBuffer) : Nat := b.m_position

def SetPosition (b : ByteBuffer) (pos : CUInt) : ByteBuffer := { b with m_position := pos.val }

/-- Template `Append(T _data)`: append the `sizeof(T)` bytes of the image. -/
def Append {T : Type} [Primitive T] (b : ByteBuffer) (data : T) : ByteBuffer :=
  { b with m_buffer := b.m_buffer ++ Primitive.image data }

/-- Overload `Append(size_t _data)`: appended as `static_cast<int>(_data)`. -/
def AppendSize (b : ByteBuffer) (data : Nat) : ByteBuffer :=
  b.Append (castSizeToInt data)

/-- Overload `Append(const std::string &_data)`: the size, then the bytes. -/
def AppendString (b : ByteBuffer) (data : List Byte) : ByteBuffer :=
  let b1 := b.AppendSize data.length
  { b1 with m_buffer := b1.m_buffer ++ data }

/-- Overload `Append(ByteBuffer &_data)`. -/
def AppendBuffer (b : ByteBuffer) (data : ByteBuffer) : ByteBuffer :=
  b.AppendString data.Data

/-- The bytes of a C string: everything before the first zero byte (`strlen`). -/
def cstr (text : List Byte) : List Byte := text.takeWhile (fun c => c != 0)

/-- Overload `Append(char *_data)`: `strlen`, then the bytes up to the terminator. -/
def AppendCStr (b : ByteBuffer) (text : List Byte) : ByteBuffer :=
  let b1 := b.AppendSize (cstr text).length
  { b1 with m_buffer := b1.m_buffer ++ cstr text }

/-- Overload `Append(const char *_format, ...)`, applied to the text the format expands
to: `vsnprintf` into a scratch of 4096 bytes keeps at most 4095 of them, and the scratch
is appended as a C string. -/
def AppendFormat (b : ByteBuffer) (formatted : List Byte) : ByteBuffer :=
  b.AppendCStr ((cstr formatted).take 4095)

/-- Template `Append(const std::vector<T>&)`: `int v = _data.size()`, the count, then the
elements of index `0 .. v-1`. -/
def AppendVector {T : Type} [Primitive T] (b : ByteBuffer) (data : List T) : ByteBuffer :=
  let v : CInt := castSizeToInt data.length
  (data.take v.val.toNat).foldl (fun acc x => acc.Append x) (b.Append v)

/-- Template `Append(const std::map<K,V>&)`: the count, then key and value of every entry
in iteration order. A `std::map` is its list of entries in increasing key order. -/
def AppendMap {K V : Type} [Primitive K] [Primitive V] (b : ByteBuffer)
    (data : List (K × V)) : ByteBuffer :=
  let v : CInt := castSizeToInt data.length
  data.foldl (fun acc e => (acc.Append e.1).Append e.2) (b.Append v)

/-- Template `Value(T &_out)`: `memcpy` of `sizeof(T)` bytes from the read position, then
the position advances by `sizeof(T)` (in `unsigned int` arithmetic). The value read is
`none` when the bytes are not all inside the sequence. -/
def Value {T : Type} [Primitive T] (b : ByteBuffer) : Option T × ByteBuffer :=
  let size := Primitive.sizeof T
  let bytes := (b.m_buffer.drop b.m_position).take size
  (if bytes.length = size then some (Primitive.ofImage bytes) else none,
   { b with m_position := (b.m_position + size) % 4294967296 })

/-- The common part of the counted reads: read the `int` size, then take `size` bytes at
the read position and advance by `size`. `none` when the size read is undefined or
negative (the copy then throws or reads outside), or the bytes are not all inside. -/
def valueCounted (b : ByteBuffer) : Option (List Byte × ByteBuffer) :=
  match b.Value (T := CInt) with
  | (none, _) => none
  | (some size, b1) =>
    if size.val < 0 then none
    else
      let bytes := (b1.m_buffer.drop b1.m_position).take size.val.toNat
      if bytes.length = size.val.toNat then
        some (bytes, { b1 with m_position := (b1.m_position + size.val.toNat) % 4294967296 })
      else none

/-- Overload `Value(std::string &_out)`. -/
def ValueString (b : ByteBuffer) : Option (List Byte × ByteBuffer) := b.valueCounted

/-- Overload `Value(ByteBuffer &_out)`: `_out = ByteBuffer(data + position, size, size)`. -/
def ValueBuffer (b : ByteBuffer) : Option (ByteBuffer × ByteBuffer) :=
  match b.valueCounted with
  | none => none
  | some (bytes, b1) => some ({ m_buffer := bytes, m_position := 0 }, b1)

/-- Overload `Value(size_t &_out)`: an `int` is read and converted to `size_t`. -/
def ValueSize (b : ByteBuffer) : Option Nat × ByteBuffer :=
  match b.Value (T := CInt) with
  | (none, b1) => (none, b1)
  | (some size, b1) => (some (castIntToSize size), b1)

/-- The loop of `Value(std::vector<T>&)`: read `n` elements, `push_back` each. -/
def valueElems {T : Type} [Primitive T] : Nat → ByteBuffer → List T → Option (List T × ByteBuffer)
  | 0, b, out => some (out, b)
  | n + 1, b, out =>
    match b.Value (T := T) with
    | (none, _) => none
    | (some value, b1) => valueElems n b1 (out ++ [value])

/-- Template `Value(std::vector<T> &_out)`; `out` is the vector on entry. -/
def ValueVector {T : Type} [Primitive T] (b : ByteBuffer) (out : List T) :
    Option (List T × ByteBuffer) :=
  match b.Value (T := CInt) with
  | (none, _) => none
  | (some size, b1) => valueElems size.val.toNat b1 out

/-- Insertion `std::map::insert`: the entry is placed in key order; an entry whose key is
already present is not inserted. -/
def mapInsert {K V : Type} [LinearOrder K] : List (K × V) → K × V → List (K × V)
  | [], e => [e]
  | a :: rest, e =>
    if e.1 < a.1 then e :: a :: rest
    else if e.1 = a.1 then a :: rest
    else a :: mapInsert rest e

/-- The loop of `Value(std::map<K,V>&)`: read `n` pairs, `insert` each. -/
def valueEntries {K V : Type} [LinearOrder K] [Primitive K] [Primitive V] :
    Nat → ByteBuffer → List (K × V) → Option (List (K × V) × ByteBuffer)
  | 0, b, out => some (out, b)
  | n + 1, b, out =>
    match b.Value (T := K) with
    | (none, _) => none
    | (some key, b1) =>
      match b1.Value (T := V) with
      | (none, _) => none
      | (some val, b2) => valueEntries n b2 (mapInsert out (key, val))

/-- Template `Value(std::map<K,V> &_out)`; `out` is the map on entry. -/
def ValueMap {K V : Type} [LinearOrder K] [Primitive K] [Primitive V] (b : ByteBuffer)
    (out : List (K × V)) : Option (List (K × V) × ByteBuffer) :=
  match b.Value (T := CInt) with
  | (none, _) => none
  | (some size, b1) => valueEntries size.val.toNat b1 out

/-- Concatenated images of a list of primitives. -/
def images {T : Type} [Primitive T] : List T → List Byte
  | [] => []
  | x :: xs => Primitive.image x ++ images xs

/-- Concatenated images of the entries of a map. -/
def entryImages {K V : Type} [Primitive K] [Primitive V] : List (K × V) → List Byte
  | [] => []
  | e :: es => Primitive.image e.1 ++ (Primitive.image e.2 ++ entryImages es)

end ByteBuffer

/-- The bytes of an ASCII text. -/
def ascii (s : String) : List Byte :=
  s.toList.map (fun c => ⟨c.toNat % 256, Nat.mod_lt _ (by decide)⟩)

/-! ## UnixDomainSocket (include/UnixDomainSocket.h, src/UnixDomainSocket.cpp) -/

/-- The statement `if (n > 1024) n = 1024;` applied to a transfer size (the constants
`TRANSMIT_SIZE` and `RECEIVE_SIZE` are both 1024). -/
def clampTransfer (n : Nat) : Nat := if n > 1024 then 1024 else n

/-- Conversion `static_cast<size_t>(ssize_t)`. -/
def castSsizeToSize (v : Int) : Nat := (v % 18446744073709551616).toNat

/-- The fields of the class `UnixDomainSocket`; the two `sockaddr_un` members are
represented by the C string held in their `sun_path`, an array of 108 bytes. -/
structure UnixDomainSocket where
  m_path : String
  m_isOwner : Bool
  m_txSocketFd : Int
  m_rxSocketFd : Int
  m_txAddress : String
  m_rxAddress : String
  m_isOpend : Bool
  m_limitSize : CUInt
deriving DecidableEq

/-- The sending side of the operating system, over any state `σ`: `sendto` returns the
`ssize_t` result of the call and the next state; `strerror` is the text of
`strerror(errno)` in a state. -/
structure TxKernel (σ : Type) where
  sendto : σ → List Byte → Int × σ
  strerror : σ → String

/-- What the receiving socket delivers to one `recvfrom` / `read` call: a datagram, or a
failure (result -1) with the text of `strerror(errno)`. -/
inductive RxEvent where
  | datagram (d : List Byte)
  | failure (errorText : String)
deriving DecidableEq

/-- The receiving side: the events pending on the receive socket, in order, and the
current text of `strerror(errno)`. -/
structure RxWorld where
  queue : List RxEvent
  errnoText : String
deriving DecidableEq

/-- The calls `recvfrom(fd, buf, n, ...)` and `read(fd, buf, n)` on the datagram socket:
the result length, the bytes written to `buf`, and the world afterwards. A datagram longer
than `n` is cut to `n` bytes. `none`: nothing is pending and the call blocks. -/
def recvfrom (w : RxWorld) (n : Nat) : Option (Int × List Byte × RxWorld) :=
  match w.queue with
  | [] => none
  | RxEvent.failure e :: q => some (-1, [], { queue := q, errnoText := e })
  | RxEvent.datagram d :: q => some (((d.take n).length : Int), d.take n, { w with queue := q })

/-- Byte image of `struct ProtocolHeader` for a body of `size` bytes: the hexspeak, then
`static_cast<unsigned int>(size)`. -/
def protocolHeader (size : Nat) : List Byte :=
  [0xDE, 0xAD, 0xC0, 0xDE]
    ++ Primitive.image (⟨size % 4294967296, Nat.mod_lt _ (by decide)⟩ : CUInt)

/-- What a call of `Send` did: its result, the datagrams passed to `sendto` in call
order, and the state of the sending side afterwards. -/
structure SendOutcome (σ : Type) where
  result : Result
  datagrams : List (List Byte)
  state : σ

namespace UnixDomainSocket

def IsOpend (s : UnixDomainSocket) : Bool := s.m_isOpend

def SetLimitSize (s : UnixDomainSocket) (limit : CUInt) : UnixDomainSocket :=
  { s with m_limitSize := limit }

def LimitSize (s : UnixDomainSocket) : CUInt := s.m_limitSize

/-- The loop `while (txSize != size)` of `Send`; `fuel` bounds the number of iterations
and `none` means that the loop has not ended within them. `sent` collects the datagrams
passed to `sendto`. -/
def sendBody {σ : Type} (K : TxKernel σ) (msg : List Byte) (size : Nat) :
    Nat → σ → Nat → List (List Byte) → Option (SendOutcome σ)
  | 0, st, txSize, sent =>
    if txSize = size then
      some { result := Result.CreateSuccess, datagrams := sent, state := st }
    else none
  | fuel + 1, st, txSize, sent =>
    if txSize = size then
      some { result := Result.CreateSuccess, datagrams := sent, state := st }
    else
      let transmitSize :=
        clampTransfer ((size + 18446744073709551616 - txSize) % 18446744073709551616)
      let d := (msg.drop txSize).take transmitSize
      let r := K.sendto st d
      if r.1 = -1 then
        some { result := Result.CreateError ("send body error [" ++ K.strerror r.2 ++ "]"),
               datagrams := sent ++ [d], state := r.2 }
      else
        sendBody K msg size fuel r.2
          ((txSize + castSsizeToSize r.1) % 18446744073709551616) (sent ++ [d])

/-- The method `UnixDomainSocket::Send`. -/
def Send {σ : Type} (K : TxKernel σ) (fuel : Nat) (s : UnixDomainSocket) (st : σ)
    (header body : ByteBuffer) : Option (SendOutcome σ) :=
  if !s.IsOpend then
    some { result := Result.CreateError ("send socket error [" ++ "socket closed" ++ "]"),
           datagrams := [], state := st }
  else if header.Size > 512 then
    some { result := Result.CreateError
             ("send header error [" ++ "header too big size" ++ ":" ++ fmtLu header.Size ++ "]"),
           datagrams := [], state := st }
  else
    let size := body.Size
    if 0 < s.m_limitSize.val ∧ s.m_limitSize.val < size then
      some { result := Result.CreateError
               ("send header error [" ++ "body too big size" ++ ":" ++ fmtLu size ++ "]"),
             datagrams := [], state := st }
    else
      let ph := protocolHeader size
      let r1 := K.sendto st ph
      if r1.1 ≠ 8 then
        some { result := Result.CreateError
                 ("send protocol header error [" ++ K.strerror r1.2 ++ "]"),
               datagrams := [ph], state := r1.2 }
      else
        let r2 := K.sendto r1.2 header.Data
        if r2.1 ≠ (header.Size : Int) then
          some { result := Result.CreateError
                   ("send application header error [" ++ K.strerror r2.2 ++ "]"),
                 datagrams := [ph, header.Data], state := r2.2 }
        else if size = 0 then
          some { result := Result.CreateSuccess, datagrams := [ph, header.Data], state := r2.2 }
        else
          sendBody K body.Data size fuel r2.2 0 [ph, header.Data]

/-- The loop `while (rxSize != rsize)` of `Receive`, over the pending events: `req` holds
the `rxSize` bytes gathered so far. The result is the gathered body, or the error text of
a failed `read`, with the world afterwards; `none` when the loop waits on an empty queue. -/
def receiveBody (rsize : Nat) :
    List RxEvent → String → Nat → List Byte → Option (Except String (List Byte) × RxWorld)
  | [], errno, rxSize, req =>
    if rxSize = rsize then some (Except.ok req, { queue := [], errnoText := errno }) else none
  | RxEvent.failure e :: q, errno, rxSize, req =>
    if rxSize = rsize then
      some (Except.ok req, { queue := RxEvent.failure e :: q, errnoText := errno })
    else some (Except.error e, { queue := q, errnoText := e })
  | RxEvent.datagram d :: q, errno, rxSize, req =>
    if rxSize = rsize then
      some (Except.ok req, { queue := RxEvent.datagram d :: q, errnoText := errno })
    else
      let receiveSize := clampTransfer (rsize - rxSize)
      receiveBody rsize q errno (rxSize + (d.take receiveSize).length)
        (req ++ d.take receiveSize)

end UnixDomainSocket

/-- What a call of `Receive` did: its result, the two output buffers after the call, and
the receiving side afterwards. -/
structure ReceiveOutcome where
  result : Result
  outHeader : ByteBuffer
  outBody : ByteBuffer
  world : RxWorld
deriving DecidableEq

namespace UnixDomainSocket

/-- The method `UnixDomainSocket::Receive`; `outHeader` and `outBody` are the buffers
passed by reference. `none`: the call waits for a datagram that never comes. -/
def Receive (s : UnixDomainSocket) (w : RxWorld) (outHeader outBody : ByteBuffer) :
    Option ReceiveOutcome :=
  if !s.IsOpend then
    some { result := Result.CreateError ("receive socket error [" ++ "socket closed" ++ "]"),
           outHeader := outHeader, outBody := outBody, world := w }
  else
    match recvfrom w 1024 with
    | none => none
    | some (len, msg, w1) =>
      if len = -1 ∨ len ≠ 8 then
        some { result := Result.CreateError
                 ("receive protocol header error [" ++ w1.errnoText ++ "]"),
               outHeader := outHeader, outBody := outBody, world := w1 }
      else
        let h0 := msg.getD 0 0
        let h1 := msg.getD 1 0
        let h2 := msg.getD 2 0
        let h3 := msg.getD 3 0
        let phSize := leValue ((msg.drop 4).take 4)
        if h0 ≠ 0xDE ∨ h1 ≠ 0xAD ∨ h2 ≠ 0xC0 ∨ h3 ≠ 0xDE then
          some { result := Result.CreateError
                   ("receive protocol header error [" ++ "invalid hexspeak" ++ ":0x"
                     ++ fmt02X h0 ++ fmt02X h1 ++ fmt02X h2 ++ fmt02X h3 ++ "]"),
                 outHeader := outHeader, outBody := outBody, world := w1 }
        else if 0 < s.m_limitSize.val ∧ s.m_limitSize.val < phSize then
          some { result := Result.CreateError
                   ("receive protocol header error [" ++ "body too big size" ++ ":"
                     ++ fmtLu phSize ++ "]"),
                 outHeader := outHeader, outBody := outBody, world := w1 }
        else
          match recvfrom w1 1024 with
          | none => none
          | some (len2, msg2, w2) =>
            if len2 = -1 ∨ len2 > 512 then
              some { result := Result.CreateError
                       ("receive application header error [" ++ w2.errnoText ++ "]"),
                     outHeader := outHeader, outBody := outBody, world := w2 }
            else
              match receiveBody phSize w2.queue w2.errnoText 0 [] with
              | none => none
              | some (Except.error e, w3) =>
                some { result := Result.CreateError ("receive body error [" ++ e ++ "]"),
                       outHeader := ByteBuffer.ctorData msg2, outBody := outBody, world := w3 }
              | some (Except.ok req, w3) =>
                some { result := Result.CreateSuccess,
                       outHeader := ByteBuffer.ctorData msg2,
                       outBody := ByteBuffer.ctorData req, world := w3 }

end UnixDomainSocket

/-- The reliable FIFO datagram channel between an endpoint and its peer: the state is the
queue pending at the peer; every `sendto` queues its whole datagram and returns its
length. -/
def fifoChannel : TxKernel (List RxEvent) where
  sendto q d := ((d.length : Int), q ++ [RxEvent.datagram d])
  strerror _ := "Success"

/-- The datagrams of a body: pieces of 1024 bytes, the last one possibly shorter; `fuel`
bounds the number of pieces. -/
def chunksFuel : Nat → List Byte → List (List Byte)
  | 0, _ => []
  | fuel + 1, l => if l.isEmpty then [] else l.take 1024 :: chunksFuel fuel (l.drop 1024)

/-- The datagrams of a body. -/
def chunks (l : List Byte) : List (List Byte) := chunksFuel l.length l

/-! ## UnixDomainSocketServer (src/UnixDomainSocketServer.cpp) -/

/-- A request handler (`IRequestReceiver`): what `Received(request, response)` leaves in
its two buffer arguments. The callbacks `ReceiveError` and `ResponseError` take a
`const Result&` and change nothing of the server. -/
structure IRequestReceiver where
  Received : ByteBuffer → ByteBuffer → ByteBuffer × ByteBuffer

/-- A call made by the server worker on its request handler, with the arguments. -/
inductive ServerCallback where
  | Received (request response : ByteBuffer)
  | ReceiveError (result : Result)
  | ResponseError (result : Result)
deriving DecidableEq

/-- The server worker: the fields of `UnixDomainSocketServer`, the local variables of
`Run`, the two sides of the operating system, and a record of what the worker did: the
handler callbacks, the `Send` calls (header and body passed) and the datagrams passed to
`sendto`. -/
structure ServerState (σ : Type) where
  sock : UnixDomainSocket
  m_requestReceiver : Option IRequestReceiver
  m_isActive : Bool
  result : Result
  header : ByteBuffer
  request : ByteBuffer
  response : ByteBuffer
  rx : RxWorld
  tx : σ
  calls : List ServerCallback
  sendCalls : List (ByteBuffer × ByteBuffer)
  sent : List (List Byte)

/-- The body `"OK"` of a ping reply: `response.Append("OK")`, which selects the
printf-style overload. -/
def okText : List Byte := ascii "OK"

namespace UnixDomainSocketServer

/-- The declarations at the top of `Run`: `Result result; ByteBuffer header, request,
response;`. -/
def Run_entry {σ : Type} (sv : ServerState σ) : ServerState σ :=
  { sv with result := Result.default, header := ByteBuffer.ctor,
            request := ByteBuffer.ctor, response := ByteBuffer.ctor }

/-- One pass through the body of `while (m_isActive)` in `Run`, entered with the loop
condition true. `none`: the pass does not end (a blocked `Receive`, a `Send` loop that
does not end within `fuel`) or reads the type tag outside the header. -/
def Run_iteration {σ : Type} (K : TxKernel σ) (fuel : Nat) (sv : ServerState σ) :
    Option (ServerState σ) :=
  match sv.sock.Receive sv.rx sv.header sv.request with
  | none => none
  | some ro =>
    let sv1 := { sv with result := ro.result, header := ro.outHeader, request := ro.outBody,
                         rx := ro.world }
    if ro.result.IsError then
      match sv1.m_requestReceiver with
      | some _ => some { sv1 with calls := sv1.calls ++ [ServerCallback.ReceiveError ro.result] }
      | none => some sv1
    else if !sv1.m_isActive then
      some sv1
    else
      match sv1.header.Value (T := CUInt) with
      | (none, _) => none
      | (some requestType, header1) =>
        let sv2 := { sv1 with header := header1 }
        let sv3 :=
          if requestType = 2 then
            { sv2 with header := sv2.header.SetPosition 0,
                       response := sv2.response.AppendFormat okText }
          else
            match sv2.m_requestReceiver with
            | some receiver =>
              { sv2 with request := (receiver.Received sv2.request sv2.response).1,
                         response := (receiver.Received sv2.request sv2.response).2,
                         calls := sv2.calls
                           ++ [ServerCallback.Received sv2.request sv2.response] }
            | none => sv2
        match sv3.sock.Send K fuel sv3.tx sv3.header sv3.response with
        | none => none
        | some so =>
          let sv4 := { sv3 with result := so.result, tx := so.state,
                                sendCalls := sv3.sendCalls ++ [(sv3.header, sv3.response)],
                                sent := sv3.sent ++ so.datagrams }
          let sv5 :=
            if so.result.IsError ∧ sv4.m_requestReceiver.isSome ∧ requestType ≠ 2 then
              { sv4 with calls := sv4.calls ++ [ServerCallback.ResponseError so.result] }
            else sv4
          some { sv5 with response := sv5.response.Clear, request := sv5.request.Clear }

end UnixDomainSocketServer

/-- The states of the server worker at the head of its loop: the state on entry of `Run`,
and the state after any pass entered with the loop condition true. -/
inductive ServerReachable {σ : Type} (K : TxKernel σ) : ServerState σ → Prop where
  | entry (sv : ServerState σ) : ServerReachable K (UnixDomainSocketServer.Run_entry sv)
  | step (fuel : Nat) (sv next : ServerState σ) :
      ServerReachable K sv → sv.m_isActive = true →
      UnixDomainSocketServer.Run_iteration K fuel sv = some next → ServerReachable K next

/-! ## UnixDomainSocketClient (src/UnixDomainSocketClient.cpp) -/

/-- The client: the fields of `UnixDomainSocketClient` (`m_receiver` is represented by
whether a notify receiver is registered), the local variables of `Run`, the two sides of
the operating system, and a record of what the worker did: the buffers passed to
`ReceiveNotify` and the number of `Signal` calls. -/
structure ClientState (σ : Type) where
  sock : UnixDomainSocket
  m_receiver : Bool
  m_isActive : Bool
  m_responseArrived : Bool
  m_isResponseError : Result
  m_responseHeader : ByteBuffer
  m_response : ByteBuffer
  header : ByteBuffer
  response : ByteBuffer
  rx : RxWorld
  tx : σ
  notified : List ByteBuffer
  signals : Nat

namespace UnixDomainSocketClient

/-- One pass through the body of `while (m_isActive)` in the client `Run`, entered with
the loop condition true. The test `if (m_isResponseError)` converts the `Result` with
`operator bool`. `none`: the pass does not end or reads the type tag outside the
header. -/
def Run_iteration {σ : Type} (c : ClientState σ) : Option (ClientState σ) :=
  match c.sock.Receive c.rx c.header c.response with
  | none => none
  | some ro =>
    let c1 := { c with m_isResponseError := ro.result, header := ro.outHeader,
                       response := ro.outBody, rx := ro.world }
    if c1.m_isResponseError.toBool then
      some { c1 with m_responseArrived := true, signals := c1.signals + 1 }
    else if !c1.m_isActive then
      some c1
    else
      match c1.header.Value (T := CUInt) with
      | (none, _) => none
      | (some responseType, header1) =>
        let c2 := { c1 with header := header1.SetPosition 0 }
        let c3 :=
          if responseType = 0 then
            { c2 with m_responseArrived := true, m_responseHeader := c2.header,
                      m_response := c2.response, signals := c2.signals + 1 }
          else if responseType = 1 then
            if c2.m_receiver then { c2 with notified := c2.notified ++ [c2.response] }
            else c2
          else if responseType = 2 then
            { c2 with m_responseArrived := true, m_responseHeader := c2.header,
                      m_response := c2.response, signals := c2.signals + 1 }
          else c2
        some { c3 with response := c3.response.Clear }

/-- The loop `while (!m_responseArrived && m_isActive) responseLock.Wait();` of
`privateSendReceive`: while the caller waits, the worker makes passes through its loop
(at most `passes` of them; `none` when the wait has not ended by then). -/
def waitResponse {σ : Type} : Nat → ClientState σ → Option (ClientState σ)
  | 0, c => if !c.m_responseArrived && c.m_isActive then none else some c
  | passes + 1, c =>
    if !c.m_responseArrived && c.m_isActive then
      match Run_iteration c with
      | none => none
      | some next => waitResponse passes next
    else some c

/-- The method `privateSendReceive`: the result, the `response` argument after the call,
and the client afterwards. -/
def privateSendReceive {σ : Type} (K : TxKernel σ) (fuel passes : Nat) (c : ClientState σ)
    (request response : ByteBuffer) (requestType : CUInt) :
    Option (Result × ByteBuffer × ClientState σ) :=
  if !c.sock.IsOpend then
    some (Result.CreateError "closed socket", response, c)
  else
    let header := ByteBuffer.ctor.Append requestType
    match c.sock.Send K fuel c.tx header request with
    | none => none
    | some so =>
      if so.result.IsError then
        some (so.result, response, { c with tx := so.state })
      else
        let c1 := { c with tx := so.state, m_responseArrived := false,
                           m_isResponseError := Result.CreateSuccess,
                           m_responseHeader := c.m_responseHeader.Clear,
                           m_response := c.m_response.Clear }
        match waitResponse passes c1 with
        | none => none
        | some c2 =>
          if !c2.m_isActive then
            some (Result.CreateError "currently innactive", response, c2)
          else if c2.m_isResponseError.toBool then
            some (c2.m_isResponseError, response, c2)
          else
            match c2.m_responseHeader.Value (T := CUInt) with
            | (none, _) => none
            | (some responseType, _) =>
              let out := if responseType = 0 ∨ responseType = 2 then c2.m_response
                         else response
              some (Result.CreateSuccess, out,
                { c2 with m_responseArrived := false,
                          m_isResponseError := Result.CreateSuccess,
                          m_responseHeader := c2.m_responseHeader.Clear,
                          m_response := c2.m_response.Clear })

/-- The method `SendReceive`. -/
def SendReceive {σ : Type} (K : TxKernel σ) (fuel passes : Nat) (c : ClientState σ)
    (request response : ByteBuffer) : Option (Result × ByteBuffer × ClientState σ) :=
  privateSendReceive K fuel passes c request response 0

end UnixDomainSocketClient

/-- The text `p` occurs in the error message of `r`. -/
def Result.messageContains (r : Result) (p : String) : Prop :=
  p.toList <:+: r.m_errorMessage.toList

/-- The error message of `r` starts with the text `p`. -/
def Result.messageStartsWith (r : Result) (p : String) : Prop :=
  p.toList <+: r.m_errorMessage.toList

/-- A socket as `OpenSocket` leaves an owner endpoint on `/tmp/ipc`, default limit. -/
def openSocket : UnixDomainSocket :=
  { m_path := "/tmp/ipc", m_isOwner := true, m_txSocketFd := 3, m_rxSocketFd := 4,
    m_txAddress := "/tmp/ipc.tx", m_rxAddress := "/tmp/ipc.rx", m_isOpend := true,
    m_limitSize := 16777215 }

/-- An application header holding the type tag 0 (request/response). -/
def requestHeader : ByteBuffer := ByteBuffer.ctor.Append (0 : CUInt)

/-- A body holding the bytes of "hello". -/
def helloBody : ByteBuffer := ByteBuffer.ctorData (ascii "hello")

/-- A body of `2^32` zero bytes. -/
def overflowBody : ByteBuffer := ByteBuffer.ctorData (List.replicate 4294967296 0)

/-! ## Concrete scenarios -/

/-- The frame a client `Ping()` puts on the wire: tag 2, body `Append("PING")`. -/
def pingFrame : List RxEvent :=
  [RxEvent.datagram (protocolHeader 8), RxEvent.datagram [2, 0, 0, 0],
   RxEvent.datagram [4, 0, 0, 0, 0x50, 0x49, 0x4E, 0x47]]

/-- A server with no registered handler, on entry of `Run`, with a ping frame pending. -/
def pingServer : ServerState (List RxEvent) :=
  UnixDomainSocketServer.Run_entry
    { sock := openSocket, m_requestReceiver := none, m_isActive := true,
      result := Result.default, header := ByteBuffer.ctor, request := ByteBuffer.ctor,
      response := ByteBuffer.ctor, rx := { queue := pingFrame, errnoText := "Success" },
      tx := [], calls := [], sendCalls := [], sent := [] }

/-- What `Receive` returns for the ping frame. -/
def pingReceived : ReceiveOutcome :=
  { result := Result.CreateSuccess, outHeader := ByteBuffer.ctorData [2, 0, 0, 0],
    outBody := ByteBuffer.ctorData [4, 0, 0, 0, 0x50, 0x49, 0x4E, 0x47],
    world := { queue := [], errnoText := "Success" } }

/-- The socket of a client on `/tmp/ipc` after `OpenSocket`. -/
def clientSocket : UnixDomainSocket :=
  { m_path := "/tmp/ipc", m_isOwner := false, m_txSocketFd := 3, m_rxSocketFd := 4,
    m_txAddress := "/tmp/ipc.rx", m_rxAddress := "/tmp/ipc.tx", m_isOpend := true,
    m_limitSize := 16777215 }

/-- A client after construction (socket open, worker started) whose receive socket has
the events `events` coming. -/
def startedClient (receiver : Bool) (events : List RxEvent) : ClientState (List RxEvent) :=
  { sock := clientSocket, m_receiver := receiver, m_isActive := true,
    m_responseArrived := false, m_isResponseError := Result.default,
    m_responseHeader := ByteBuffer.ctor, m_response := ByteBuffer.ctor,
    header := ByteBuffer.ctor, response := ByteBuffer.ctor,
    rx := { queue := events, errnoText := "Success" }, tx := [],
    notified := [], signals := 0 }

/-- The reply of an echo server to the request "hello": tag 0, body "hello". -/
def echoFrame : List RxEvent :=
  [RxEvent.datagram (protocolHeader 5), RxEvent.datagram requestHeader.Data,
   RxEvent.datagram helloBody.Data]

/-- A malformed protocol header: eight bytes with the magic `DE AD BE EF`. -/
def malformedDatagram : RxEvent := RxEvent.datagram [0xDE, 0xAD, 0xBE, 0xEF, 0, 0, 0, 0]

/-- The frame of `Notify(update)` with `update` holding the 32-bit integer 42. -/
def notifyFrame : List RxEvent :=
  [RxEvent.datagram (protocolHeader 4), RxEvent.datagram [1, 0, 0, 0],
   RxEvent.datagram [42, 0, 0, 0]]

/-! ## Chains of ByteBuffer operations -/

/-- Overload `Value(char *_out)`: the `int` size is read, `strncpy` copies at most `size`
bytes from the read position (it stops at the first zero byte, at the latest at the
terminator that follows the sequence), `_out[size]` is set to zero, and the position
advances by `size`. The result is the C string left in `_out`. `none` when the size read
is undefined or negative. -/
def ByteBuffer.ValueCStr (b : ByteBuffer) : Option (List Byte × ByteBuffer) :=
  match b.Value (T := CInt) with
  | (none, _) => none
  | (some size, b1) =>
    if size.val < 0 then none
    else
      some (ByteBuffer.cstr ((b1.m_buffer.drop b1.m_position).take size.val.toNat),
            { b1 with m_position := (b1.m_position + size.val.toNat) % 4294967296 })

/-- The argument of one `Append` call, by overload. -/
inductive AppendArg : Type 1 where
  | primitive {T : Type} [Primitive T] (v : T)
  | size (v : Nat)
  | string (s : List Byte)
  | cstring (text : List Byte)
  | buffer (inner : ByteBuffer)
  | vector {T : Type} [Primitive T] (v : List T)
  | map {K V : Type} [Primitive K] [Primitive V] (m : List (K × V))

namespace AppendArg

/-- The `Append` call for an argument. -/
def apply (b : ByteBuffer) : AppendArg → ByteBuffer
  | primitive v => b.Append v
  | size v => b.AppendSize v
  | string s => b.AppendString s
  | cstring text => b.AppendCStr text
  | buffer inner => b.AppendBuffer inner
  | vector v => b.AppendVector v
  | map m => b.AppendMap m

end AppendArg

/-- One operation on a `ByteBuffer`: an `Append`, `Clear`, `SetPosition`, or a `Value`
read of one of the shapes. -/
inductive BufferOp : Type 1 where
  | append (a : AppendArg)
  | clear
  | setPosition (pos : CUInt)
  | value (T : Type) [Primitive T]
  | valueSize
  | valueString
  | valueCString
  | valueBuffer
  | valueVector (T : Type) [Primitive T]
  | valueMap (K V : Type) [LinearOrder K] [Primitive K] [Primitive V]

namespace BufferOp

/-- The buffer after an operation; `none` when a counted read is undefined. -/
def apply (b : ByteBuffer) : BufferOp → Option ByteBuffer
  | append a => some (a.apply b)
  | clear => some b.Clear
  | setPosition pos => some (b.SetPosition pos)
  | value T => some (b.Value (T := T)).2
  | valueSize => some b.ValueSize.2
  | valueString => b.ValueString.map Prod.snd
  | valueCString => b.ValueCStr.map Prod.snd
  | valueBuffer => b.ValueBuffer.map Prod.snd
  | valueVector T => (b.ValueVector (T := T) []).map Prod.snd
  | valueMap K V => (b.ValueMap (K := K) (V := V) []).map Prod.snd

/-- The operation stays inside the buffer: a `SetPosition` is to a position at most the
size, and the bytes that a read consumes all lie before the end (for the counted reads
that return a value this is part of their being defined). -/
def inBounds (b : ByteBuffer) : BufferOp → Prop
  | setPosition pos => pos.val ≤ b.Size
  | value T => b.Position + Primitive.sizeof T ≤ b.Size
  | valueSize => b.Position + 4 ≤ b.Size
  | valueCString =>
    ∀ size b1, b.Value (T := CInt) = (some size, b1) →
      b.Position + 4 + size.val.toNat ≤ b.Size
  | _ => True

end BufferOp

/-- The buffer states reachable from a constructor through `Append`, `Value` of any
shape, `SetPosition` and `Clear`. -/
inductive BufferReachable : ByteBuffer → Prop where
  | ctor : BufferReachable ByteBuffer.ctor
  | ctorData (data : List Byte) : BufferReachable (ByteBuffer.ctorData data)
  | ctorRaw (mem : List Byte) (size : Nat) (b : ByteBuffer) :
      ByteBuffer.ctorRaw mem size = some b → BufferReachable b
  | step (b next : ByteBuffer) (op : BufferOp) :
      BufferReachable b → op.apply b = some next → BufferReachable next

/-- The buffer states reachable from a constructor through operations that stay inside
the buffer. -/
inductive BufferInBoundsReachable : ByteBuffer → Prop where
  | ctor : BufferInBoundsReachable ByteBuffer.ctor
  | ctorData (data : List Byte) : BufferInBoundsReachable (ByteBuffer.ctorData data)
  | ctorRaw (mem : List Byte) (size : Nat) (b : ByteBuffer) :
      ByteBuffer.ctorRaw mem size = some b → BufferInBoundsReachable b
  | step (b next : ByteBuffer) (op : BufferOp) :
      BufferInBoundsReachable b → op.inBounds b → op.apply b = some next →
      BufferInBoundsReachable next

/-! ## Opening and closing the socket (src/UnixDomainSocket.cpp) -/

/-- A call made by `OpenSocket` / `CloseSocket` to the operating system, with its
arguments and, for `socket` and `bind`, its result. -/
inductive SocketCall where
  | socket (fd : Int)
  | unlink (path : String)
  | bind (fd : Int) (path : String) (ret : Int)
  | close (fd : Int)
deriving DecidableEq

/-- Whether a call is an `unlink`. -/
def SocketCall.isUnlink : SocketCall → Bool
  | SocketCall.unlink _ => true
  | _ => false

/-- What the operating system answers to the calls of one `OpenSocket`: the descriptors
returned by the two `socket` calls, the result of `bind`, and the text of
`strerror(errno)` after a failed `bind`. -/
structure OpenEnv where
  txFd : Int
  rxFd : Int
  bindRet : Int
  errorText : String

/-- The C string `name.c_str()` as the callee reads it: the text before the first NUL. -/
def cString (name : String) : String :=
  String.mk (name.toList.takeWhile (fun c => c != Char.ofNat 0))

/-- The size of the member `sun_path` of `struct sockaddr_un` (108 on Linux). -/
def SUN_PATH_SIZE : Nat := 108

/-- The call `strcpy(address.sun_path, name.c_str())`: the C string left in `sun_path`.
`none` when the bytes of the C string and its terminator do not fit the array: the copy
is not checked and writes past the member, which is undefined. -/
def strcpySunPath (name : String) : Option String :=
  if (utf8 (cString name)).length < SUN_PATH_SIZE then some (cString name) else none

namespace UnixDomainSocket

/-- Constructor `UnixDomainSocket(path, isOwner)`. The two addresses are not initialised
by the constructor; they are represented by the empty path. -/
def ctor (path : String) (isOwner : Bool) : UnixDomainSocket :=
  { m_path := path, m_isOwner := isOwner, m_txSocketFd := -1, m_rxSocketFd := -1,
    m_txAddress := "", m_rxAddress := "", m_isOpend := false, m_limitSize := 16777215 }

/-- The tx part of `OpenSocket`: `if (m_txSocketFd == -1) { ... }`. `none`: the `strcpy`
writes past `sun_path`. -/
def openTx (s : UnixDomainSocket) (env : OpenEnv) :
    Option (UnixDomainSocket × List SocketCall) :=
  if s.m_txSocketFd = -1 then
    let name := s.m_path ++ (if s.m_isOwner then ".tx" else ".rx")
    match strcpySunPath name with
    | none => none
    | some path =>
      some ({ s with m_txSocketFd := env.txFd, m_txAddress := path },
            [SocketCall.socket env.txFd])
  else some (s, [])

/-- The method `OpenSocket`: the result, the socket afterwards, and the calls made.
`none`: a `strcpy` writes past `sun_path`. -/
def OpenSocket (s : UnixDomainSocket) (env : OpenEnv) :
    Option (Result × UnixDomainSocket × List SocketCall) :=
  if s.IsOpend then some (Result.default, s, [])
  else
    match s.openTx env with
    | none => none
    | some (s1, calls1) =>
      if s1.m_rxSocketFd = -1 then
        let name := s1.m_path ++ (if s1.m_isOwner then ".rx" else ".tx")
        match strcpySunPath name with
        | none => none
        | some path =>
          let result :=
            if env.bindRet = -1 then
              Result.CreateError ("open socket error [" ++ env.errorText ++ "]")
            else Result.default
          some (result,
            { s1 with m_rxSocketFd := env.rxFd, m_rxAddress := path,
                      m_isOpend := decide (env.bindRet ≠ -1) },
            calls1 ++ [SocketCall.socket env.rxFd, SocketCall.unlink (cString name),
                       SocketCall.bind env.rxFd path env.bindRet])
      else some (Result.default, s1, calls1)

/-- The method `CloseSocket`: the socket afterwards and the calls made. -/
def CloseSocket (s : UnixDomainSocket) : UnixDomainSocket × List SocketCall :=
  if !s.IsOpend then (s, [])
  else
    let callsTx := if s.m_txSocketFd ≠ -1 then [SocketCall.close s.m_txSocketFd] else []
    let callsRx := if s.m_rxSocketFd ≠ -1 then [SocketCall.close s.m_rxSocketFd] else []
    let name := s.m_path ++ (if s.m_isOwner then ".rx" else ".tx")
    ({ s with m_txSocketFd := -1, m_rxSocketFd := -1, m_isOpend := false },
     callsTx ++ callsRx ++ [SocketCall.unlink (cString name)])

end UnixDomainSocket

/-- A request handler that copies the request into the response. -/
def echoHandler : IRequestReceiver :=
  { Received := fun request _ => (request, ByteBuffer.ctorData request.Data) }

/-- A call made to the POSIX API for named semaphores and shared memory objects. A
semaphore is named by its object number in the kernel, a mapping by its number. -/
inductive PosixCall where
  | sem_unlink (name : String)
  | sem_open (name : String) (create : Bool)
  | sem_close (sem : Nat)
  | sem_wait (sem : Nat)
  | sem_getvalue (sem : Nat)
  | sem_post (sem : Nat)
  | shm_unlink (name : String)
  | shm_open (name : String) (create : Bool)
  | ftruncate (name : String) (size : Nat)
  | mmap (name : String) (size : Nat)
  | munmap (map : Nat)
  | close (name : String)
deriving DecidableEq

/-- The kernel side of the named objects, in a sequential model: the names of the
semaphores (each bound to a semaphore object), the value of every semaphore object, the
names and sizes of the shared memory objects, the number of mappings made, the calls made
so far, and the lines written to standard error. An open fails only because the name is
absent (or, for an exclusive create, present). -/
structure Posix where
  semNames : List (String × Nat)
  semValues : List Nat
  shmNames : List (String × Nat)
  maps : Nat
  calls : List PosixCall
  stderr : List String
deriving DecidableEq

namespace Posix

/-- The value of a semaphore object. -/
def semValue (k : Posix) (sem : Nat) : Nat := k.semValues.getD sem 0

def log (k : Posix) (c : PosixCall) : Posix := { k with calls := k.calls ++ [c] }

def print (k : Posix) (line : String) : Posix := { k with stderr := k.stderr ++ [line] }

/-- The call `sem_unlink(name)`. -/
def semUnlink (k : Posix) (name : String) : Posix :=
  { (k.log (PosixCall.sem_unlink name)) with
    semNames := k.semNames.filter (fun e => e.1 != name) }

/-- The call `sem_open(name, O_CREAT|O_RDWR|O_EXCL, mode, value)`: `none` is `SEM_FAILED`. -/
def semCreate (k : Posix) (name : String) (value : Nat) : Option Nat × Posix :=
  let k1 := k.log (PosixCall.sem_open name true)
  match k.semNames.lookup name with
  | some _ => (none, k1)
  | none =>
    (some k.semValues.length,
     { k1 with semNames := (name, k.semValues.length) :: k.semNames,
               semValues := k.semValues ++ [value] })

/-- The call `sem_open(name, flags, mode)` without `O_CREAT`: `none` is `SEM_FAILED`. -/
def semOpen (k : Posix) (name : String) : Option Nat × Posix :=
  (k.semNames.lookup name, k.log (PosixCall.sem_open name false))

def semClose (k : Posix) (sem : Nat) : Posix := k.log (PosixCall.sem_close sem)

/-- The call `sem_wait`: decrements a positive value; `none` when the value is 0 and the
call blocks. -/
def semWait (k : Posix) (sem : Nat) : Option Posix :=
  if 0 < k.semValue sem then
    some { (k.log (PosixCall.sem_wait sem)) with
           semValues := k.semValues.set sem (k.semValue sem - 1) }
  else none

/-- The call `sem_getvalue`. -/
def semGetvalue (k : Posix) (sem : Nat) : Int × Posix :=
  ((k.semValue sem : Int), k.log (PosixCall.sem_getvalue sem))

/-- The call `sem_post`. -/
def semPost (k : Posix) (sem : Nat) : Posix :=
  { (k.log (PosixCall.sem_post sem)) with
    semValues := k.semValues.set sem (k.semValue sem + 1) }

/-- The call `shm_unlink(name)`. -/
def shmUnlink (k : Posix) (name : String) : Posix :=
  { (k.log (PosixCall.shm_unlink name)) with
    shmNames := k.shmNames.filter (fun e => e.1 != name) }

/-- The call `shm_open(name, O_CREAT|O_RDWR|O_EXCL, mode)`: `false` is the result -1. -/
def shmCreate (k : Posix) (name : String) : Bool × Posix :=
  let k1 := k.log (PosixCall.shm_open name true)
  match k.shmNames.lookup name with
  | some _ => (false, k1)
  | none => (true, { k1 with shmNames := (name, 0) :: k.shmNames })

/-- The call `shm_open(name, flags, mode)` without `O_CREAT`: `false` is the result -1. -/
def shmOpen (k : Posix) (name : String) : Bool × Posix :=
  ((k.shmNames.lookup name).isSome, k.log (PosixCall.shm_open name false))

/-- The call `ftruncate(fd, size)` on the descriptor of the object `name`. -/
def ftruncate (k : Posix) (name : String) (size : Nat) : Posix :=
  { (k.log (PosixCall.ftruncate name size)) with
    shmNames := k.shmNames.map (fun e => if e.1 == name then (e.1, size) else e) }

/-- The call `mmap(NULL, size, ..., fd, 0)`: the number of the new mapping. -/
def mmap (k : Posix) (name : String) (size : Nat) : Nat × Posix :=
  (k.maps, { (k.log (PosixCall.mmap name size)) with maps := k.maps + 1 })

end Posix

/-- The name check made by every named resource: `empty` when `name.size() == 0`,
`noSlash` when `name[0] != '/'`. -/
inductive NameCheck where
  | empty
  | noSlash
  | valid
deriving DecidableEq

def checkName (name : String) : NameCheck :=
  match name.toList with
  | [] => NameCheck.empty
  | c :: _ => if c ≠ '/' then NameCheck.noSlash else NameCheck.valid

/-- The fields of the class `Semaphore`; `m_semaphore` is `none` for `NULL`. -/
structure Semaphore where
  m_name : String
  m_isOwner : Bool
  m_semaphore : Option Nat
deriving DecidableEq

namespace Semaphore

/-- The static method `Semaphore::Exist`. -/
def Exist (k : Posix) (name : String) : Result × Posix :=
  match checkName name with
  | NameCheck.empty =>
    (Result.CreateError ("semaphore invalid name [" ++ "empty name" ++ "]\n"), k)
  | NameCheck.noSlash =>
    (Result.CreateError ("semaphore invalid name [" ++ "it does not begin with '/'" ++ "]\n"), k)
  | NameCheck.valid =>
    match k.semOpen name with
    | (none, k1) => (Result.CreateError ("semaphore open error [" ++ "No such file or directory" ++ "]\n"), k1)
    | (some sem, k1) => (Result.CreateSuccess, k1.semClose sem)

/-- Constructor `Semaphore(name, isOwner)`. -/
def ctor (k : Posix) (name : String) (isOwner : Bool) : Semaphore × Posix :=
  match checkName name with
  | NameCheck.empty =>
    ({ m_name := name, m_isOwner := isOwner, m_semaphore := none },
     k.print ("semaphore creation error [" ++ "empty name" ++ "]\n"))
  | NameCheck.noSlash =>
    ({ m_name := name, m_isOwner := isOwner, m_semaphore := none },
     k.print ("semaphore creation error [" ++ "it does not begin with '/'" ++ "]\n"))
  | NameCheck.valid =>
    let k1 := if isOwner then k.semUnlink name else k
    let r := if isOwner then k1.semCreate name 1 else k1.semOpen name
    match r.1 with
    | none =>
      ({ m_name := name, m_isOwner := isOwner, m_semaphore := none },
       r.2.print ("semaphore creation error [" ++ (if isOwner then "File exists" else "No such file or directory") ++ "]\n"))
    | some sem => ({ m_name := name, m_isOwner := isOwner, m_semaphore := some sem }, r.2)

/-- Destructor of `Semaphore`. -/
def dtor (k : Posix) (s : Semaphore) : Posix :=
  match s.m_semaphore with
  | none => k
  | some sem =>
    let k1 := k.semClose sem
    if s.m_isOwner then k1.semUnlink s.m_name else k1

/-- The method `Wait`; `none` when `sem_wait` blocks. -/
def Wait (k : Posix) (s : Semaphore) : Option Posix :=
  match s.m_semaphore with
  | none => some k
  | some sem => k.semWait sem

/-- The method `Post`. -/
def Post (k : Posix) (s : Semaphore) : Posix :=
  match s.m_semaphore with
  | none => k
  | some sem =>
    let r := k.semGetvalue sem
    if r.1 < 1 then r.2.semPost sem else r.2

end Semaphore

/-- An operation on a semaphore in the sequential model. -/
inductive SemaphoreOp where
  | Wait
  | Post
deriving DecidableEq

/-- A sequence of `Wait` and `Post` calls on one semaphore; `none` when a `Wait` blocks. -/
def Semaphore.run (s : Semaphore) : List SemaphoreOp → Posix → Option Posix
  | [], k => some k
  | SemaphoreOp.Wait :: ops, k =>
    match s.Wait k with
    | none => none
    | some k1 => s.run ops k1
  | SemaphoreOp.Post :: ops, k => s.run ops (s.Post k)

/-- The fields of the class `SharedMemory`; `m_memoryMap` and `m_semaphore` are `none`
for `NULL`. -/
structure SharedMemory where
  m_name : String
  m_isOwner : Bool
  m_memoryMap : Option Nat
  m_size : Nat
  m_semaphore : Option Semaphore
deriving DecidableEq

namespace SharedMemory

/-- The static method `SharedMemory::Exist`. -/
def Exist (k : Posix) (name : String) : Result × Posix :=
  match checkName name with
  | NameCheck.empty =>
    (Result.CreateError ("shared memory invalid name [" ++ "empty name" ++ "]\n"), k)
  | NameCheck.noSlash =>
    (Result.CreateError
      ("shared memory invalid name [" ++ "it does not begin with '/'" ++ "]\n"), k)
  | NameCheck.valid =>
    match k.shmOpen name with
    | (false, k1) =>
      (Result.CreateError
        ("shared memory open error [" ++ "No such file or directory" ++ "]\n"), k1)
    | (true, k1) => (Result.CreateSuccess, k1.log (PosixCall.close name))

/-- The object as the member initialisers leave it. -/
def inert (name : String) (isOwner : Bool) : SharedMemory :=
  { m_name := name, m_isOwner := isOwner, m_memoryMap := none, m_size := 0,
    m_semaphore := none }

/-- Constructor `SharedMemory(name, size, isOwner)`. -/
def ctor (k : Posix) (name : String) (size : Nat) (isOwner : Bool) : SharedMemory × Posix :=
  match checkName name with
  | NameCheck.empty =>
    (inert name isOwner, k.print ("shared memory invalid name [" ++ "empty name" ++ "]\n"))
  | NameCheck.noSlash =>
    (inert name isOwner,
     k.print ("shared memory invalid name [" ++ "it does not begin with '/'" ++ "]\n"))
  | NameCheck.valid =>
    if size = 0 then
      (inert name isOwner, k.print ("shared memory creation error [" ++ "size is 0" ++ "]\n"))
    else
      let r := if isOwner then (k.shmUnlink name).shmCreate name else k.shmOpen name
      if !r.1 then
        (inert name isOwner,
         r.2.print ("shared memory creation error ["
           ++ (if isOwner then "File exists" else "No such file or directory") ++ "]\n"))
      else
        let k2 := if isOwner then r.2.ftruncate name size else r.2
        let m := k2.mmap name size
        let k3 := m.2.log (PosixCall.close name)
        let sem := Semaphore.ctor k3 name isOwner
        ({ m_name := name, m_isOwner := isOwner, m_memoryMap := some m.1, m_size := size,
           m_semaphore := some sem.1 }, sem.2)

/-- Destructor of `SharedMemory`. -/
def dtor (k : Posix) (sm : SharedMemory) : Posix :=
  match sm.m_memoryMap with
  | none => k
  | some map =>
    let k1 := k.log (PosixCall.munmap map)
    let k2 := if sm.m_isOwner then k1.shmUnlink sm.m_name else k1
    match sm.m_semaphore with
    | none => k2
    | some sem => Semaphore.dtor k2 sem

/-- The method `Wait`: `if (m_memoryMap) m_semaphore->Wait();` (the constructor sets
`m_semaphore` whenever it sets `m_memoryMap`); `none` when the semaphore blocks. -/
def Wait (k : Posix) (sm : SharedMemory) : Option Posix :=
  match sm.m_memoryMap, sm.m_semaphore with
  | some _, some sem => sem.Wait k
  | _, _ => some k

/-- The method `Post`: `if (m_memoryMap) m_semaphore->Post();`. -/
def Post (k : Posix) (sm : SharedMemory) : Posix :=
  match sm.m_memoryMap, sm.m_semaphore with
  | some _, some sem => sem.Post k
  | _, _ => k

end SharedMemory

/-- The class `SharedMemoryContext`: the map `m_sharedMemories` from names to pointers
(`none` for `NULL`, otherwise the address of an object in `heap`), and the `SharedMemory`
objects created with `new`, by address. -/
structure SharedMemoryContext where
  m_sharedMemories : List (String × Option Nat)
  heap : List SharedMemory
deriving DecidableEq

namespace SharedMemoryContext

/-- Constructor `SharedMemoryContext()`. -/
def ctor : SharedMemoryContext := { m_sharedMemories := [], heap := [] }

/-- The expression `new SharedMemory(name, size, isOwner)`: the pointer, the context with
the new object, and the kernel afterwards. -/
def newSharedMemory (k : Posix) (ctx : SharedMemoryContext) (name : String) (size : Nat)
    (isOwner : Bool) : Option Nat × SharedMemoryContext × Posix :=
  (some ctx.heap.length,
   { ctx with heap := ctx.heap ++ [(SharedMemory.ctor k name size isOwner).1] },
   (SharedMemory.ctor k name size isOwner).2)

/-- The method `bindSharedMemory`: the pointer returned, the context and the kernel
afterwards. -/
def bindSharedMemory (k : Posix) (ctx : SharedMemoryContext) (name : String) (size : Nat)
    (isOwner : Bool) : Option Nat × SharedMemoryContext × Posix :=
  match ctx.m_sharedMemories.lookup name with
  | none =>
    let r : Option Nat × SharedMemoryContext × Posix :=
      if isOwner then newSharedMemory k ctx name size isOwner
      else
        let e := SharedMemory.Exist k name
        if e.1.IsSuccess then newSharedMemory e.2 ctx name size isOwner
        else (none, ctx, e.2)
    (r.1,
     { r.2.1 with m_sharedMemories := ByteBuffer.mapInsert r.2.1.m_sharedMemories (name, r.1) },
     r.2.2)
  | some sm => (sm, ctx, k)

/-- Template `Bind<T>(name, isOwner)`, with `sizeofT` for `sizeof(T)`. -/
def Bind (k : Posix) (ctx : SharedMemoryContext) (sizeofT : Nat) (name : String)
    (isOwner : Bool) : Option Nat × SharedMemoryContext × Posix :=
  bindSharedMemory k ctx name sizeofT isOwner

end SharedMemoryContext

/-- The contexts reachable from the constructor through `Bind` calls, whatever the kernel
state at each call. -/
inductive ContextReachable : SharedMemoryContext → Prop where
  | ctor : ContextReachable SharedMemoryContext.ctor
  | bind (k : Posix) (ctx : SharedMemoryContext) (sizeofT : Nat) (name : String)
      (isOwner : Bool) :
      ContextReachable ctx → ContextReachable (SharedMemoryContext.Bind k ctx sizeofT name isOwner).2.1

/-- A kernel with no named object. -/
def emptyPosix : Posix :=
  { semNames := [], semValues := [], shmNames := [], maps := 0, calls := [], stderr := [] }

/-- The context after `Bind<T>("/r", false)` (with `sizeof(T) = 8`) on a kernel where no
region `/r` exists: the call returns `NULL`. -/
def earlyBoundContext : SharedMemoryContext :=
  (SharedMemoryContext.Bind emptyPosix SharedMemoryContext.ctor 8 "/r" false).2.1

/-- The kernel after an owner (in another process) has then constructed
`SharedMemory("/r", 8, true)`. -/
def ownerPosix : Posix :=
  (SharedMemory.ctor
    (SharedMemoryContext.Bind emptyPosix SharedMemoryContext.ctor 8 "/r" false).2.2
    "/r" 8 true).2

/-! ## Result values (src/Result.cpp) -/

/-- The copy constructor `Result(const Result&)`: both fields are copied. -/
def Result.copy (r : Result) : Result :=
  { m_result := r.m_result, m_errorMessage := r.m_errorMessage }

/-- The `Result` values a program can hold: built by the default constructor, by the
constructor `Result(bool, const std::string&)` (the factories `CreateSuccess` and
`CreateError` build theirs with it), or copied from such a value. -/
inductive Result.Constructed : Result → Prop where
  | default : Result.Constructed Result.default
  | ctor (r : Bool) (errorMessage : String) : Result.Constructed (Result.ctor r errorMessage)
  | copy (r : Result) : Result.Constructed r → Result.Constructed r.copy

/-- The bytes of the message held by a `Result`. -/
def Result.messageBytes (r : Result) : List Byte :=
  r.m_errorMessage.toList.map (fun c => byteOf c.toNat)

/-- A formatted text of 1023 bytes, one more than `CreateError` keeps. -/
def longErrorText : String := String.mk (List.replicate 1023 'a')

/-! ## Thread (include/Thread.h, src/Thread.cpp) -/

/-- A `struct timespec`. -/
structure Timespec where
  tv_sec : Int
  tv_nsec : Int
deriving DecidableEq

/-- The duration of a `struct timespec` in nanoseconds. -/
def Timespec.nanoseconds (t : Timespec) : Int := t.tv_sec * 1000000000 + t.tv_nsec

/-- Conversion of an `unsigned long` to `long` (64 bits). -/
def castULongToLong (n : Nat) : Int :=
  if n % 18446744073709551616 < 9223372036854775808 then
    ((n % 18446744073709551616 : Nat) : Int)
  else ((n % 18446744073709551616 : Nat) : Int) - 18446744073709551616

/-- A call made by `Thread` to the threading API, with the thread handle passed (for
`pthread_create`, the handle stored in `m_thread`). -/
inductive ThreadCall where
  | pthread_create (thread : Nat)
  | pthread_join (thread : Nat)
  | pthread_cancel (thread : Nat)
deriving DecidableEq

/-- The fields of the class `Thread`; the two pointers are represented by an optional
address. -/
structure Thread where
  m_thread : Nat
  m_runnable : Option Nat
  m_parameter : Option Nat
  m_name : String
  m_threadId : Nat
  m_isActive : Bool
deriving DecidableEq

namespace Thread

/-- The static function `NanoSleepFunc(sec, nsec)`: the request passed to `nanosleep`. -/
def NanoSleepFunc (sec nsec : Nat) : Timespec :=
  { tv_sec := castULongToLong sec, tv_nsec := castULongToLong nsec }

/-- The static method `MilliSleep`: the request passed to `nanosleep`. The product
`millisec*1000000` has the type `unsigned int` of its operands, and is then converted to
`unsigned long`. -/
def MilliSleep (millisec : CUInt) : Timespec :=
  let time := (millisec.val * 1000000) % 4294967296
  NanoSleepFunc (time / 1000000000) (time % 1000000000)

/-- The static method `MicroSleep`: as `MilliSleep`, with the product `microsec*1000`. -/
def MicroSleep (microsec : CUInt) : Timespec :=
  let time := (microsec.val * 1000) % 4294967296
  NanoSleepFunc (time / 1000000000) (time % 1000000000)

/-- The static method `NanoSleep`. -/
def NanoSleep (nsec : CUInt) : Timespec :=
  let time := nsec.val
  NanoSleepFunc (time / 1000000000) (time % 1000000000)

/-- Constructor `Thread()`. -/
def ctor : Thread :=
  { m_thread := 0, m_runnable := none, m_parameter := none, m_name := "", m_threadId := 0,
    m_isActive := false }

/-- Constructor `Thread(IRunnable *runnable, void *param)`. -/
def ctorRunner (runnable param : Option Nat) : Thread :=
  { m_thread := 0, m_runnable := runnable, m_parameter := param, m_name := "",
    m_threadId := 0, m_isActive := false }

def IsActive (t : Thread) : Bool := t.m_isActive

/-- The method `Start`: the thread afterwards and the calls made; `created` is the handle
that `pthread_create` stores in `m_thread`. -/
def Start (t : Thread) (created : Nat) : Thread × List ThreadCall :=
  if t.m_isActive then (t, [])
  else ({ t with m_isActive := true, m_thread := created }, [ThreadCall.pthread_create created])

/-- The method `Join`: the thread afterwards and the calls made. -/
def Join (t : Thread) : Thread × List ThreadCall :=
  (t, [ThreadCall.pthread_join t.m_thread])

/-- The method `Cancel`: the thread afterwards and the calls made. -/
def Cancel (t : Thread) : Thread × List ThreadCall :=
  (t, [ThreadCall.pthread_cancel t.m_thread])

/-- What the cleanup handler of the worker leaves in the fields it is given pointers to,
when the worker has returned or was cancelled: `*threadId = 0; *isActive = false;`. -/
def finished (t : Thread) : Thread := { t with m_threadId := 0, m_isActive := false }

end Thread

/-! ## A second `OpenSocket` after a failed bind -/

/-- An answer of the operating system to `OpenSocket` in which both `socket` calls
succeed and `bind` fails. -/
def bindFails : OpenEnv :=
  { txFd := 3, rxFd := 4, bindRet := -1, errorText := "Address already in use" }

/-- The owner endpoint on `/tmp/ipc` after an `OpenSocket` that failed at `bind`. -/
def failedOpen : UnixDomainSocket :=
  { m_path := "/tmp/ipc", m_isOwner := true, m_txSocketFd := 3, m_rxSocketFd := 4,
    m_txAddress := "/tmp/ipc.tx", m_rxAddress := "/tmp/ipc.rx", m_isOpend := false,
    m_limitSize := 16777215 }

/-- An answer of the operating system to `OpenSocket` in which every call succeeds. -/
def bindSucceeds : OpenEnv :=
  { txFd := 3, rxFd := 4, bindRet := 0, errorText := "Success" }

/-- A base path with a NUL character in it. -/
def nulPath : String := String.mk ("/tmp/ipc".toList ++ [Char.ofNat 0, 'x'])

/-- A base path of 200 characters. -/
def longPath : String := String.mk (List.replicate 200 'a')

/-- The sending side of an endpoint without a peer: every `sendto` fails and transmits
nothing. -/
def noPeer : TxKernel (List RxEvent) where
  sendto q _ := (-1, q)
  strerror _ := "No such file or directory"

/-! ## MessageQueue (src/MessageQueue.cpp) -/

/-- The `struct mq_attr`. -/
structure MqAttr where
  mq_flags : Int
  mq_maxmsg : Int
  mq_msgsize : Int
  mq_curmsgs : Int
deriving DecidableEq

/-- A call made to the POSIX message queue API or to the clock, with its arguments. -/
inductive MqCall where
  | mq_unlink (name : String)
  | mq_open (name : String) (create : Bool)
  | mq_getattr (mq : Int)
  | mq_close (mq : Int)
  | mq_send (mq : Int) (msg : List Byte) (priority : Nat)
  | mq_timedsend (mq : Int) (msg : List Byte) (priority : Nat) (timeout : Timespec)
  | mq_receive (mq : Int) (len : Nat)
  | mq_timedreceive (mq : Int) (len : Nat) (timeout : Timespec)
  | clock_gettime
deriving DecidableEq

/-- The operating system as a message queue handle sees it, over any state `σ`. Every
call takes the state and returns its result with the next state. `mq_open` returns the
descriptor or -1; `mq_getattr` returns its result and the attributes it stores on
success; the two untimed transfers return `none` when they block for ever; a receive
returns the size and the bytes of the message; `strerror` is the text of
`strerror(errno)` in a state. -/
structure MqKernel (σ : Type) where
  mq_unlink : σ → String → σ
  mq_create : σ → String → Int → Int → Int × σ
  mq_open : σ → String → Int × σ
  mq_getattr : σ → Int → Int × MqAttr × σ
  mq_close : σ → Int → σ
  mq_send : σ → Int → List Byte → Nat → Option (Int × σ)
  mq_timedsend : σ → Int → List Byte → Nat → Timespec → Int × σ
  mq_receive : σ → Int → Nat → Option (Int × List Byte × σ)
  mq_timedreceive : σ → Int → Nat → Timespec → Int × List Byte × σ
  clock_gettime : σ → Timespec × σ
  strerror : σ → String

/-- The state of the operating system together with a record of the calls made so far
and of the lines written to standard error. -/
structure MqWorld (σ : Type) where
  state : σ
  calls : List MqCall
  stderr : List String

/-- The world after a call `c` that left the operating system in `st`. -/
def MqWorld.after {σ : Type} (w : MqWorld σ) (c : MqCall) (st : σ) : MqWorld σ :=
  { w with state := st, calls := w.calls ++ [c] }

def MqWorld.print {σ : Type} (w : MqWorld σ) (line : String) : MqWorld σ :=
  { w with stderr := w.stderr ++ [line] }

/-- Expansion of the conversion `%ld`. -/
def fmtLd (v : Int) : String := toString v

/-- The function `timeAdd(t1, t2)`. -/
def timeAdd (t1 t2 : Timespec) : Timespec :=
  let sec := t2.tv_sec + t1.tv_sec
  let nsec := t2.tv_nsec + t1.tv_nsec
  if nsec ≥ 1000000000 then { tv_sec := sec + 1, tv_nsec := nsec - 1000000000 }
  else { tv_sec := sec, tv_nsec := nsec }

/-- The timeout of a timed transfer: `long time = millisec*MILLION` (the product is taken
in `unsigned long`), split into seconds and nanoseconds and added to the clock value. -/
def mqTimeout (now : Timespec) (millisec : Nat) : Timespec :=
  let time := castULongToLong ((millisec * 1000000) % 18446744073709551616)
  timeAdd now { tv_sec := Int.tdiv time 1000000000, tv_nsec := Int.tmod time 1000000000 }

/-- The fields of the class `MessageQueue`; `m_notification` is an optional address. -/
structure MessageQueue where
  m_name : String
  m_isOwner : Bool
  m_messageQueue : Int
  m_attribute : MqAttr
  m_notification : Option Nat
deriving DecidableEq

namespace MessageQueue

/-- The priority `PRIORITY` of every message sent. -/
def PRIORITY : Nat := 10

/-- The method `Init`, called by both constructors. -/
def Init {σ : Type} (K : MqKernel σ) (q : MessageQueue) (w : MqWorld σ)
    (maxMessageCount maxMessageSize : Int) : MessageQueue × MqWorld σ :=
  match checkName q.m_name with
  | NameCheck.empty =>
    (q, w.print ("message queue creation error [" ++ "empty name" ++ "]\n"))
  | NameCheck.noSlash =>
    (q, w.print ("message queue creation error [" ++ "it does not begin with '/'" ++ "]\n"))
  | NameCheck.valid =>
    let w1 := if q.m_isOwner then w.after (MqCall.mq_unlink q.m_name)
                (K.mq_unlink w.state q.m_name) else w
    let r := if q.m_isOwner then
        K.mq_create w1.state q.m_name (if maxMessageCount > 0 then maxMessageCount else 10)
          (if maxMessageSize > 0 then maxMessageSize else 8192)
      else K.mq_open w1.state q.m_name
    let w2 := w1.after (MqCall.mq_open q.m_name q.m_isOwner) r.2
    let q1 := { q with m_messageQueue := r.1 }
    if r.1 = -1 then
      (q1, w2.print ("message queue creation error [" ++ K.strerror r.2 ++ "]\n"))
    else
      let a := K.mq_getattr w2.state r.1
      let w3 := w2.after (MqCall.mq_getattr r.1) a.2.2
      if a.1 = -1 then
        ({ q1 with m_attribute := { mq_flags := -1, mq_maxmsg := -1, mq_msgsize := -1,
                                    mq_curmsgs := -1 } },
         w3.print ("message queue attribute error [" ++ K.strerror a.2.2 ++ "]\n"))
      else ({ q1 with m_attribute := a.2.1 }, w3)

/-- The members as the initialiser list of both constructors leaves them:
`m_messageQueue()` and `m_attribute()` are value-initialised, to zero. -/
def initial (name : String) (isOwner : Bool) : MessageQueue :=
  { m_name := name, m_isOwner := isOwner, m_messageQueue := 0,
    m_attribute := { mq_flags := 0, mq_maxmsg := 0, mq_msgsize := 0, mq_curmsgs := 0 },
    m_notification := none }

/-- Constructor `MessageQueue(name)` of a non-owner handle. -/
def ctor {σ : Type} (K : MqKernel σ) (name : String) (w : MqWorld σ) :
    MessageQueue × MqWorld σ :=
  Init K (initial name false) w 0 0

/-- Constructor `MessageQueue(name, maxMessageCount, maxMessageSize)` of an owner. -/
def ctorOwner {σ : Type} (K : MqKernel σ) (name : String) (maxMessageCount maxMessageSize : Int)
    (w : MqWorld σ) : MessageQueue × MqWorld σ :=
  Init K (initial name true) w maxMessageCount maxMessageSize

/-- Destructor of `MessageQueue`. -/
def dtor {σ : Type} (K : MqKernel σ) (q : MessageQueue) (w : MqWorld σ) : MqWorld σ :=
  if q.m_messageQueue ≠ -1 then
    let w1 := w.after (MqCall.mq_close q.m_messageQueue) (K.mq_close w.state q.m_messageQueue)
    if q.m_isOwner then w1.after (MqCall.mq_unlink q.m_name) (K.mq_unlink w1.state q.m_name)
    else w1
  else w

def MaxMessageCount (q : MessageQueue) : Int :=
  if q.m_messageQueue = -1 then -1 else q.m_attribute.mq_maxmsg

def MaxMessageSize (q : MessageQueue) : Int :=
  if q.m_messageQueue = -1 then -1 else q.m_attribute.mq_msgsize

/-- The method `CurrentMessageCount`: the value returned, the handle and the world
afterwards (`mq_getattr` stores into `m_attribute` when it succeeds). -/
def CurrentMessageCount {σ : Type} (K : MqKernel σ) (q : MessageQueue) (w : MqWorld σ) :
    Int × MessageQueue × MqWorld σ :=
  if q.m_messageQueue = -1 then (-1, q, w)
  else
    let a := K.mq_getattr w.state q.m_messageQueue
    let w1 := w.after (MqCall.mq_getattr q.m_messageQueue) a.2.2
    if a.1 = -1 then (-1, q, w1)
    else (a.2.1.mq_curmsgs, { q with m_attribute := a.2.1 }, w1)

/-- The method `TimedSend`; `none` when `mq_send` blocks for ever. -/
def TimedSend {σ : Type} (K : MqKernel σ) (q : MessageQueue) (w : MqWorld σ)
    (message : ByteBuffer) (millisec : Nat) : Option (Result × MqWorld σ) :=
  if q.m_messageQueue = -1 then
    some (Result.CreateError ("message queue send error [" ++ "queue not found" ++ "]"), w)
  else
    let sent : Option (Int × MqWorld σ) :=
      if millisec = 0 then
        (K.mq_send w.state q.m_messageQueue message.Data PRIORITY).map
          (fun r => (r.1, w.after (MqCall.mq_send q.m_messageQueue message.Data PRIORITY) r.2))
      else
        let now := K.clock_gettime w.state
        let w1 := w.after MqCall.clock_gettime now.2
        let timeout := mqTimeout now.1 millisec
        let r := K.mq_timedsend w1.state q.m_messageQueue message.Data PRIORITY timeout
        some (r.1, w1.after
          (MqCall.mq_timedsend q.m_messageQueue message.Data PRIORITY timeout) r.2)
    sent.map (fun r =>
      if r.1 = -1 then
        (Result.CreateError ("message queue send error [" ++ K.strerror r.2.state ++ "]"), r.2)
      else (Result.CreateSuccess, r.2))

/-- The method `Send`. -/
def Send {σ : Type} (K : MqKernel σ) (q : MessageQueue) (w : MqWorld σ)
    (message : ByteBuffer) : Option (Result × MqWorld σ) :=
  TimedSend K q w message 0

/-- The method `TimedReceive`: the result, `outMessage` after the call and the world;
`none` when `mq_receive` blocks for ever. -/
def TimedReceive {σ : Type} (K : MqKernel σ) (q : MessageQueue) (w : MqWorld σ)
    (outMessage : ByteBuffer) (millisec : Nat) : Option (Result × ByteBuffer × MqWorld σ) :=
  if q.m_messageQueue = -1 then
    some (Result.CreateError ("message queue receive error [" ++ "queue not found" ++ "]"),
          outMessage, w)
  else
    let len := q.MaxMessageSize
    if len < 0 then
      some (Result.CreateError ("message queue receive error [" ++ "invalid message size"
              ++ ":" ++ fmtLd len ++ "]"), outMessage, w)
    else
      let buf_len := len.toNat
      let received : Option (Int × List Byte × MqWorld σ) :=
        if millisec = 0 then
          (K.mq_receive w.state q.m_messageQueue buf_len).map
            (fun r => (r.1, r.2.1, w.after (MqCall.mq_receive q.m_messageQueue buf_len) r.2.2))
        else
          let now := K.clock_gettime w.state
          let w1 := w.after MqCall.clock_gettime now.2
          let timeout := mqTimeout now.1 millisec
          let r := K.mq_timedreceive w1.state q.m_messageQueue buf_len timeout
          some (r.1, r.2.1, w1.after
            (MqCall.mq_timedreceive q.m_messageQueue buf_len timeout) r.2.2)
      received.map (fun r =>
        if r.1 = -1 then
          (Result.CreateError ("message queue receive error [" ++ K.strerror r.2.2.state ++ "]"),
           outMessage, r.2.2)
        else (Result.CreateSuccess, ByteBuffer.ctorData (r.2.1.take r.1.toNat), r.2.2))

/-- The method `Receive(ByteBuffer&)`. -/
def Receive {σ : Type} (K : MqKernel σ) (q : MessageQueue) (w : MqWorld σ)
    (outMessage : ByteBuffer) : Option (Result × ByteBuffer × MqWorld σ) :=
  TimedReceive K q w outMessage 0

end MessageQueue

/-! ## The hex dump (src/ByteBuffer.cpp) -/

/-- Hexadecimal digit, lower case. -/
def hexDigitLower (n : Nat) : Char :=
  if n < 10 then Char.ofNat (48 + n) else Char.ofNat (87 + n)

/-- Expansion of the conversion `%02x` for `d & 0xff`. -/
def fmt02x (b : Byte) : List Char :=
  [hexDigitLower (b.val / 16), hexDigitLower (b.val % 16)]

/-- The test `isprint(d)` for an `unsigned char`, in the "C" locale. -/
def isprint (b : Byte) : Bool := decide (32 ≤ b.val ∧ b.val ≤ 126)

/-- Zero padding on the left up to a width. -/
def zeroPad (width : Nat) (digits : List Char) : List Char :=
  List.replicate (width - digits.length) '0' ++ digits

/-- Expansion of the conversion `%03d` for an `int`. -/
def fmt03d (v : Int) : List Char :=
  if v < 0 then '-' :: zeroPad 2 (Nat.toDigits 10 v.natAbs)
  else zeroPad 3 (Nat.toDigits 10 v.toNat)

namespace ByteBuffer

/-- The loop `for (i = 0; i < COL_PER_ROW; i++)` of `Dump`, with `n` iterations left:
the texts `hex` and `ascii` and the position afterwards. -/
def dumpCells (data : List Byte) : Nat → Nat → List Char → List Char →
    List Char × List Char × Nat
  | 0, pos, hex, ascii => (hex, ascii, pos)
  | n + 1, pos, hex, ascii =>
    if pos < data.length then
      let d := data.getD pos 0
      dumpCells data n (pos + 1) (hex ++ (fmt02x d ++ [' ']))
        (ascii ++ [if isprint d then Char.ofNat d.val else '.'])
    else dumpCells data n pos (hex ++ [' ', ' ', ' ']) (ascii ++ [' '])

/-- The loop `while (pos < size)` of `Dump`: every pass formats one row with
`"%03d0 | %s| %s\n"` (a row is far shorter than the scratch of 1024 bytes) and increments
the `int row`. `fuel` bounds the number of passes; `none` when the loop has not ended
within them. -/
def dumpLoop (data : List Byte) : Nat → Nat → Nat → List Char → Option (List Char)
  | 0, pos, _, dump => if pos < data.length then none else some dump
  | fuel + 1, pos, row, dump =>
    if pos < data.length then
      let cells := dumpCells data 16 pos [] []
      dumpLoop data fuel cells.2.2 (row + 1)
        (dump ++ (fmt03d (toCInt row).val ++ "0 | ".toList ++ cells.1 ++ "| ".toList
          ++ cells.2.1 ++ ['\n']))
    else some dump

/-- The method `Dump`. The loop is given as many passes as the buffer has bytes. -/
def Dump (b : ByteBuffer) : Option String :=
  (dumpLoop b.Data b.Size 0 0 ("Size=".toList ++ (fmtLu b.Size).toList ++ ['\n'])).map
    String.mk

end ByteBuffer

/-- A group of the hex column as the specification words it: the two hex digits of a
byte and a space, or three spaces for a position past the end. -/
def hexGroup : Option Byte → List Char
  | some d => [hexDigitLower (d.val / 16), hexDigitLower (d.val % 16), ' ']
  | none => [' ', ' ', ' ']

/-- A character of the ASCII column as the specification words it: a printable byte as
itself, any other byte as a dot, a space for a position past the end. -/
def asciiCell : Option Byte → Char
  | some d => if 32 ≤ d.val ∧ d.val ≤ 126 then Char.ofNat d.val else '.'
  | none => ' '

/-- The data row of index `r` as the specification words it, after its label: 16 groups of
the hex column, then the 16 characters of the ASCII column. -/
def dumpRowShape (data : List Byte) (r : Nat) (label : List Char) : List Char :=
  label ++ " | ".toList
    ++ ((List.range 16).map (fun i => hexGroup data[16 * r + i]?)).flatten
    ++ "| ".toList ++ (List.range 16).map (fun i => asciiCell data[16 * r + i]?) ++ ['\n']

/-- The label that `Dump` prints at the start of the row of index `row`: the row number
in decimal on three digits, followed by the character 0. -/
def dumpRowLabel (row : Nat) : List Char := fmt03d (toCInt row).val ++ ['0']

/-- A buffer of 161 zero bytes: its dump has the rows 0 to 10. -/
def zeros161 : ByteBuffer := ByteBuffer.ctorData (List.replicate 161 0)

/-- A full row of zero bytes under a label. -/
def zeroRow (label : String) : String :=
  label ++ " | 00 00 00 00 00 00 00 00 00 00 00 00 00 00 00 00 | ................\n"

/-- The text that `Dump` returns for 161 zero bytes. -/
def dump161 : String :=
  "Size=161\n" ++ zeroRow "0000" ++ zeroRow "0010" ++ zeroRow "0020" ++ zeroRow "0030"
    ++ zeroRow "0040" ++ zeroRow "0050" ++ zeroRow "0060" ++ zeroRow "0070"
    ++ zeroRow "0080" ++ zeroRow "0090"
    ++ "0100 | 00                                              | .               \n"

/-- A frame with the type tag 7, which no message type uses, and the body "hello". -/
def unknownTagFrame : List RxEvent :=
  [RxEvent.datagram (protocolHeader 5), RxEvent.datagram [7, 0, 0, 0],
   RxEvent.datagram helloBody.Data]

/-- A server with the echo handler registered, on entry of `Run`, with a frame of tag 7
pending. -/
def unknownTagServer : ServerState (List RxEvent) :=
  UnixDomainSocketServer.Run_entry
    { sock := openSocket, m_requestReceiver := some echoHandler, m_isActive := true,
      result := Result.default, header := ByteBuffer.ctor, request := ByteBuffer.ctor,
      response := ByteBuffer.ctor,
      rx := { queue := unknownTagFrame, errnoText := "Success" },
      tx := [], calls := [], sendCalls := [], sent := [] }

/-- What `Receive` returns for the frame of tag 7. -/
def unknownTagReceived : ReceiveOutcome :=
  { result := Result.CreateSuccess, outHeader := ByteBuffer.ctorData [7, 0, 0, 0],
    outBody := helloBody, world := { queue := [], errnoText := "Success" } }

theorem leBytes_length (w n : Nat) : (leBytes w n).length = w := by
  induction w generalizing n with
  | zero => rfl
  | succ w ih => simp [leBytes, ih]

theorem castSizeToInt_val (n : Nat) (h : n < 2147483648) : (castSizeToInt n).val = (n : Int) := by
  unfold castSizeToInt toCInt
  split <;> simp only [] <;> omega

namespace ByteBuffer

theorem entryImages_length {K V : Type} [Primitive K] [Primitive V] (es : List (K × V)) :
    (entryImages es).length = es.length * (Primitive.sizeof K + Primitive.sizeof V) := by
  induction es with
  | nil => simp [entryImages]
  | cons e es ih =>
    simp only [entryImages, List.length_append, ih, Primitive.image_length, List.length_cons,
      Nat.succ_mul]
    omega

/-- Reading a primitive whose image starts at the read position returns it and advances
the position by its size. -/
theorem Value_at {T : Type} [Primitive T] (pre rest : List Byte) (v : T)
    (h : pre.length + Primitive.sizeof T < 4294967296) :
    Value (T := T) { m_buffer := pre ++ (Primitive.image v ++ rest), m_position := pre.length }
      = (some v, { m_buffer := pre ++ (Primitive.image v ++ rest),
                   m_position := pre.length + Primitive.sizeof T }) := by
  have hl : (Primitive.image v).length = Primitive.sizeof T := Primitive.image_length v
  have htake : ((pre ++ (Primitive.image v ++ rest)).drop pre.length).take (Primitive.sizeof T)
      = Primitive.image v := by
    rw [List.drop_left, ← hl, List.take_left]
  simp only [Value, htake, hl, if_true, Primitive.ofImage_image, Nat.mod_eq_of_lt h]

theorem foldl_Append {T : Type} [Primitive T] (xs : List T) (b : ByteBuffer) :
    xs.foldl (fun acc x => acc.Append x) b
      = { m_buffer := b.m_buffer ++ images xs, m_position := b.m_position } := by
  induction xs generalizing b with
  | nil => simp [images]
  | cons x xs ih =>
    rw [List.foldl_cons, ih]
    simp [Append, images]

theorem foldl_AppendEntry {K V : Type} [Primitive K] [Primitive V] (es : List (K × V))
    (b : ByteBuffer) :
    es.foldl (fun acc e => (acc.Append e.1).Append e.2) b
      = { m_buffer := b.m_buffer ++ entryImages es, m_position := b.m_position } := by
  induction es generalizing b with
  | nil => simp [entryImages]
  | cons e es ih =>
    rw [List.foldl_cons, ih]
    simp [Append, entryImages]

/-- Reading back a counted byte string that starts at the read position. -/
theorem valueCounted_at (pre s rest : List Byte) (hs : s.length < 2147483648)
    (h : pre.length + 4 + s.length < 4294967296) :
    valueCounted { m_buffer := pre ++ (Primitive.image (castSizeToInt s.length) ++ (s ++ rest)),
                   m_position := pre.length }
      = some (s, { m_buffer := pre ++ (Primitive.image (castSizeToInt s.length) ++ (s ++ rest)),
                   m_position := pre.length + 4 + s.length }) := by
  have hv := castSizeToInt_val s.length hs
  have h4 : pre.length + Primitive.sizeof CInt < 4294967296 := by
    show pre.length + 4 < 4294967296; omega
  have hl : (Primitive.image (castSizeToInt s.length)).length = 4 :=
    Primitive.image_length (castSizeToInt s.length)
  have hdrop : ((pre ++ (Primitive.image (castSizeToInt s.length) ++ (s ++ rest))).drop
      (pre.length + 4)).take s.length = s := by
    have e1 : pre ++ (Primitive.image (castSizeToInt s.length) ++ (s ++ rest))
        = (pre ++ Primitive.image (castSizeToInt s.length)) ++ (s ++ rest) := by
      simp only [List.append_assoc]
    have e2 : pre.length + 4 = (pre ++ Primitive.image (castSizeToInt s.length)).length := by
      simp [hl]
    rw [e1, e2, List.drop_left, List.take_left]
  unfold valueCounted
  rw [Value_at pre (s ++ rest) (castSizeToInt s.length) h4]
  have hnn : ¬ (castSizeToInt s.length).val < 0 := by omega
  have htn : (castSizeToInt s.length).val.toNat = s.length := by omega
  simp only [hnn, if_false, htn]
  have h4b : pre.length + Primitive.sizeof CInt = pre.length + 4 := rfl
  simp only [h4b, hdrop, if_true, Nat.mod_eq_of_lt h]

end ByteBuffer

/-! ## C2: counted byte strings and nested buffers -/

/-- C2. On a freshly constructed buffer, appending a byte string `s` shorter than `2^31`
and reading it back returns `s` and leaves the position at the size; appending a nested
buffer `inner` (whatever its read position) and reading it back returns a buffer with the
same bytes and position 0, again with the position of the outer buffer at its size. -/
theorem ByteBuffer.counted_round_trip (s : List Byte) (inner : ByteBuffer)
    (hs : s.length < 2147483648) (hi : inner.Size < 2147483648) :
    (∃ b, (ByteBuffer.ctor.AppendString s).ValueString = some (s, b)
        ∧ b.Position = b.Size) ∧
    (∃ out b, (ByteBuffer.ctor.AppendBuffer inner).ValueBuffer = some (out, b)
        ∧ out.Data = inner.Data ∧ out.Position = 0 ∧ b.Position = b.Size) := by
  have key : ∀ t : List Byte, t.length < 2147483648 →
      (ByteBuffer.ctor.AppendString t).valueCounted
        = some (t, { m_buffer := Primitive.image (castSizeToInt t.length) ++ t,
                     m_position := 4 + t.length }) := by
    intro t ht
    have h := ByteBuffer.valueCounted_at [] t [] ht (by simp; omega)
    simpa [ByteBuffer.AppendString, ByteBuffer.AppendSize, ByteBuffer.Append,
      ByteBuffer.ctor] using h
  have hl : ∀ t : List Byte, (Primitive.image (castSizeToInt t.length) ++ t).length
      = 4 + t.length := by
    intro t
    rw [List.length_append, Primitive.image_length]; rfl
  refine ⟨⟨_, key s hs, ?_⟩,
    ⟨{ m_buffer := inner.m_buffer, m_position := 0 },
     { m_buffer := Primitive.image (castSizeToInt inner.m_buffer.length) ++ inner.m_buffer,
       m_position := 4 + inner.m_buffer.length }, ?_, rfl, rfl, ?_⟩⟩
  · simp only [ByteBuffer.Position, ByteBuffer.Size, hl]
  · simp only [ByteBuffer.ValueBuffer, ByteBuffer.AppendBuffer, ByteBuffer.Data]
    rw [key inner.m_buffer hi]
  · simp only [ByteBuffer.Position, ByteBuffer.Size, hl]

/-- Witness for C2 at the string `01 00 02` (it contains a zero byte) and a nested buffer
holding `07 00` with its read position at 1. -/
theorem ByteBuffer.counted_round_trip_witness :
    (∃ b, (ByteBuffer.ctor.AppendString [1, 0, 2]).ValueString = some ([1, 0, 2], b)
        ∧ b.Position = b.Size) ∧
    (∃ out b, (ByteBuffer.ctor.AppendBuffer { m_buffer := [7, 0], m_position := 1 }).ValueBuffer
          = some (out, b)
        ∧ out.Data = ByteBuffer.Data { m_buffer := [7, 0], m_position := 1 }
        ∧ out.Position = 0 ∧ b.Position = b.Size) :=
  ByteBuffer.counted_round_trip [1, 0, 2] { m_buffer := [7, 0], m_position := 1 }
    (by decide) (by decide)

/-! ## C3: vectors and maps of primitives -/

theorem Result.CreateError_isError (t : String) : (Result.CreateError t).IsError = true := rfl

theorem Result.CreateSuccess_isError : Result.CreateSuccess.IsError = false := rfl

theorem utf8EncodeChar_ascii (c : Char) (h : c.toNat < 128) :
    utf8EncodeChar c = [byteOf c.toNat] := by
  simp only [utf8EncodeChar, h, if_true]

theorem isAsciiText_cons (c : Char) (l : List Char) :
    isAsciiText (c :: l) = true ↔ (c.toNat ≠ 0 ∧ c.toNat < 128) ∧ isAsciiText l = true := by
  simp [isAsciiText]

theorem isAsciiText_append (l1 l2 : List Char) :
    isAsciiText (l1 ++ l2) = true ↔ isAsciiText l1 = true ∧ isAsciiText l2 = true := by
  simp [isAsciiText, List.all_append]

/-- The bytes of an ASCII text are its characters. -/
theorem utf8_ascii (l : List Char) (h : isAsciiText l = true) :
    (l.map utf8EncodeChar).flatten = l.map (fun c => byteOf c.toNat) := by
  induction l with
  | nil => rfl
  | cons c l ih =>
    obtain ⟨hc, hl⟩ := (isAsciiText_cons c l).mp h
    simp only [List.map_cons, List.flatten_cons, utf8EncodeChar_ascii c hc.2, ih hl,
      List.singleton_append]

theorem asciiBytes_nonzero (l : List Char) (h : isAsciiText l = true) :
    ∀ b ∈ l.map (fun c => byteOf c.toNat), (b != 0) = true := by
  induction l with
  | nil => simp
  | cons c l ih =>
    obtain ⟨hc, hl⟩ := (isAsciiText_cons c l).mp h
    intro b hb
    simp only [List.map_cons, List.mem_cons] at hb
    rcases hb with hb | hb
    · rw [hb]
      have h1 : (byteOf c.toNat).val = c.toNat := Nat.mod_eq_of_lt (by omega)
      have hne : byteOf c.toNat ≠ 0 := by
        intro h0
        have := congrArg Fin.val h0
        rw [h1] at this
        exact hc.1 this
      simpa using hne
    · exact ih hl b hb

theorem asciiBytes_chars (l : List Char) (h : isAsciiText l = true) :
    (l.map (fun c => byteOf c.toNat)).map (fun b => Char.ofNat b.val) = l := by
  induction l with
  | nil => rfl
  | cons c l ih =>
    obtain ⟨hc, hl⟩ := (isAsciiText_cons c l).mp h
    have h1 : (byteOf c.toNat).val = c.toNat := Nat.mod_eq_of_lt (by omega)
    simp only [List.map_cons, h1, Char.ofNat_toNat, ih hl]

/-- What `CreateError` keeps of a formatted text that starts with an ASCII text `l` of at
most 1022 characters: `l`, then what it keeps of the rest. -/
theorem Result.CreateError_prefix (l rest : List Char) (h : isAsciiText l = true)
    (hl : l.length ≤ 1022) :
    (Result.CreateError (String.mk (l ++ rest))).ErrorMessage.data
      = l ++ ((((rest.map utf8EncodeChar).flatten).take (1022 - l.length)).takeWhile
          (fun b => b != 0)).map (fun b => Char.ofNat b.val) := by
  have hlen : (l.map (fun c => byteOf c.toNat)).length ≤ 1022 := by
    rw [List.length_map]; exact hl
  show ((((((l ++ rest).map utf8EncodeChar).flatten).take 1022).takeWhile
      (fun b => b != 0)).map (fun b => Char.ofNat b.val)) = _
  rw [List.map_append, List.flatten_append, utf8_ascii l h, List.take_append_eq_append_take,
    List.take_of_length_le hlen, List.takeWhile_append_of_pos (asciiBytes_nonzero l h),
    List.map_append, asciiBytes_chars l h, List.length_map]

/-- A fixed ASCII text of at most 1022 characters at the start of the formatted text
survives the cut of `CreateError`. -/
theorem Result.CreateError_startsWith (t p : String) (rest : List Char)
    (ht : t.data = p.data ++ rest) (hp : p.length ≤ 1022)
    (ha : isAsciiText p.data = true) :
    (Result.CreateError t).messageStartsWith p := by
  have ht2 : t = String.mk (p.data ++ rest) := String.ext ht
  unfold Result.messageStartsWith
  have := Result.CreateError_prefix p.data rest ha hp
  rw [ht2]
  simp only [Result.ErrorMessage] at this
  simp only [String.toList, this]
  exact List.prefix_append _ _

/-- An ASCII formatted text of at most 1022 characters is kept whole by `CreateError`. -/
theorem Result.CreateError_message (t : String) (ht : t.length ≤ 1022)
    (ha : isAsciiText t.data = true) :
    (Result.CreateError t).ErrorMessage = t := by
  have := Result.CreateError_prefix t.data [] ha ht
  simp only [List.append_nil, List.map_nil, List.flatten_nil, List.take_nil,
    List.takeWhile_nil] at this
  exact String.ext this

/-- An ASCII text that lies within the first 1022 characters of the formatted text, after
ASCII text only, survives the cut of `CreateError`. -/
theorem Result.CreateError_contains (t q : String) (pre rest : List Char)
    (ht : t.data = pre ++ q.data ++ rest) (hl : pre.length + q.length ≤ 1022)
    (ha : isAsciiText (pre ++ q.data) = true) :
    (Result.CreateError t).messageContains q := by
  have ht2 : t = String.mk ((pre ++ q.data) ++ rest) := String.ext ht
  have hpq : (pre ++ q.data).length ≤ 1022 := by
    simp only [List.length_append]; exact hl
  unfold Result.messageContains
  have := Result.CreateError_prefix (pre ++ q.data) rest ha hpq
  rw [ht2]
  simp only [Result.ErrorMessage] at this
  simp only [String.toList, this]
  exact ⟨pre, _, rfl⟩

/-! ## The datagrams of a body -/

theorem chunksFuel_nil (fuel : Nat) : chunksFuel fuel [] = [] := by
  cases fuel <;> simp [chunksFuel]

theorem chunksFuel_flatten (fuel : Nat) (l : List Byte) (h : l.length ≤ 1024 * fuel) :
    (chunksFuel fuel l).flatten = l := by
  induction fuel generalizing l with
  | zero =>
    have : l = [] := List.length_eq_zero.mp (by omega)
    subst this; rfl
  | succ fuel ih =>
    by_cases he : l = []
    · subst he; rfl
    · have hne : l.isEmpty = false := by simpa using he
      simp only [chunksFuel, hne, Bool.false_eq_true, if_false, List.flatten_cons]
      rw [ih (l.drop 1024) (by simp only [List.length_drop]; omega)]
      exact List.take_append_drop 1024 l

theorem chunksFuel_length (fuel : Nat) (l : List Byte) (h : l.length ≤ 1024 * fuel) :
    (chunksFuel fuel l).length = (l.length + 1023) / 1024 := by
  induction fuel generalizing l with
  | zero =>
    have : l = [] := List.length_eq_zero.mp (by omega)
    subst this; rfl
  | succ fuel ih =>
    by_cases he : l = []
    · subst he; rfl
    · have hne : l.isEmpty = false := by simpa using he
      have hpos : 0 < l.length := List.length_pos.mpr he
      simp only [chunksFuel, hne, Bool.false_eq_true, if_false, List.length_cons]
      rw [ih (l.drop 1024) (by simp only [List.length_drop]; omega)]
      simp only [List.length_drop]
      omega

theorem chunksFuel_bounds (fuel : Nat) (l : List Byte) :
    ∀ c ∈ chunksFuel fuel l, 0 < c.length ∧ c.length ≤ 1024 := by
  induction fuel generalizing l with
  | zero => intro c hc; simp [chunksFuel] at hc
  | succ fuel ih =>
    intro c hc
    by_cases he : l = []
    · subst he; simp [chunksFuel] at hc
    · have hne : l.isEmpty = false := by simpa using he
      have hpos : 0 < l.length := List.length_pos.mpr he
      simp only [chunksFuel, hne, Bool.false_eq_true, if_false, List.mem_cons] at hc
      rcases hc with hc | hc
      · subst hc
        simp only [List.length_take]
        omega
      · exact ih _ c hc

theorem chunksFuel_full (fuel : Nat) (l : List Byte) :
    ∀ c ∈ (chunksFuel fuel l).dropLast, c.length = 1024 := by
  induction fuel generalizing l with
  | zero => intro c hc; simp [chunksFuel] at hc
  | succ fuel ih =>
    intro c hc
    by_cases he : l = []
    · subst he; simp [chunksFuel] at hc
    · have hne : l.isEmpty = false := by simpa using he
      simp only [chunksFuel, hne, Bool.false_eq_true, if_false] at hc
      by_cases hrest : chunksFuel fuel (l.drop 1024) = []
      · rw [hrest] at hc; simp at hc
      · rw [List.dropLast_cons_of_ne_nil hrest, List.mem_cons] at hc
        rcases hc with hc | hc
        · subst hc
          have hd : l.drop 1024 ≠ [] := by
            intro h0; rw [h0, chunksFuel_nil] at hrest; exact hrest rfl
          have : 0 < (l.drop 1024).length := List.length_pos.mpr hd
          simp only [List.length_drop] at this
          simp only [List.length_take]
          omega
        · exact ih _ c hc

theorem chunksFuel_stable (fuel : Nat) (l : List Byte) (h : l.length ≤ 1024 * fuel) :
    chunksFuel fuel l = chunks l := by
  have key : ∀ (f g : Nat) (m : List Byte), m.length ≤ 1024 * f → m.length ≤ 1024 * g →
      chunksFuel f m = chunksFuel g m := by
    intro f
    induction f with
    | zero =>
      intro g m hf _
      have : m = [] := List.length_eq_zero.mp (by omega)
      subst this; rw [chunksFuel_nil, chunksFuel_nil]
    | succ f ih =>
      intro g m hf hg
      by_cases he : m = []
      · subst he; rw [chunksFuel_nil, chunksFuel_nil]
      · have hne : m.isEmpty = false := by simpa using he
        have hpos : 0 < m.length := List.length_pos.mpr he
        cases g with
        | zero => omega
        | succ g =>
          simp only [chunksFuel, hne, Bool.false_eq_true, if_false]
          rw [ih g (m.drop 1024) (by simp only [List.length_drop]; omega)
            (by simp only [List.length_drop]; omega)]
  exact key fuel l.length l h (by omega)

/-! ## C7: validation in `Send` -/

namespace UnixDomainSocket

theorem sendBody_datagrams {σ : Type} (K : TxKernel σ) (msg : List Byte) (size fuel : Nat)
    (st : σ) (txSize : Nat) (sent : List (List Byte)) (o : SendOutcome σ)
    (h : sendBody K msg size fuel st txSize sent = some o) :
    ∃ more, o.datagrams = sent ++ more := by
  induction fuel generalizing st txSize sent with
  | zero =>
    by_cases htx : txSize = size
    · simp only [sendBody, htx, if_true, Option.some.injEq] at h
      exact ⟨[], by rw [← h]; simp⟩
    · simp [sendBody, htx] at h
  | succ fuel ih =>
    by_cases htx : txSize = size
    · simp only [sendBody, htx, if_true, Option.some.injEq] at h
      exact ⟨[], by rw [← h]; simp⟩
    · simp only [sendBody, htx, if_false] at h
      split at h
      · simp only [Option.some.injEq] at h
        exact ⟨_, by rw [← h]⟩
      · obtain ⟨more, hmore⟩ := ih _ _ _ h
        exact ⟨_, by rw [hmore, List.append_assoc]⟩

/-- When the three checks pass, every outcome of `Send` has passed a datagram to
`sendto`. -/
theorem Send_valid_datagrams {σ : Type} (K : TxKernel σ) (fuel : Nat) (s : UnixDomainSocket)
    (st : σ) (H B : ByteBuffer) (o : SendOutcome σ)
    (hopen : s.IsOpend = true) (hH : H.Size ≤ 512)
    (hB : ¬ (0 < s.m_limitSize.val ∧ s.m_limitSize.val < B.Size))
    (h : Send K fuel s st H B = some o) :
    ∃ more, o.datagrams = protocolHeader B.Size :: more := by
  have hH2 : ¬ H.Size > 512 := by omega
  simp only [Send, hopen, Bool.not_true, Bool.false_eq_true, if_false, hH2, hB] at h
  split at h
  · simp only [Option.some.injEq] at h
    exact ⟨[], by rw [← h]⟩
  · split at h
    · simp only [Option.some.injEq] at h
      exact ⟨_, by rw [← h]⟩
    · split at h
      · simp only [Option.some.injEq] at h
        exact ⟨_, by rw [← h]⟩
      · obtain ⟨more, hmore⟩ := sendBody_datagrams _ _ _ _ _ _ _ _ h
        exact ⟨H.Data :: more, by rw [hmore]; rfl⟩

/-- C7, counterexample. An open endpoint without a peer, a header of 4 bytes and a body
of 5 bytes within the limit: none of the three checks fails, yet `Send` returns an error
and no datagram has been emitted (nothing is queued at the peer): the first `sendto`
fails. -/
theorem Send_error_nothing_emitted :
    openSocket.IsOpend = true ∧ requestHeader.Size ≤ 512 ∧
    ¬ (0 < openSocket.m_limitSize.val ∧ openSocket.m_limitSize.val < helloBody.Size) ∧
    (Send noPeer 1 openSocket [] requestHeader helloBody).map (fun o => (o.result, o.state))
      = some (Result.CreateError "send protocol header error [No such file or directory]",
              []) ∧
    (Result.CreateError "send protocol header error [No such file or directory]").IsError
      = true := by
  refine ⟨by decide, by decide, by decide, by decide, by decide⟩

/-- C7 (amended). For every endpoint state, header `H` and body `B` (and every behaviour
of the operating system): `Send` returns an error without having passed any datagram to
`sendto` if and only if the socket is not open, or `|H| > 512`, or `limitSize > 0` and
`|B| > limitSize`. The checks are made in that order: a closed socket gives a message
containing "socket closed" whatever `H` and `B`; an open socket with `|H| > 512` gives
"header too big" whatever `B`; otherwise a body over a positive limit gives
"body too big". -/
theorem Send_validation {σ : Type} (K : TxKernel σ) (fuel : Nat) (s : UnixDomainSocket)
    (st : σ) (H B : ByteBuffer) :
    ((∃ o, Send K fuel s st H B = some o ∧ o.result.IsError = true ∧ o.datagrams = []) ↔
      (s.IsOpend = false ∨ 512 < H.Size ∨
        (0 < s.m_limitSize.val ∧ s.m_limitSize.val < B.Size))) ∧
    (s.IsOpend = false →
      ∃ o, Send K fuel s st H B = some o ∧ o.result.IsError = true ∧ o.datagrams = []
        ∧ o.state = st ∧ o.result.messageContains "socket closed") ∧
    (s.IsOpend = true → 512 < H.Size →
      ∃ o, Send K fuel s st H B = some o ∧ o.result.IsError = true ∧ o.datagrams = []
        ∧ o.state = st ∧ o.result.messageContains "header too big") ∧
    (s.IsOpend = true → H.Size ≤ 512 → 0 < s.m_limitSize.val → s.m_limitSize.val < B.Size →
      ∃ o, Send K fuel s st H B = some o ∧ o.result.IsError = true ∧ o.datagrams = []
        ∧ o.state = st ∧ o.result.messageContains "body too big") := by
  have e1 : s.IsOpend = false → Send K fuel s st H B
      = some { result := Result.CreateError ("send socket error [" ++ "socket closed" ++ "]"),
               datagrams := [], state := st } := by
    intro hc
    simp only [Send, hc, Bool.not_false, if_true]
  have e2 : s.IsOpend = true → 512 < H.Size → Send K fuel s st H B
      = some { result := Result.CreateError
                 ("send header error [" ++ "header too big size" ++ ":" ++ fmtLu H.Size ++ "]"),
               datagrams := [], state := st } := by
    intro ho hh
    have hh2 : H.Size > 512 := hh
    simp only [Send, ho, Bool.not_true, Bool.false_eq_true, if_false, hh2, if_true]
  have e3 : s.IsOpend = true → H.Size ≤ 512 → 0 < s.m_limitSize.val →
      s.m_limitSize.val < B.Size → Send K fuel s st H B
      = some { result := Result.CreateError
                 ("send header error [" ++ "body too big size" ++ ":" ++ fmtLu B.Size ++ "]"),
               datagrams := [], state := st } := by
    intro ho hh h0 hl
    have hh2 : ¬ H.Size > 512 := by omega
    simp only [Send, ho, Bool.not_true, Bool.false_eq_true, if_false, hh2, h0, hl, and_self,
      if_true]
  have hclosed : s.IsOpend = false →
      ∃ o, Send K fuel s st H B = some o ∧ o.result.IsError = true ∧ o.datagrams = []
        ∧ o.state = st ∧ o.result.messageContains "socket closed" := by
    intro hc
    refine ⟨_, e1 hc, rfl, rfl, rfl, ?_⟩
    exact Result.CreateError_contains _ "socket closed" "send socket error [".data "]".data
      rfl (by decide) (by decide)
  have hheader : s.IsOpend = true → 512 < H.Size →
      ∃ o, Send K fuel s st H B = some o ∧ o.result.IsError = true ∧ o.datagrams = []
        ∧ o.state = st ∧ o.result.messageContains "header too big" := by
    intro ho hh
    refine ⟨_, e2 ho hh, rfl, rfl, rfl, ?_⟩
    exact Result.CreateError_contains _ "header too big" "send header error [".data
      (" size:".data ++ ((fmtLu H.Size).data ++ "]".data))
      (by simp only [String.data_append]; rfl) (by decide) (by decide)
  have hbody : s.IsOpend = true → H.Size ≤ 512 → 0 < s.m_limitSize.val →
      s.m_limitSize.val < B.Size →
      ∃ o, Send K fuel s st H B = some o ∧ o.result.IsError = true ∧ o.datagrams = []
        ∧ o.state = st ∧ o.result.messageContains "body too big" := by
    intro ho hh h0 hl
    refine ⟨_, e3 ho hh h0 hl, rfl, rfl, rfl, ?_⟩
    exact Result.CreateError_contains _ "body too big" "send header error [".data
      (" size:".data ++ ((fmtLu B.Size).data ++ "]".data))
      (by simp only [String.data_append]; rfl) (by decide) (by decide)
  refine ⟨⟨?_, ?_⟩, hclosed, hheader, hbody⟩
  · rintro ⟨o, ho, -, hd⟩
    by_contra hcon
    simp only [not_or] at hcon
    obtain ⟨h1, h2, h3⟩ := hcon
    have hopen : s.IsOpend = true := by simpa using h1
    obtain ⟨more, hmore⟩ := Send_valid_datagrams K fuel s st H B o hopen (by omega) h3 ho
    rw [hmore] at hd
    exact absurd hd (by simp)
  · intro h
    by_cases hc : s.IsOpend = false
    · obtain ⟨o, h1, h2, h3, -⟩ := hclosed hc
      exact ⟨o, h1, h2, h3⟩
    · have hopen : s.IsOpend = true := by simpa using hc
      by_cases hh : 512 < H.Size
      · obtain ⟨o, h1, h2, h3, -⟩ := hheader hopen hh
        exact ⟨o, h1, h2, h3⟩
      · rcases h with h | h | h
        · exact absurd h hc
        · exact absurd h hh
        · obtain ⟨o, h1, h2, h3, -⟩ := hbody hopen (by omega) h.1 h.2
          exact ⟨o, h1, h2, h3⟩

/-! ## C8: the datagrams of `Send` -/

theorem clampTransfer_le (n : Nat) : clampTransfer n ≤ 1024 ∧ clampTransfer n ≤ n := by
  unfold clampTransfer; split <;> omega

theorem clampTransfer_pos (n : Nat) (h : 0 < n) : 0 < clampTransfer n := by
  unfold clampTransfer; split <;> omega

theorem take_clampTransfer (l : List Byte) :
    l.take (clampTransfer l.length) = l.take 1024 := by
  unfold clampTransfer
  split
  · rfl
  · rw [List.take_of_length_le (Nat.le_refl _), List.take_of_length_le (by omega)]

/-- The body loop when every `sendto` transmits in full: it ends within
`ceil(rest/1024)` iterations, with success, having passed the pieces of the rest of the
body to `sendto` in order. -/
theorem sendBody_full {σ : Type} (K : TxKernel σ)
    (hfull : ∀ st d, (K.sendto st d).1 = (d.length : Int)) (msg : List Byte)
    (hsz : msg.length < 18446744073709551616) (fuel : Nat) (st : σ) (txSize : Nat)
    (sent : List (List Byte)) (htx : txSize ≤ msg.length)
    (hfuel : msg.length - txSize ≤ 1024 * fuel) :
    sendBody K msg msg.length fuel st txSize sent
      = some { result := Result.CreateSuccess,
               datagrams := sent ++ chunksFuel fuel (msg.drop txSize),
               state := (chunksFuel fuel (msg.drop txSize)).foldl
                 (fun acc d => (K.sendto acc d).2) st } := by
  induction fuel generalizing st txSize sent with
  | zero =>
    have : txSize = msg.length := by omega
    simp [sendBody, this, chunksFuel]
  | succ fuel ih =>
    by_cases hend : txSize = msg.length
    · subst hend
      simp [sendBody, chunksFuel]
    · have hlt : txSize < msg.length := by omega
      have hrem : (msg.length + 18446744073709551616 - txSize) % 18446744073709551616
          = (msg.drop txSize).length := by
        simp only [List.length_drop]; omega
      have hne : (msg.drop txSize).isEmpty = false := by
        have : msg.drop txSize ≠ [] := by
          intro h0
          have := congrArg List.length h0
          simp only [List.length_drop, List.length_nil] at this
          omega
        simpa using this
      have hdlen : ((msg.drop txSize).take 1024).length
          = clampTransfer (msg.length - txSize) := by
        simp only [List.length_take, List.length_drop, clampTransfer]
        split <;> omega
      have hc := clampTransfer_le (msg.length - txSize)
      have hp := clampTransfer_pos (msg.length - txSize) (by omega)
      have hcases : clampTransfer (msg.length - txSize) = 1024
          ∨ clampTransfer (msg.length - txSize) = msg.length - txSize := by
        unfold clampTransfer; split <;> simp
      have hret : (K.sendto st ((msg.drop txSize).take 1024)).1
          = ((clampTransfer (msg.length - txSize) : Nat) : Int) := by
        rw [hfull, hdlen]
      have hnot : ¬ (K.sendto st ((msg.drop txSize).take 1024)).1 = -1 := by
        rw [hret]; omega
      have hnext : (txSize + castSsizeToSize (K.sendto st ((msg.drop txSize).take 1024)).1)
          % 18446744073709551616 = txSize + clampTransfer (msg.length - txSize) := by
        rw [hret]; unfold castSsizeToSize; omega
      have hdrop : msg.drop (txSize + clampTransfer (msg.length - txSize))
          = (msg.drop txSize).drop 1024 := by
        rw [List.drop_drop]
        by_cases hbig : msg.length - txSize > 1024
        · simp only [clampTransfer, hbig, if_true]
        · simp only [clampTransfer, hbig, if_false]
          rw [List.drop_of_length_le (by omega), List.drop_of_length_le (by omega)]
      simp only [sendBody, hend, if_false, hrem, take_clampTransfer, hnot, hnext]
      rw [ih _ _ _ (by omega) (by omega), hdrop]
      simp only [chunksFuel, hne, Bool.false_eq_true, if_false, List.append_assoc,
        List.singleton_append, List.foldl_cons]

theorem protocolHeader_length (n : Nat) : (protocolHeader n).length = 8 := by
  simp only [protocolHeader, List.length_append, Primitive.image_length]
  rfl

theorem protocolHeader_bytes (n : Nat) :
    protocolHeader n = [0xDE, 0xAD, 0xC0, 0xDE] ++ leBytes 4 (n % 4294967296) := rfl

/-- The method `Send` when the checks pass and every `sendto` transmits in full. -/
theorem Send_full {σ : Type} (K : TxKernel σ)
    (hfull : ∀ st d, (K.sendto st d).1 = (d.length : Int)) (s : UnixDomainSocket) (st : σ)
    (H B : ByteBuffer) (hopen : s.IsOpend = true) (hH : H.Size ≤ 512)
    (hB : ¬ (0 < s.m_limitSize.val ∧ s.m_limitSize.val < B.Size))
    (hsz : B.Size < 18446744073709551616) (fuel : Nat) (hfuel : B.Size ≤ 1024 * fuel) :
    Send K fuel s st H B
      = some { result := Result.CreateSuccess,
               datagrams := protocolHeader B.Size :: H.Data :: chunks B.Data,
               state := (protocolHeader B.Size :: H.Data :: chunks B.Data).foldl
                 (fun acc d => (K.sendto acc d).2) st } := by
  have hH2 : ¬ H.Size > 512 := by omega
  have h1 : ¬ (K.sendto st (protocolHeader B.Size)).1 ≠ 8 := by
    rw [hfull, protocolHeader_length]; simp
  have h2 : ¬ (K.sendto (K.sendto st (protocolHeader B.Size)).2 H.Data).1 ≠ (H.Size : Int) := by
    rw [hfull]; simp [ByteBuffer.Size, ByteBuffer.Data]
  simp only [Send, hopen, Bool.not_true, Bool.false_eq_true, if_false, hH2, hB, h1, h2]
  by_cases h0 : B.Size = 0
  · have hnil : B.Data = [] := List.length_eq_zero.mp h0
    simp [h0, hnil, chunks, chunksFuel]
  · simp only [h0, if_false]
    have := sendBody_full K hfull B.Data hsz fuel
      (K.sendto (K.sendto st (protocolHeader B.Size)).2 H.Data).2 0
      [protocolHeader B.Size, H.Data] (Nat.zero_le _) (by simpa [ByteBuffer.Size] using hfuel)
    simp only [List.drop_zero] at this
    rw [chunksFuel_stable fuel B.Data hfuel] at this
    simpa [ByteBuffer.Size, ByteBuffer.Data] using this

/-- C8. For a header `H` and a body `B` of `n` bytes that pass validation on an open
socket, when every `sendto` transmits its datagram in full: the loop of `Send` ends
(within `ceil(n/1024)` iterations) and `Send` succeeds, having passed to `sendto` exactly
`2 + ceil(n/1024)` datagrams in this order: the 8-byte protocol header, which is
`DE AD C0 DE` followed by `n` converted to a 32-bit unsigned integer; the bytes of `H`;
then `ceil(n/1024)` non-empty body datagrams, all of 1024 bytes except possibly the last,
whose concatenation is the bytes of `B`. For `n = 0` there is no body datagram. -/
theorem Send_datagram_sequence {σ : Type} (K : TxKernel σ)
    (hfull : ∀ st d, (K.sendto st d).1 = (d.length : Int)) (s : UnixDomainSocket) (st : σ)
    (H B : ByteBuffer) (hopen : s.IsOpend = true) (hH : H.Size ≤ 512)
    (hB : ¬ (0 < s.m_limitSize.val ∧ s.m_limitSize.val < B.Size))
    (hsz : B.Size < 18446744073709551616) :
    ∃ body : List (List Byte),
      (∀ fuel, (B.Size + 1023) / 1024 ≤ fuel →
        ∃ o, Send K fuel s st H B = some o ∧ o.result = Result.CreateSuccess
          ∧ o.datagrams = protocolHeader B.Size :: H.Data :: body
          ∧ o.datagrams.length = 2 + (B.Size + 1023) / 1024) ∧
      protocolHeader B.Size = [0xDE, 0xAD, 0xC0, 0xDE] ++ leBytes 4 (B.Size % 4294967296) ∧
      (protocolHeader B.Size).length = 8 ∧
      body.flatten = B.Data ∧
      body.length = (B.Size + 1023) / 1024 ∧
      (∀ c ∈ body.dropLast, c.length = 1024) ∧
      (∀ c ∈ body, 0 < c.length ∧ c.length ≤ 1024) ∧
      (B.Size = 0 → body = []) := by
  have hlen : (chunks B.Data).length = (B.Size + 1023) / 1024 :=
    chunksFuel_length _ _ (by omega)
  refine ⟨chunks B.Data, ?_, protocolHeader_bytes _, protocolHeader_length _,
    chunksFuel_flatten _ _ (by omega), hlen,
    chunksFuel_full _ _, chunksFuel_bounds _ _, ?_⟩
  · intro fuel hfuel
    refine ⟨_, Send_full K hfull s st H B hopen hH hB hsz fuel (by omega), rfl, rfl, ?_⟩
    simp only [List.length_cons, hlen]
    omega
  · intro h0
    have hnil : B.Data = [] := List.length_eq_zero.mp h0
    rw [hnil]; rfl

/-- Witness for C8: the frame of the tag-0 header and the body "hello" on the reliable
channel. -/
theorem Send_datagram_sequence_witness :
    ∃ body : List (List Byte),
      (∀ fuel, (helloBody.Size + 1023) / 1024 ≤ fuel →
        ∃ o, Send fifoChannel fuel openSocket [] requestHeader helloBody = some o
          ∧ o.result = Result.CreateSuccess
          ∧ o.datagrams = protocolHeader helloBody.Size :: requestHeader.Data :: body
          ∧ o.datagrams.length = 2 + (helloBody.Size + 1023) / 1024) ∧
      protocolHeader helloBody.Size
        = [0xDE, 0xAD, 0xC0, 0xDE] ++ leBytes 4 (helloBody.Size % 4294967296) ∧
      (protocolHeader helloBody.Size).length = 8 ∧
      body.flatten = helloBody.Data ∧
      body.length = (helloBody.Size + 1023) / 1024 ∧
      (∀ c ∈ body.dropLast, c.length = 1024) ∧
      (∀ c ∈ body, 0 < c.length ∧ c.length ≤ 1024) ∧
      (helloBody.Size = 0 → body = []) :=
  Send_datagram_sequence fifoChannel (fun _ _ => rfl) openSocket [] requestHeader helloBody
    (by decide) (by decide) (by decide) (by decide)

/-! ## C1: round trip over the reliable channel -/

theorem fifoChannel_foldl (ds : List (List Byte)) (q : List RxEvent) :
    ds.foldl (fun acc d => (fifoChannel.sendto acc d).2) q = q ++ ds.map RxEvent.datagram := by
  induction ds generalizing q with
  | nil => simp
  | cons d ds ih =>
    rw [List.foldl_cons, ih]
    simp [fifoChannel]

theorem receiveBody_done (rsize : Nat) (q : List RxEvent) (errno : String) (req : List Byte) :
    receiveBody rsize q errno rsize req = some (Except.ok req, { queue := q, errnoText := errno }) := by
  match q with
  | [] => simp [receiveBody]
  | RxEvent.failure e :: q => simp [receiveBody]
  | RxEvent.datagram d :: q => simp [receiveBody]

/-- The body loop of `Receive` gathers the pieces of a body back. -/
theorem receiveBody_chunks (fuel : Nat) (l : List Byte) (hl : l.length ≤ 1024 * fuel)
    (rsize rxSize : Nat) (req : List Byte) (rest : List RxEvent) (errno : String)
    (hr : rsize = rxSize + l.length) :
    receiveBody rsize ((chunksFuel fuel l).map RxEvent.datagram ++ rest) errno rxSize req
      = some (Except.ok (req ++ l), { queue := rest, errnoText := errno }) := by
  induction fuel generalizing l rxSize req with
  | zero =>
    have : l = [] := List.length_eq_zero.mp (by omega)
    subst this
    simp only [List.length_nil, Nat.add_zero] at hr
    subst hr
    simp [chunksFuel, receiveBody_done]
  | succ fuel ih =>
    by_cases he : l = []
    · subst he
      simp only [List.length_nil, Nat.add_zero] at hr
      subst hr
      simp [chunksFuel, receiveBody_done]
    · have hne : l.isEmpty = false := by simpa using he
      have hpos : 0 < l.length := List.length_pos.mpr he
      have hneq : ¬ rxSize = rsize := by omega
      have hsub : rsize - rxSize = l.length := by omega
      have htake : (l.take 1024).take (clampTransfer l.length) = l.take 1024 := by
        apply List.take_of_length_le
        simp only [List.length_take, clampTransfer]
        split <;> omega
      simp only [chunksFuel, hne, Bool.false_eq_true, if_false, List.map_cons,
        List.cons_append, receiveBody, hneq, hsub, htake]
      rw [ih (l.drop 1024) (by simp only [List.length_drop]; omega)
        (rxSize + (l.take 1024).length) (req ++ l.take 1024)
        (by simp only [List.length_take, List.length_drop]; omega)]
      rw [List.append_assoc, List.take_append_drop]

/-- The method `Receive` on an open socket whose pending events start with a protocol header for
`n` bytes and an application header `h` of at most 512 bytes, when the size read passes
the limit check: both datagrams are consumed and the body loop runs for `n mod 2^32`
bytes. -/
theorem Receive_frame (r : UnixDomainSocket) (n : Nat) (h : List Byte) (q : List RxEvent)
    (errno : String) (outH outB : ByteBuffer) (hopen : r.IsOpend = true)
    (hh : h.length ≤ 512)
    (hlim : ¬ (0 < r.m_limitSize.val ∧ r.m_limitSize.val < n % 4294967296)) :
    Receive r { queue := RxEvent.datagram (protocolHeader n) :: RxEvent.datagram h :: q,
                errnoText := errno } outH outB
      = match receiveBody (n % 4294967296) q errno 0 [] with
        | none => none
        | some (Except.error e, w3) =>
          some { result := Result.CreateError ("receive body error [" ++ e ++ "]"),
                 outHeader := ByteBuffer.ctorData h, outBody := outB, world := w3 }
        | some (Except.ok req, w3) =>
          some { result := Result.CreateSuccess, outHeader := ByteBuffer.ctorData h,
                 outBody := ByteBuffer.ctorData req, world := w3 } := by
  have hph : (protocolHeader n).take 1024 = protocolHeader n :=
    List.take_of_length_le (by rw [protocolHeader_length]; decide)
  have hht : h.take 1024 = h := List.take_of_length_le (by omega)
  have hsize : leValue (((protocolHeader n).drop 4).take 4) = n % 4294967296 := by
    have : ((protocolHeader n).drop 4).take 4 = leBytes 4 (n % 4294967296) := rfl
    rw [this]
    simp only [leBytes, leValue]
    omega
  have hlen2 : ¬ (((h.length : Nat) : Int) = -1 ∨ ((h.length : Nat) : Int) > 512) := by omega
  simp only [Receive, hopen, Bool.not_true, Bool.false_eq_true, if_false, recvfrom, hph, hht,
    protocolHeader_length, hsize, hlim, hlen2]
  simp [protocolHeader]

/-- The method `Send` on the reliable channel followed by `Receive` at the peer, for any body size:
the peer gathers `|B| mod 2^32` bytes. -/
theorem Send_Receive_fifo (s r : UnixDomainSocket) (H B outH outB : ByteBuffer)
    (errno : String) (fuel : Nat) (hs : s.IsOpend = true) (hr : r.IsOpend = true)
    (hH : H.Size ≤ 512)
    (hBs : ¬ (0 < s.m_limitSize.val ∧ s.m_limitSize.val < B.Size))
    (hBr : ¬ (0 < r.m_limitSize.val ∧ r.m_limitSize.val < B.Size % 4294967296))
    (hsz : B.Size < 18446744073709551616) (hfuel : B.Size ≤ 1024 * fuel) :
    ∃ o, Send fifoChannel fuel s [] H B = some o ∧ o.result = Result.CreateSuccess ∧
      Receive r { queue := o.state, errnoText := errno } outH outB
        = match receiveBody (B.Size % 4294967296) ((chunks B.Data).map RxEvent.datagram)
            errno 0 [] with
          | none => none
          | some (Except.error e, w3) =>
            some { result := Result.CreateError ("receive body error [" ++ e ++ "]"),
                   outHeader := ByteBuffer.ctorData H.Data, outBody := outB, world := w3 }
          | some (Except.ok req, w3) =>
            some { result := Result.CreateSuccess, outHeader := ByteBuffer.ctorData H.Data,
                   outBody := ByteBuffer.ctorData req, world := w3 } := by
  refine ⟨_, Send_full fifoChannel (fun _ _ => rfl) s [] H B hs hH hBs hsz fuel hfuel, rfl, ?_⟩
  simp only [fifoChannel_foldl, List.nil_append, List.map_cons]
  exact Receive_frame r B.Size H.Data _ errno outH outB hr hH hBr

/-- C1 (amended). For every header `H` with `|H| ≤ 512` and every body `B` within the
limit of both endpoints (or any `B` for an endpoint whose limit is 0) and with
`|B| < 2^32`, over the reliable FIFO channel: `Send(H,B)` at one endpoint succeeds, and
`Receive` at the peer then returns success with the bytes of `H` in the header buffer and
the bytes of `B` in the body buffer, having consumed the whole frame. -/
theorem socket_round_trip (s r : UnixDomainSocket) (H B outH outB : ByteBuffer)
    (errno : String) (fuel : Nat) (hs : s.IsOpend = true) (hr : r.IsOpend = true)
    (hH : H.Size ≤ 512)
    (hBs : s.m_limitSize.val = 0 ∨ B.Size ≤ s.m_limitSize.val)
    (hBr : r.m_limitSize.val = 0 ∨ B.Size ≤ r.m_limitSize.val)
    (h32 : B.Size < 4294967296) (hfuel : (B.Size + 1023) / 1024 ≤ fuel) :
    ∃ o, Send fifoChannel fuel s [] H B = some o ∧ o.result.IsSuccess = true ∧
      ∃ ro, Receive r { queue := o.state, errnoText := errno } outH outB = some ro
        ∧ ro.result.IsSuccess = true
        ∧ ro.outHeader.Data = H.Data ∧ ro.outBody.Data = B.Data
        ∧ ro.world.queue = [] := by
  have hmod : B.Size % 4294967296 = B.Size := Nat.mod_eq_of_lt h32
  obtain ⟨o, ho, hres, hrecv⟩ := Send_Receive_fifo s r H B outH outB errno fuel hs hr hH
    (by omega) (by rw [hmod]; omega) (by omega) (by omega)
  refine ⟨o, ho, by rw [hres]; rfl, ?_⟩
  have hbody := receiveBody_chunks B.Data.length B.Data (by omega) B.Size 0 [] [] errno
    (by simp [ByteBuffer.Size, ByteBuffer.Data])
  simp only [List.append_nil, List.nil_append] at hbody
  rw [hmod] at hrecv
  have hchunks : chunks B.Data = chunksFuel B.Data.length B.Data := rfl
  rw [hchunks, hbody] at hrecv
  exact ⟨_, hrecv, rfl, rfl, rfl, rfl⟩

/-- Witness for C1: the tag-0 header and the body "hello" between two endpoints with the
default limit. -/
theorem socket_round_trip_witness :
    ∃ o, Send fifoChannel 1 openSocket [] requestHeader helloBody = some o
      ∧ o.result.IsSuccess = true ∧
      ∃ ro, Receive openSocket { queue := o.state, errnoText := "Success" }
          ByteBuffer.ctor ByteBuffer.ctor = some ro
        ∧ ro.result.IsSuccess = true
        ∧ ro.outHeader.Data = requestHeader.Data ∧ ro.outBody.Data = helloBody.Data
        ∧ ro.world.queue = [] :=
  socket_round_trip openSocket openSocket requestHeader helloBody ByteBuffer.ctor
    ByteBuffer.ctor "Success" 1 (by decide) (by decide) (by decide) (by decide) (by decide)
    (by decide) (by decide)

/-- A body of exactly `2^32` bytes sent with the limit disabled: the size field of the
protocol header is 0, so the peer returns success with an empty body. -/
theorem round_trip_truncated (s r : UnixDomainSocket) (H B outH outB : ByteBuffer)
    (errno : String) (hs : s.IsOpend = true) (hr : r.IsOpend = true) (hH : H.Size ≤ 512)
    (hls : s.m_limitSize.val = 0) (hlr : r.m_limitSize.val = 0)
    (hB : B.Size = 4294967296) :
    ∃ o, Send fifoChannel 4194304 s [] H B = some o ∧ o.result.IsSuccess = true ∧
      ∃ ro, Receive r { queue := o.state, errnoText := errno } outH outB = some ro
        ∧ ro.result.IsSuccess = true ∧ ro.outBody.Data = [] ∧ ro.outBody.Data ≠ B.Data := by
  have hmod : B.Size % 4294967296 = 0 := by rw [hB]
  obtain ⟨o, ho, hres, hrecv⟩ := Send_Receive_fifo s r H B outH outB errno 4194304 hs hr hH
    (by omega) (by omega) (by omega) (by omega)
  refine ⟨o, ho, by rw [hres]; rfl, ?_⟩
  rw [hmod, receiveBody_done] at hrecv
  refine ⟨_, hrecv, rfl, rfl, ?_⟩
  intro h0
  have : B.Size = 0 := by
    simp only [ByteBuffer.Size]
    rw [show B.m_buffer = B.Data from rfl, ← h0]
    rfl
  omega

theorem overflowBody_size : overflowBody.Size = 4294967296 :=
  List.length_replicate 4294967296 (0 : Byte)

/-- C1, counterexample. Both endpoints open with the limit disabled (`limitSize = 0`), the
tag-0 header and a body of `2^32` zero bytes over the reliable channel:
`Send` succeeds, and `Receive` at the peer returns success with an empty body, which is
not the body sent. -/
theorem socket_round_trip_overflow :
    ∃ o, Send fifoChannel 4194304 (openSocket.SetLimitSize 0) [] requestHeader overflowBody
        = some o ∧ o.result.IsSuccess = true ∧
      ∃ ro, Receive (openSocket.SetLimitSize 0) { queue := o.state, errnoText := "Success" }
          ByteBuffer.ctor ByteBuffer.ctor = some ro
        ∧ ro.result.IsSuccess = true ∧ ro.outBody.Data = []
        ∧ ro.outBody.Data ≠ overflowBody.Data :=
  round_trip_truncated (openSocket.SetLimitSize 0) (openSocket.SetLimitSize 0) requestHeader
    overflowBody ByteBuffer.ctor ByteBuffer.ctor "Success" rfl rfl (by decide) rfl rfl
    overflowBody_size

/-! ## C9: malformed protocol header -/

theorem fmt02X_length (b : Byte) : (fmt02X b).length = 2 := rfl

theorem hexDigitUpper_ascii (n : Nat) (h : n < 16) :
    isAsciiText [hexDigitUpper n] = true := by
  interval_cases n <;> decide

theorem fmt02X_ascii (b : Byte) : isAsciiText (fmt02X b).data = true := by
  have h1 : b.val / 16 < 16 := by have := b.isLt; omega
  have h2 : b.val % 16 < 16 := Nat.mod_lt _ (by decide)
  have := (isAsciiText_append [hexDigitUpper (b.val / 16)] [hexDigitUpper (b.val % 16)]).mpr
    ⟨hexDigitUpper_ascii _ h1, hexDigitUpper_ascii _ h2⟩
  exact this

/-- C9. On an open socket, when the first pending datagram `d` is not exactly 8 bytes
long, or its first four bytes are not `DE AD C0 DE`: `Receive` consumes that datagram and
returns an error whose message starts with "receive protocol header error", and the two
output buffers are unchanged. When `d` has 8 bytes (so the magic is wrong) the message is
"receive protocol header error [invalid hexspeak:0x" followed by the first four bytes of
`d` in two-digit upper-case hexadecimal and "]". -/
theorem Receive_rejects_malformed (r : UnixDomainSocket) (d : List Byte) (q : List RxEvent)
    (errno : String) (outH outB : ByteBuffer) (hopen : r.IsOpend = true)
    (hbad : d.length ≠ 8 ∨ d.take 4 ≠ [0xDE, 0xAD, 0xC0, 0xDE]) :
    ∃ ro, Receive r { queue := RxEvent.datagram d :: q, errnoText := errno } outH outB = some ro
      ∧ ro.result.IsError = true
      ∧ ro.result.messageStartsWith "receive protocol header error"
      ∧ ro.outHeader = outH ∧ ro.outBody = outB
      ∧ ro.world.queue = q
      ∧ (d.length = 8 →
          ro.result.messageContains "invalid hexspeak" ∧
          ro.result.ErrorMessage = "receive protocol header error [invalid hexspeak:0x"
            ++ fmt02X (d.getD 0 0) ++ fmt02X (d.getD 1 0) ++ fmt02X (d.getD 2 0)
            ++ fmt02X (d.getD 3 0) ++ "]") := by
  by_cases hlen : d.length = 8
  · have hmagic : d.take 4 ≠ [0xDE, 0xAD, 0xC0, 0xDE] := by
      rcases hbad with h | h
      · exact absurd hlen h
      · exact h
    have htake : d.take 1024 = d := List.take_of_length_le (by omega)
    have hl : ¬ (((d.length : Nat) : Int) = -1 ∨ ((d.length : Nat) : Int) ≠ 8) := by omega
    have hne : d.getD 0 0 ≠ 0xDE ∨ d.getD 1 0 ≠ 0xAD ∨ d.getD 2 0 ≠ 0xC0 ∨ d.getD 3 0 ≠ 0xDE := by
      rcases d with _ | ⟨a, _ | ⟨b, _ | ⟨c, _ | ⟨e, t⟩⟩⟩⟩
      · simp at hlen
      · simp at hlen
      · simp at hlen
      · simp at hlen
      · simp only [List.take_succ_cons, List.take_zero, ne_eq, List.cons.injEq, and_true,
          not_and] at hmagic
        simp only [List.getD_cons_zero, List.getD_cons_succ, ne_eq]
        by_contra hcon
        simp only [not_or, not_not] at hcon
        exact hmagic hcon.1 hcon.2.1 hcon.2.2.1 hcon.2.2.2
    have e : Receive r { queue := RxEvent.datagram d :: q, errnoText := errno } outH outB
        = some { result := Result.CreateError
                   ("receive protocol header error [" ++ "invalid hexspeak" ++ ":0x"
                     ++ fmt02X (d.getD 0 0) ++ fmt02X (d.getD 1 0) ++ fmt02X (d.getD 2 0)
                     ++ fmt02X (d.getD 3 0) ++ "]"),
                 outHeader := outH, outBody := outB,
                 world := { queue := q, errnoText := errno } } := by
      simp only [Receive, hopen, Bool.not_true, Bool.false_eq_true, if_false,
        recvfrom, htake, hl, hne, if_true]
    refine ⟨_, e, rfl, ?_, rfl, rfl, rfl, ?_⟩
    · exact Result.CreateError_startsWith _ "receive protocol header error"
        (" [invalid hexspeak:0x".data ++ ((fmt02X (d.getD 0 0)).data
          ++ ((fmt02X (d.getD 1 0)).data ++ ((fmt02X (d.getD 2 0)).data
          ++ ((fmt02X (d.getD 3 0)).data ++ "]".data)))))
        (by simp only [String.data_append]; rfl) (by decide) (by decide)
    · intro _
      refine ⟨?_, ?_⟩
      · exact Result.CreateError_contains _ "invalid hexspeak"
          "receive protocol header error [".data
          (":0x".data ++ ((fmt02X (d.getD 0 0)).data
            ++ ((fmt02X (d.getD 1 0)).data ++ ((fmt02X (d.getD 2 0)).data
            ++ ((fmt02X (d.getD 3 0)).data ++ "]".data)))))
          (by simp only [String.data_append]; rfl) (by decide) (by decide)
      · have hfull : ("receive protocol header error [" ++ "invalid hexspeak" ++ ":0x"
            ++ fmt02X (d.getD 0 0) ++ fmt02X (d.getD 1 0) ++ fmt02X (d.getD 2 0)
            ++ fmt02X (d.getD 3 0) ++ "]").length ≤ 1022 := by
          simp only [String.length_append, fmt02X_length]
          decide
        have hascii : isAsciiText ("receive protocol header error [" ++ "invalid hexspeak" ++ ":0x"
            ++ fmt02X (d.getD 0 0) ++ fmt02X (d.getD 1 0) ++ fmt02X (d.getD 2 0)
            ++ fmt02X (d.getD 3 0) ++ "]").data = true := by
          simp only [String.data_append, isAsciiText_append, fmt02X_ascii, and_true]
          decide
        rw [Result.CreateError_message _ hfull hascii]
        apply String.ext
        simp only [String.data_append]
        rfl
  · have hl : (((d.take 1024).length : Nat) : Int) = -1 ∨ (((d.take 1024).length : Nat) : Int) ≠ 8 := by
      right
      simp only [List.length_take]
      omega
    have e : Receive r { queue := RxEvent.datagram d :: q, errnoText := errno } outH outB
        = some { result := Result.CreateError
                   ("receive protocol header error [" ++ errno ++ "]"),
                 outHeader := outH, outBody := outB,
                 world := { queue := q, errnoText := errno } } := by
      simp only [Receive, hopen, Bool.not_true, Bool.false_eq_true, if_false,
        recvfrom, hl, if_true]
    refine ⟨_, e, rfl, ?_, rfl, rfl, rfl, fun h => absurd h hlen⟩
    exact Result.CreateError_startsWith _ "receive protocol header error"
      (" [".data ++ (errno.data ++ "]".data))
      (by simp only [String.data_append]; rfl) (by decide) (by decide)

/-- Witness for C9: the eight bytes `DE AD BE EF 00 00 00 00`. -/
theorem Receive_rejects_malformed_witness :
    ∃ ro, Receive openSocket
        { queue := [RxEvent.datagram [0xDE, 0xAD, 0xBE, 0xEF, 0, 0, 0, 0]],
          errnoText := "Success" } ByteBuffer.ctor ByteBuffer.ctor = some ro
      ∧ ro.result.IsError = true
      ∧ ro.result.messageStartsWith "receive protocol header error"
      ∧ ro.outHeader = ByteBuffer.ctor ∧ ro.outBody = ByteBuffer.ctor
      ∧ ro.world.queue = []
      ∧ (([0xDE, 0xAD, 0xBE, 0xEF, 0, 0, 0, 0] : List Byte).length = 8 →
          ro.result.messageContains "invalid hexspeak" ∧
          ro.result.ErrorMessage = "receive protocol header error [invalid hexspeak:0x"
            ++ fmt02X (([0xDE, 0xAD, 0xBE, 0xEF, 0, 0, 0, 0] : List Byte).getD 0 0)
            ++ fmt02X (([0xDE, 0xAD, 0xBE, 0xEF, 0, 0, 0, 0] : List Byte).getD 1 0)
            ++ fmt02X (([0xDE, 0xAD, 0xBE, 0xEF, 0, 0, 0, 0] : List Byte).getD 2 0)
            ++ fmt02X (([0xDE, 0xAD, 0xBE, 0xEF, 0, 0, 0, 0] : List Byte).getD 3 0) ++ "]") :=
  Receive_rejects_malformed openSocket [0xDE, 0xAD, 0xBE, 0xEF, 0, 0, 0, 0] [] "Success"
    ByteBuffer.ctor ByteBuffer.ctor (by decide) (by decide)

end UnixDomainSocket

/-! ## What a successful `Receive` tells -/

theorem recvfrom_length (w : RxWorld) (n : Nat) (len : Int) (msg : List Byte) (w1 : RxWorld)
    (h : recvfrom w n = some (len, msg, w1)) : len = -1 ∨ len = (msg.length : Int) := by
  unfold recvfrom at h
  split at h
  · exact absurd h (by simp)
  · simp only [Option.some.injEq, Prod.mk.injEq] at h
    exact Or.inl h.1.symm
  · simp only [Option.some.injEq, Prod.mk.injEq] at h
    right
    rw [← h.1, ← h.2.1]

/-- A `Receive` that returns without error was made on an open socket and left at most
512 bytes in the header buffer. -/
theorem UnixDomainSocket.Receive_success (s : UnixDomainSocket) (w : RxWorld)
    (outH outB : ByteBuffer) (ro : ReceiveOutcome)
    (h : s.Receive w outH outB = some ro) (hok : ro.result.IsError = false) :
    s.IsOpend = true ∧ ro.outHeader.Size ≤ 512 := by
  simp only [UnixDomainSocket.Receive] at h
  split at h
  · simp only [Option.some.injEq] at h
    rw [← h] at hok
    exact absurd hok (by simp [Result.CreateError_isError])
  · rename_i hopen
    refine ⟨by simpa using hopen, ?_⟩
    split at h
    · exact absurd h (by simp)
    · split at h
      · simp only [Option.some.injEq] at h
        rw [← h] at hok
        exact absurd hok (by simp [Result.CreateError_isError])
      · split at h
        · simp only [Option.some.injEq] at h
          rw [← h] at hok
          exact absurd hok (by simp [Result.CreateError_isError])
        · split at h
          · simp only [Option.some.injEq] at h
            rw [← h] at hok
            exact absurd hok (by simp [Result.CreateError_isError])
          · split at h
            · exact absurd h (by simp)
            · rename_i len2 msg2 w2 hrecv2
              split at h
              · simp only [Option.some.injEq] at h
                rw [← h] at hok
                exact absurd hok (by simp [Result.CreateError_isError])
              · rename_i hlen2
                have hl := recvfrom_length _ _ _ _ _ hrecv2
                have hsz : msg2.length ≤ 512 := by omega
                split at h
                · exact absurd h (by simp)
                · simp only [Option.some.injEq] at h
                  rw [← h] at hok
                  exact absurd hok (by simp [Result.CreateError_isError])
                · simp only [Option.some.injEq] at h
                  rw [← h]
                  exact hsz

/-! ## C10: the server answers a ping -/

namespace UnixDomainSocketServer

/-- At the head of the loop of `Run` the response buffer is empty. -/
theorem reachable_response {σ : Type} (K : TxKernel σ) (sv : ServerState σ)
    (h : ServerReachable K sv) : sv.response = ByteBuffer.ctor := by
  induction h with
  | entry sv => rfl
  | step fuel sv next _ _ hstep ih =>
    simp only [Run_iteration] at hstep
    split at hstep
    · exact absurd hstep (by simp)
    · rename_i ro _
      split at hstep
      · split at hstep
        · simp only [Option.some.injEq] at hstep
          rw [← hstep]; exact ih
        · simp only [Option.some.injEq] at hstep
          rw [← hstep]; exact ih
      · split at hstep
        · simp only [Option.some.injEq] at hstep
          rw [← hstep]; exact ih
        · split at hstep
          · exact absurd hstep (by simp)
          · split at hstep
            · exact absurd hstep (by simp)
            · simp only [Option.some.injEq] at hstep
              rw [← hstep]; rfl

theorem okBody_data : (ByteBuffer.ctor.AppendFormat okText).Data = [2, 0, 0, 0, 0x4F, 0x4B] := by
  decide

/-- C10. At the head of the server loop, when `Receive` returns without error a frame
whose type tag is 2: the pass is exactly one call of `Send` with the received application
header (rewound, same bytes) and the body `"OK"` appended to the empty response buffer;
no handler callback is made, whether or not a handler is registered and whether or not
that `Send` fails. When every `sendto` transmits in full and the limit admits 6 bytes,
the datagrams sent are the protocol header for 6 bytes, the received header bytes, and
`02 00 00 00 'O' 'K'`. -/
theorem Run_iteration_ping {σ : Type} (K : TxKernel σ) (fuel : Nat) (sv : ServerState σ)
    (ro : ReceiveOutcome) (header1 : ByteBuffer)
    (hreach : ServerReachable K sv) (hactive : sv.m_isActive = true)
    (hrecv : sv.sock.Receive sv.rx sv.header sv.request = some ro)
    (hok : ro.result.IsError = false)
    (htag : ro.outHeader.Value (T := CUInt) = (some 2, header1)) :
    (header1.SetPosition 0).Data = ro.outHeader.Data ∧
    Run_iteration K fuel sv
      = (sv.sock.Send K fuel sv.tx (header1.SetPosition 0)
            (ByteBuffer.ctor.AppendFormat okText)).map
          (fun so => { sv with result := so.result, header := header1.SetPosition 0,
                               request := ByteBuffer.ctor, response := ByteBuffer.ctor,
                               rx := ro.world, tx := so.state,
                               sendCalls := sv.sendCalls
                                 ++ [(header1.SetPosition 0, ByteBuffer.ctor.AppendFormat okText)],
                               sent := sv.sent ++ so.datagrams }) ∧
    (∀ next, Run_iteration K fuel sv = some next →
      next.calls = sv.calls ∧
      next.sendCalls = sv.sendCalls
        ++ [(header1.SetPosition 0, ByteBuffer.ctor.AppendFormat okText)]) ∧
    ((∀ st d, (K.sendto st d).1 = (d.length : Int)) →
      (sv.sock.m_limitSize.val = 0 ∨ 6 ≤ sv.sock.m_limitSize.val) → 1 ≤ fuel →
      ∃ next, Run_iteration K fuel sv = some next ∧ next.calls = sv.calls ∧
        next.sent = sv.sent
          ++ [protocolHeader 6, ro.outHeader.Data, [2, 0, 0, 0, 0x4F, 0x4B]]) := by
  have hresp := reachable_response K sv hreach
  have hdata : (header1.SetPosition 0).Data = ro.outHeader.Data := by
    have : header1 = (ro.outHeader.Value (T := CUInt)).2 := by rw [htag]
    rw [this]; rfl
  have heq : Run_iteration K fuel sv
      = (sv.sock.Send K fuel sv.tx (header1.SetPosition 0)
            (ByteBuffer.ctor.AppendFormat okText)).map
          (fun so => { sv with result := so.result, header := header1.SetPosition 0,
                               request := ByteBuffer.ctor, response := ByteBuffer.ctor,
                               rx := ro.world, tx := so.state,
                               sendCalls := sv.sendCalls
                                 ++ [(header1.SetPosition 0, ByteBuffer.ctor.AppendFormat okText)],
                               sent := sv.sent ++ so.datagrams }) := by
    simp only [Run_iteration, hrecv, hok, hactive, htag, hresp, Bool.false_eq_true, if_false,
      Bool.not_true, if_true]
    cases hsend : sv.sock.Send K fuel sv.tx (header1.SetPosition 0)
        (ByteBuffer.ctor.AppendFormat okText) with
    | none => rfl
    | some so =>
      simp only [Option.map_some', ne_eq, not_true_eq_false, and_false, if_false,
        ByteBuffer.Clear, ByteBuffer.ctor]
  refine ⟨hdata, heq, ?_, ?_⟩
  · intro next hnext
    rw [heq] at hnext
    cases hsend : sv.sock.Send K fuel sv.tx (header1.SetPosition 0)
        (ByteBuffer.ctor.AppendFormat okText) with
    | none => rw [hsend] at hnext; exact absurd hnext (by simp)
    | some so =>
      rw [hsend] at hnext
      simp only [Option.map_some', Option.some.injEq] at hnext
      rw [← hnext]
      exact ⟨rfl, rfl⟩
  · intro hfull hlim hfuel
    obtain ⟨hopen, hsize⟩ := UnixDomainSocket.Receive_success _ _ _ _ _ hrecv hok
    have hsz6 : (ByteBuffer.ctor.AppendFormat okText).Size = 6 := by decide
    have hH : (header1.SetPosition 0).Size ≤ 512 := by
      have : (header1.SetPosition 0).Size = ro.outHeader.Size := by
        simp only [ByteBuffer.Size]
        exact congrArg List.length hdata
      omega
    have hsend := UnixDomainSocket.Send_full K hfull sv.sock sv.tx (header1.SetPosition 0)
      (ByteBuffer.ctor.AppendFormat okText) hopen hH (by rw [hsz6]; omega)
      (by rw [hsz6]; decide) fuel (by rw [hsz6]; omega)
    rw [heq, hsend]
    refine ⟨_, rfl, rfl, ?_⟩
    simp only [hsz6, hdata]
    rfl

/-- Witness for C10: a server without handler, on entry of `Run`, receives the frame of a
client `Ping()` over the reliable channel. -/
theorem Run_iteration_ping_witness :
    ∃ next, Run_iteration fifoChannel 1 pingServer = some next ∧ next.calls = []
      ∧ next.sendCalls = [(ByteBuffer.ctorData [2, 0, 0, 0], ByteBuffer.ctor.AppendFormat okText)]
      ∧ next.sent = [protocolHeader 6, [2, 0, 0, 0], [2, 0, 0, 0, 0x4F, 0x4B]] := by
  have h := Run_iteration_ping fifoChannel 1 pingServer pingReceived
    { m_buffer := [2, 0, 0, 0], m_position := 4 }
    (ServerReachable.entry _) rfl (by decide) rfl (by decide)
  obtain ⟨next, hnext, hcalls, hsent⟩ := h.2.2.2 (fun _ _ => rfl) (by decide) (by decide)
  exact ⟨next, hnext, hcalls, (h.2.2.1 next hnext).2, hsent⟩

end UnixDomainSocketServer

/-! ## C4, C5, C6: the client worker and the response hand-off

In `Run` and in `privateSendReceive` the test `if (m_isResponseError)` converts the
`Result` with `operator bool`, which is true on success. The three evaluations below are
all consequences of that test. -/

namespace UnixDomainSocketClient

/-- C4, evaluation at the failing input. A started client sends the request "hello"; the
worker then receives without error the reply of an echo server (tag 0, body "hello").
`SendReceive` returns success, but `response` is still the empty buffer it was, not
"hello": the worker marks the response as arrived without capturing header and body, and
`SendReceive` returns at the test of `m_isResponseError`. -/
theorem SendReceive_echo_drops_reply :
    (clientSocket.Receive { queue := echoFrame, errnoText := "Success" }
        ByteBuffer.ctor ByteBuffer.ctor).map (fun ro => (ro.result, ro.outHeader, ro.outBody))
      = some (Result.CreateSuccess, requestHeader, helloBody) ∧
    (SendReceive fifoChannel 1 1 (startedClient false echoFrame) helloBody ByteBuffer.ctor).map
        (fun r => (r.1, r.2.1, r.2.2.m_response))
      = some (Result.CreateSuccess, ByteBuffer.ctor, ByteBuffer.ctor) ∧
    ByteBuffer.ctor.Data ≠ helloBody.Data := by
  refine ⟨by decide, by decide, by decide⟩

/-- C5, evaluation at the failing input. A started client makes two `SendReceive` calls;
the worker receives the echo reply "hello" during the first and a malformed protocol
header during the second, for which `Receive` returns the error
"receive protocol header error [invalid hexspeak:0xDEADBEEF]". The second `SendReceive`
returns success, not that error, and copies into `response` the body "hello" left over
from the first reply. -/
theorem SendReceive_error_not_returned :
    (SendReceive fifoChannel 1 1 (startedClient false (echoFrame ++ [malformedDatagram]))
        helloBody ByteBuffer.ctor).bind
      (fun r1 =>
        (clientSocket.Receive r1.2.2.rx r1.2.2.header r1.2.2.response).bind
          (fun ro =>
            (SendReceive fifoChannel 1 1 r1.2.2 helloBody ByteBuffer.ctor).map
              (fun r2 => (ro.result, r2.1, r2.2.1))))
      = some (Result.CreateError "receive protocol header error [invalid hexspeak:0xDEADBEEF]",
              Result.CreateSuccess, helloBody) := by
  decide

/-- C6, evaluation at the failing input. A started client with a registered notify
receiver; the worker receives without error a notification (tag 1) whose body holds the
integer 42. The pass does not call `ReceiveNotify` and marks a response as arrived. -/
theorem Run_iteration_drops_notification :
    (clientSocket.Receive { queue := notifyFrame, errnoText := "Success" }
        ByteBuffer.ctor ByteBuffer.ctor).map (fun ro => (ro.result, ro.outHeader, ro.outBody))
      = some (Result.CreateSuccess, ByteBuffer.ctorData [1, 0, 0, 0],
              ByteBuffer.ctor.Append (toCInt 42)) ∧
    (Run_iteration (startedClient true notifyFrame)).map
        (fun c => (c.notified, c.m_responseArrived, c.signals))
      = some ([], true, 1) := by
  refine ⟨by decide, by decide⟩

end UnixDomainSocketClient

/-! ## C16: `Clear` and `IsEmpty` -/

/-- C16. For every buffer (any contents, any read position), after `Clear()` the size is
0, the position is 0 and `IsEmpty()` is true; and `IsEmpty()` is true exactly when the
size is 0. -/
theorem ByteBuffer.Clear_empties (b : ByteBuffer) :
    b.Clear.Size = 0 ∧ b.Clear.Position = 0 ∧ b.Clear.IsEmpty = true ∧
    (b.IsEmpty = true ↔ b.Size = 0) := by
  refine ⟨rfl, rfl, rfl, ?_⟩
  simp only [ByteBuffer.IsEmpty, ByteBuffer.Size, List.isEmpty_iff, List.length_eq_zero]

/-! ## C13: `size_t` values -/

/-- C13, counterexample. The `size_t` value `2^31` appended to a fresh buffer is read
back as `2^64 - 2^31`: `Append(size_t)` narrows it to the `int` `-2^31` and
`Value(size_t&)` converts that `int` back. -/
theorem ByteBuffer.size_round_trip_narrowed :
    ((ByteBuffer.ctor.AppendSize 2147483648).ValueSize).1 = some 18446744071562067968 ∧
    ((ByteBuffer.ctor.AppendSize 2147483648).ValueSize).1 ≠ some 2147483648 := by
  decide

/-- C13 (amended). For every `size_t` value `v`, on a fresh buffer `Append(v)` followed by
`Value(out)` with `out` of type `size_t` leaves the position at the size, and `out == v`
exactly when `v < 2^31` or `v ≥ 2^64 - 2^31` (the values that survive the narrowing to a
32-bit signed `int`). -/
theorem ByteBuffer.size_round_trip (v : Nat) (hv : v < 18446744073709551616) :
    ∃ out b, (ByteBuffer.ctor.AppendSize v).ValueSize = (some out, b)
      ∧ b.Position = b.Size
      ∧ (out = v ↔ (v < 2147483648 ∨ 18446744071562067968 ≤ v)) := by
  have h4 : ([] : List Byte).length + Primitive.sizeof CInt < 4294967296 := by decide
  have hread := ByteBuffer.Value_at [] [] (castSizeToInt v) h4
  simp only [List.append_nil, List.nil_append, List.length_nil, Nat.zero_add] at hread
  refine ⟨castIntToSize (castSizeToInt v),
    { m_buffer := Primitive.image (castSizeToInt v), m_position := Primitive.sizeof CInt },
    ?_, ?_, ?_⟩
  · simp only [ByteBuffer.ValueSize, ByteBuffer.AppendSize, ByteBuffer.Append,
      ByteBuffer.ctor, List.nil_append, hread]
  · simp only [ByteBuffer.Position, ByteBuffer.Size, Primitive.image_length]
  · unfold castIntToSize castSizeToInt toCInt
    split <;> simp only [] <;> omega

/-- Witness for C13 at the value 1024. -/
theorem ByteBuffer.size_round_trip_witness :
    ∃ out b, (ByteBuffer.ctor.AppendSize 1024).ValueSize = (some out, b)
      ∧ b.Position = b.Size
      ∧ (out = 1024 ↔ (1024 < 2147483648 ∨ 18446744071562067968 ≤ 1024)) :=
  ByteBuffer.size_round_trip 1024 (by decide)

/-! ## C14: size accounting of `Append` -/

namespace ByteBuffer

theorem Append_Size {T : Type} [Primitive T] (b : ByteBuffer) (v : T) :
    (b.Append v).Size = b.Size + Primitive.sizeof T := by
  simp only [Append, Size, List.length_append, Primitive.image_length]

theorem AppendSize_Size (b : ByteBuffer) (v : Nat) : (b.AppendSize v).Size = b.Size + 4 :=
  Append_Size b (castSizeToInt v)

theorem AppendString_Size (b : ByteBuffer) (s : List Byte) :
    (b.AppendString s).Size = b.Size + (4 + s.length) := by
  have h := AppendSize_Size b s.length
  simp only [Size] at h
  simp only [AppendString, Size, List.length_append, h]
  omega

theorem AppendCStr_Size (b : ByteBuffer) (text : List Byte) :
    (b.AppendCStr text).Size = b.Size + (4 + (cstr text).length) := by
  have h := AppendSize_Size b (cstr text).length
  simp only [Size] at h
  simp only [AppendCStr, Size, List.length_append, h]
  omega

theorem AppendMap_Size {K V : Type} [Primitive K] [Primitive V] (b : ByteBuffer)
    (m : List (K × V)) :
    (b.AppendMap m).Size
      = b.Size + (4 + m.length * (Primitive.sizeof K + Primitive.sizeof V)) := by
  simp only [AppendMap]
  rw [foldl_AppendEntry]
  simp only [Size, Append, List.length_append, Primitive.image_length, entryImages_length]
  have e : Primitive.sizeof CInt = 4 := rfl
  rw [e]
  omega

end ByteBuffer

namespace ByteBuffer

theorem foldl_Append_keeps {T : Type} [Primitive T] (xs : List T) (b : ByteBuffer) :
    (xs.foldl (fun acc x => acc.Append x) b).m_position = b.m_position
      ∧ b.Size ≤ (xs.foldl (fun acc x => acc.Append x) b).Size := by
  rw [foldl_Append]
  exact ⟨rfl, by simp only [Size, List.length_append]; exact Nat.le_add_right _ _⟩

/-- A primitive read that returns a value had its bytes inside the sequence. -/
theorem Value_some {T : Type} [Primitive T] (b b1 : ByteBuffer) (v : T)
    (h : b.Value (T := T) = (some v, b1)) :
    b1.m_buffer = b.m_buffer ∧ b.m_position + Primitive.sizeof T ≤ b.Size
      ∧ b1.m_position ≤ b.Size := by
  have hpos : 0 < Primitive.sizeof T := Primitive.sizeof_pos
  have hv := congrArg Prod.fst h
  have hb := congrArg Prod.snd h
  simp only [Value] at hv hb
  have hlen : ((b.m_buffer.drop b.m_position).take (Primitive.sizeof T)).length
      = Primitive.sizeof T := by
    by_contra hne
    rw [if_neg hne] at hv
    exact absurd hv (by simp)
  simp only [List.length_take, List.length_drop] at hlen
  have hle : b.m_position + Primitive.sizeof T ≤ b.Size := by
    simp only [Size]; omega
  refine ⟨by rw [← hb], hle, ?_⟩
  rw [← hb]
  exact Nat.le_trans (Nat.mod_le _ _) hle

theorem valueCounted_some (b c : ByteBuffer) (bytes : List Byte)
    (h : b.valueCounted = some (bytes, c)) : c.m_position ≤ c.Size := by
  simp only [valueCounted] at h
  split at h
  · exact absurd h (by simp)
  · rename_i size b1 hv
    obtain ⟨hbuf, -, hp1⟩ := Value_some b b1 size hv
    split at h
    · exact absurd h (by simp)
    · split at h
      · rename_i hlen
        simp only [Option.some.injEq, Prod.mk.injEq] at h
        rw [← h.2]
        simp only [List.length_take, List.length_drop, hbuf] at hlen
        simp only [Size, hbuf] at hp1 ⊢
        exact Nat.le_trans (Nat.mod_le _ _) (by omega)
      · exact absurd h (by simp)

theorem valueElems_bound {T : Type} [Primitive T] (n : Nat) (b : ByteBuffer) (out o : List T)
    (c : ByteBuffer) (h : valueElems n b out = some (o, c)) (hb : b.m_position ≤ b.Size) :
    c.m_position ≤ c.Size := by
  induction n generalizing b out with
  | zero =>
    simp only [valueElems, Option.some.injEq, Prod.mk.injEq] at h
    rw [← h.2]; exact hb
  | succ n ih =>
    simp only [valueElems] at h
    split at h
    · exact absurd h (by simp)
    · rename_i value b1 hv
      obtain ⟨hbuf, -, hp1⟩ := Value_some b b1 value hv
      exact ih b1 _ h (by simp only [Size, hbuf] at hp1 ⊢; exact hp1)

theorem valueEntries_bound {K V : Type} [LinearOrder K] [Primitive K] [Primitive V] (n : Nat)
    (b : ByteBuffer) (out o : List (K × V)) (c : ByteBuffer)
    (h : valueEntries n b out = some (o, c)) (hb : b.m_position ≤ b.Size) :
    c.m_position ≤ c.Size := by
  induction n generalizing b out with
  | zero =>
    simp only [valueEntries, Option.some.injEq, Prod.mk.injEq] at h
    rw [← h.2]; exact hb
  | succ n ih =>
    simp only [valueEntries] at h
    split at h
    · exact absurd h (by simp)
    · rename_i key b1 hk
      obtain ⟨hbuf1, -, -⟩ := Value_some b b1 key hk
      split at h
      · exact absurd h (by simp)
      · rename_i val b2 hv
        obtain ⟨hbuf2, -, hp2⟩ := Value_some b1 b2 val hv
        exact ih b2 _ h (by simp only [Size, hbuf2] at hp2 ⊢; exact hp2)

end ByteBuffer

theorem AppendArg.apply_keeps (b : ByteBuffer) (a : AppendArg) :
    (a.apply b).m_position = b.m_position ∧ b.Size ≤ (a.apply b).Size := by
  cases a with
  | primitive v => exact ⟨rfl, by
      rw [show (AppendArg.primitive v).apply b = b.Append v from rfl, ByteBuffer.Append_Size]
      omega⟩
  | size v => exact ⟨rfl, by rw [show (AppendArg.size v).apply b = b.AppendSize v from rfl,
      ByteBuffer.AppendSize_Size]; omega⟩
  | string s => exact ⟨rfl, by rw [show (AppendArg.string s).apply b = b.AppendString s from rfl,
      ByteBuffer.AppendString_Size]; omega⟩
  | cstring text => exact ⟨rfl, by
      rw [show (AppendArg.cstring text).apply b = b.AppendCStr text from rfl,
        ByteBuffer.AppendCStr_Size]; omega⟩
  | buffer inner => exact ⟨rfl, by
      rw [show (AppendArg.buffer inner).apply b = b.AppendString inner.Data from rfl,
        ByteBuffer.AppendString_Size]; omega⟩
  | vector v =>
    have h := ByteBuffer.foldl_Append_keeps
      (v.take (castSizeToInt v.length).val.toNat) (b.Append (castSizeToInt v.length))
    have hs := ByteBuffer.Append_Size b (castSizeToInt v.length)
    refine ⟨h.1, ?_⟩
    show b.Size ≤ (b.AppendVector v).Size
    simp only [ByteBuffer.AppendVector]
    omega
  | map m => exact ⟨by
      show (b.AppendMap m).m_position = b.m_position
      simp only [ByteBuffer.AppendMap]
      rw [ByteBuffer.foldl_AppendEntry]
      rfl, by
      rw [show (AppendArg.map m).apply b = b.AppendMap m from rfl, ByteBuffer.AppendMap_Size]
      omega⟩

/-- One operation that stays inside the buffer keeps the position at most the size. -/
theorem BufferOp.apply_inBounds (b next : ByteBuffer) (op : BufferOp)
    (hb : b.Position ≤ b.Size) (hin : op.inBounds b) (h : op.apply b = some next) :
    next.Position ≤ next.Size := by
  simp only [ByteBuffer.Position] at hb ⊢
  cases op with
  | append a =>
    simp only [BufferOp.apply, Option.some.injEq] at h
    have := AppendArg.apply_keeps b a
    rw [← h, this.1]
    omega
  | clear =>
    simp only [BufferOp.apply, Option.some.injEq] at h
    rw [← h]; exact Nat.le_refl 0
  | setPosition pos =>
    simp only [BufferOp.apply, Option.some.injEq] at h
    rw [← h]; exact hin
  | value T =>
    simp only [BufferOp.apply, Option.some.injEq] at h
    rw [← h]
    exact Nat.le_trans (Nat.mod_le _ _) hin
  | valueSize =>
    simp only [BufferOp.apply, Option.some.injEq] at h
    have h2 : b.ValueSize.2 = (b.Value (T := CInt)).2 := by
      unfold ByteBuffer.ValueSize
      split <;> simp_all
    rw [← h, h2]
    exact Nat.le_trans (Nat.mod_le _ _) hin
  | valueString =>
    simp only [BufferOp.apply, ByteBuffer.ValueString, Option.map_eq_some', Prod.exists,
      exists_eq_right] at h
    obtain ⟨bytes, hc⟩ := h
    exact ByteBuffer.valueCounted_some b next bytes hc
  | valueCString =>
    simp only [BufferOp.apply, Option.map_eq_some', Prod.exists, exists_eq_right] at h
    obtain ⟨text, hc⟩ := h
    unfold ByteBuffer.ValueCStr at hc
    split at hc
    · exact absurd hc (by simp)
    · rename_i size b1 hv
      have hguard := hin size b1 hv
      obtain ⟨hbuf, -, -⟩ := ByteBuffer.Value_some b b1 size hv
      have hp1 : b1.m_position ≤ b.m_position + 4 := by
        have : b1 = (b.Value (T := CInt)).2 := by rw [hv]
        rw [this]
        exact Nat.mod_le _ _
      split at hc
      · exact absurd hc (by simp)
      · simp only [Option.some.injEq, Prod.mk.injEq] at hc
        rw [← hc.2]
        simp only [ByteBuffer.Size, ByteBuffer.Position, hbuf] at hguard ⊢
        exact Nat.le_trans (Nat.mod_le _ _) (by omega)
  | valueBuffer =>
    simp only [BufferOp.apply, Option.map_eq_some', Prod.exists, exists_eq_right] at h
    obtain ⟨out, hc⟩ := h
    unfold ByteBuffer.ValueBuffer at hc
    split at hc
    · exact absurd hc (by simp)
    · rename_i bytes b1 hcount
      simp only [Option.some.injEq, Prod.mk.injEq] at hc
      rw [← hc.2]
      exact ByteBuffer.valueCounted_some b b1 bytes hcount
  | valueVector T =>
    simp only [BufferOp.apply, Option.map_eq_some', Prod.exists, exists_eq_right] at h
    obtain ⟨out, hc⟩ := h
    unfold ByteBuffer.ValueVector at hc
    split at hc
    · exact absurd hc (by simp)
    · rename_i size b1 hv
      obtain ⟨hbuf, -, hp1⟩ := ByteBuffer.Value_some b b1 size hv
      exact ByteBuffer.valueElems_bound _ b1 [] out next hc
        (by simp only [ByteBuffer.Size, hbuf] at hp1 ⊢; exact hp1)
  | valueMap K V =>
    simp only [BufferOp.apply, Option.map_eq_some', Prod.exists, exists_eq_right] at h
    obtain ⟨out, hc⟩ := h
    unfold ByteBuffer.ValueMap at hc
    split at hc
    · exact absurd hc (by simp)
    · rename_i size b1 hv
      obtain ⟨hbuf, -, hp1⟩ := ByteBuffer.Value_some b b1 size hv
      exact ByteBuffer.valueEntries_bound _ b1 [] out next hc
        (by simp only [ByteBuffer.Size, hbuf] at hp1 ⊢; exact hp1)

/-- C15, counterexample. Reading an `int` from a freshly constructed buffer, and from a
buffer that was just cleared, leaves a reachable state with position 4 and size 0. -/
theorem ByteBuffer.cursor_past_end :
    BufferReachable (ByteBuffer.ctor.Value (T := CInt)).2 ∧
    BufferReachable (helloBody.Clear.Value (T := CInt)).2 ∧
    (ByteBuffer.ctor.Value (T := CInt)).2.Position = 4 ∧
    (ByteBuffer.ctor.Value (T := CInt)).2.Size = 0 ∧
    ¬ ((ByteBuffer.ctor.Value (T := CInt)).2.Position
        ≤ (ByteBuffer.ctor.Value (T := CInt)).2.Size) := by
  refine ⟨?_, ?_, rfl, rfl, by decide⟩
  · exact BufferReachable.step ByteBuffer.ctor _ (BufferOp.value CInt) BufferReachable.ctor rfl
  · exact BufferReachable.step helloBody.Clear _ (BufferOp.value CInt)
      (BufferReachable.step helloBody _ BufferOp.clear (BufferReachable.ctorData _) rfl) rfl

/-- C15 (amended). In every state reachable from a constructor through `Append`, `Clear`,
`SetPosition(p)` with `p ≤ Size()`, and `Value` reads (of any shape) whose bytes all lie
inside the buffer, `Position() ≤ Size()`. A primitive `Value` read always advances the
position by `sizeof(T)` (in `unsigned int` arithmetic), also when fewer bytes remain. -/
theorem ByteBuffer.cursor_invariant (b : ByteBuffer) (h : BufferInBoundsReachable b) :
    b.Position ≤ b.Size ∧
    ∀ (T : Type) [Primitive T] (c : ByteBuffer),
      (c.Value (T := T)).2.Position = (c.Position + Primitive.sizeof T) % 4294967296 := by
  refine ⟨?_, fun _ _ _ => rfl⟩
  induction h with
  | ctor => exact Nat.le_refl 0
  | ctorData data => exact Nat.zero_le _
  | ctorRaw mem size b hb =>
    unfold ByteBuffer.ctorRaw at hb
    split at hb
    · simp only [Option.some.injEq] at hb
      rw [← hb]; exact Nat.zero_le _
    · exact absurd hb (by simp)
  | step b next op _ hin happly ih => exact BufferOp.apply_inBounds b next op ih hin happly

/-- Witness for C15: the string "hello" appended to a fresh buffer and read back. -/
theorem ByteBuffer.cursor_invariant_witness :
    ((ByteBuffer.ctor.AppendString (ascii "hello")).Value (T := CInt)).2.Position
        ≤ ((ByteBuffer.ctor.AppendString (ascii "hello")).Value (T := CInt)).2.Size ∧
    ∀ (T : Type) [Primitive T] (c : ByteBuffer),
      (c.Value (T := T)).2.Position = (c.Position + Primitive.sizeof T) % 4294967296 :=
  ByteBuffer.cursor_invariant _
    (BufferInBoundsReachable.step (ByteBuffer.ctor.AppendString (ascii "hello")) _
      (BufferOp.value CInt)
      (BufferInBoundsReachable.step ByteBuffer.ctor _
        (BufferOp.append (AppendArg.string (ascii "hello")))
        BufferInBoundsReachable.ctor trivial rfl)
      (by
        show (ByteBuffer.ctor.AppendString (ascii "hello")).Position + Primitive.sizeof CInt
          ≤ (ByteBuffer.ctor.AppendString (ascii "hello")).Size
        decide)
      rfl)

/-! ## C11: the server survives a receive error -/

namespace UnixDomainSocketServer

end UnixDomainSocketServer

/-! ## C12: the crossed paths -/

namespace UnixDomainSocket

theorem utf8_append (a b : String) : utf8 (a ++ b) = utf8 a ++ utf8 b := by
  simp only [utf8, String.toList, String.data_append, List.map_append, List.flatten_append]

theorem cString_noNul (name : String) (h : ∀ c ∈ name.toList, c ≠ Char.ofNat 0) :
    cString name = name := by
  apply String.ext
  show name.toList.takeWhile (fun c => c != Char.ofNat 0) = name.toList
  rw [List.takeWhile_eq_self_iff]
  intro c hc
  simpa using h c hc

/-- The name of a socket file on a base path without NUL and of at most 104 bytes is
copied whole into `sun_path`. -/
theorem strcpySunPath_fits (P : String) (tx : Bool)
    (hnul : ∀ c ∈ P.toList, c ≠ Char.ofNat 0) (hlen : (utf8 P).length ≤ 104) :
    cString (P ++ (if tx then ".tx" else ".rx")) = P ++ (if tx then ".tx" else ".rx") ∧
    strcpySunPath (P ++ (if tx then ".tx" else ".rx"))
      = some (P ++ (if tx then ".tx" else ".rx")) := by
  have hc : cString (P ++ (if tx then ".tx" else ".rx"))
      = P ++ (if tx then ".tx" else ".rx") := by
    apply cString_noNul
    intro c hc
    simp only [String.toList, String.data_append, List.mem_append] at hc
    rcases hc with hc | hc
    · exact hnul c hc
    · cases tx
      · have : c ∈ ['.', 'r', 'x'] := hc
        simp only [List.mem_cons, List.mem_singleton, List.not_mem_nil, or_false] at this
        rcases this with h | h | h <;> rw [h] <;> decide
      · have : c ∈ ['.', 't', 'x'] := hc
        simp only [List.mem_cons, List.mem_singleton, List.not_mem_nil, or_false] at this
        rcases this with h | h | h <;> rw [h] <;> decide
  refine ⟨hc, ?_⟩
  have h3 : (utf8 (if tx then ".tx" else ".rx")).length = 3 := by
    cases tx <;> rfl
  have hfit : (utf8 (P ++ (if tx then ".tx" else ".rx"))).length < SUN_PATH_SIZE := by
    rw [utf8_append, List.length_append, h3]
    show (utf8 P).length + 3 < 108
    omega
  simp only [strcpySunPath, hc, hfit, if_true]

set_option maxRecDepth 100000 in
/-- C12, counterexample. For the base path `/tmp/ipc` followed by a NUL and an `x`, the
owner endpoint sends to `/tmp/ipc` and unlinks, binds and receives on `/tmp/ipc` as well:
`name.c_str()` ends at the NUL, so both names lose their suffix and the two paths are not
crossed. For a base path of 200 characters the `strcpy` into `sun_path` writes past the
array. -/
theorem OpenSocket_path_cut :
    (((ctor nulPath true).OpenSocket bindSucceeds).map
        (fun r => (r.2.1.m_txAddress, r.2.1.m_rxAddress, r.2.2)))
      = some ("/tmp/ipc", "/tmp/ipc",
          [SocketCall.socket 3, SocketCall.socket 4, SocketCall.unlink "/tmp/ipc",
           SocketCall.bind 4 "/tmp/ipc" 0]) ∧
    "/tmp/ipc" ≠ nulPath ++ ".tx" ∧ "/tmp/ipc" ≠ nulPath ++ ".rx" ∧
    (ctor longPath true).OpenSocket bindSucceeds = none := by
  refine ⟨by decide, by decide, by decide, by decide⟩

/-- C12 (amended). For every base path `P` without a NUL byte and of at most 104 bytes
(the names `P.tx` and `P.rx` then fit `sun_path` with their terminator), owner flag and
answers of the operating system: `OpenSocket` on a constructed endpoint sets the send
address to `P.tx` for an owner and `P.rx` for a non-owner, and unlinks and binds the
receive socket on `P.rx` for an owner and `P.tx` for a non-owner; so the send path of
each side is the receive path of the other side. On the opened endpoint `CloseSocket`
makes exactly one `unlink`, of the endpoint's own receive path, the path `OpenSocket`
unlinked before `bind`. -/
theorem OpenSocket_crossed_paths (P : String) (isOwner : Bool) (env : OpenEnv)
    (hnul : ∀ c ∈ P.toList, c ≠ Char.ofNat 0) (hlen : (utf8 P).length ≤ 104) :
    ∃ s, ((ctor P isOwner).OpenSocket env).map (fun r => (r.2.1, r.2.2))
        = some (s, [SocketCall.socket env.txFd, SocketCall.socket env.rxFd,
            SocketCall.unlink (P ++ (if isOwner then ".rx" else ".tx")),
            SocketCall.bind env.rxFd (P ++ (if isOwner then ".rx" else ".tx")) env.bindRet]) ∧
      s.m_txAddress = P ++ (if isOwner then ".tx" else ".rx") ∧
      s.m_rxAddress = P ++ (if isOwner then ".rx" else ".tx") ∧
      (∀ envPeer : OpenEnv, ∃ peer,
        ((ctor P (!isOwner)).OpenSocket envPeer).map (fun r => r.2.1) = some peer ∧
        s.m_txAddress = peer.m_rxAddress ∧ s.m_rxAddress = peer.m_txAddress) ∧
      (env.bindRet ≠ -1 →
        s.IsOpend = true ∧
        (s.CloseSocket.2.filter SocketCall.isUnlink) = [SocketCall.unlink s.m_rxAddress] ∧
        s.CloseSocket.1.IsOpend = false) := by
  have hopen : ∀ (o : Bool) (e : OpenEnv), (ctor P o).OpenSocket e
      = some (if e.bindRet = -1 then
            Result.CreateError ("open socket error [" ++ e.errorText ++ "]")
          else Result.default,
         { m_path := P, m_isOwner := o, m_txSocketFd := e.txFd, m_rxSocketFd := e.rxFd,
           m_txAddress := P ++ (if o then ".tx" else ".rx"),
           m_rxAddress := P ++ (if o then ".rx" else ".tx"),
           m_isOpend := decide (e.bindRet ≠ -1), m_limitSize := 16777215 },
         [SocketCall.socket e.txFd, SocketCall.socket e.rxFd,
          SocketCall.unlink (P ++ (if o then ".rx" else ".tx")),
          SocketCall.bind e.rxFd (P ++ (if o then ".rx" else ".tx")) e.bindRet]) := by
    intro o e
    have htx := strcpySunPath_fits P o hnul hlen
    have hrx := strcpySunPath_fits P (!o) hnul hlen
    cases o
    · simp only [Bool.false_eq_true, if_false, Bool.not_false, if_true] at htx hrx
      simp [OpenSocket, openTx, ctor, IsOpend, htx.2, hrx.1, hrx.2]
    · simp only [if_true, Bool.not_true, Bool.false_eq_true, if_false] at htx hrx
      simp [OpenSocket, openTx, ctor, IsOpend, htx.2, hrx.1, hrx.2]
  refine ⟨_, by rw [hopen]; rfl, rfl, rfl, ?_, ?_⟩
  · intro envPeer
    refine ⟨_, by rw [hopen]; rfl, ?_, ?_⟩
    · cases isOwner <;> rfl
    · cases isOwner <;> rfl
  · intro hb
    have hrx := (strcpySunPath_fits P (!isOwner) hnul hlen).1
    refine ⟨by simp [IsOpend, hb], ?_, ?_⟩
    · have hname : cString (P ++ (if isOwner then ".rx" else ".tx"))
          = P ++ (if isOwner then ".rx" else ".tx") := by
        cases isOwner
        · simpa using hrx
        · simpa using hrx
      simp only [CloseSocket, IsOpend, hb, ne_eq, not_false_eq_true, decide_True,
        Bool.not_true, Bool.false_eq_true, if_false, hname]
      by_cases h1 : env.txFd = -1 <;> by_cases h2 : env.rxFd = -1 <;>
        simp [h1, h2, SocketCall.isUnlink]
    · simp [CloseSocket, IsOpend, hb]

/-- Witness for C12: the owner endpoint on `/tmp/ipc`, every call succeeding. -/
theorem OpenSocket_crossed_paths_witness :
    ∃ s, ((ctor "/tmp/ipc" true).OpenSocket bindSucceeds).map (fun r => (r.2.1, r.2.2))
        = some (s, [SocketCall.socket 3, SocketCall.socket 4,
            SocketCall.unlink "/tmp/ipc.rx", SocketCall.bind 4 "/tmp/ipc.rx" 0]) ∧
      s.m_txAddress = "/tmp/ipc.tx" ∧ s.m_rxAddress = "/tmp/ipc.rx" ∧
      (∀ envPeer : OpenEnv, ∃ peer,
        ((ctor "/tmp/ipc" (!true)).OpenSocket envPeer).map (fun r => r.2.1) = some peer ∧
        s.m_txAddress = peer.m_rxAddress ∧ s.m_rxAddress = peer.m_txAddress) ∧
      ((0 : Int) ≠ -1 →
        s.IsOpend = true ∧
        (s.CloseSocket.2.filter SocketCall.isUnlink) = [SocketCall.unlink s.m_rxAddress] ∧
        s.CloseSocket.1.IsOpend = false) :=
  OpenSocket_crossed_paths "/tmp/ipc" true bindSucceeds (by decide) (by decide)

end UnixDomainSocket

/-! ## C17: the binary semaphore -/

theorem lookup_filter_ne {β : Type} (l : List (String × β)) (name : String) :
    (l.filter (fun e => e.1 != name)).lookup name = none := by
  induction l with
  | nil => rfl
  | cons e rest ih =>
    obtain ⟨a, b⟩ := e
    by_cases h : a = name
    · simp [List.filter_cons, h, ih]
    · have hne : (name == a) = false := by
        simp only [beq_eq_false_iff_ne, ne_eq]
        exact fun h2 => h h2.symm
      have hf : (a != name) = true := by simpa using h
      simp only [List.filter_cons, hf, if_true, List.lookup_cons, hne]
      exact ih

theorem getD_set_self (l : List Nat) (i v : Nat) (h : i < l.length) :
    (l.set i v).getD i 0 = v := by
  simp [List.getD_eq_getElem?_getD, List.getElem?_set, h]

namespace Semaphore

/-- An owner construction with a valid name creates a semaphore object of value 1. -/
theorem ctor_owner (k : Posix) (name : String) (hname : checkName name = NameCheck.valid) :
    (ctor k name true).1.m_semaphore = some k.semValues.length ∧
    (ctor k name true).2.semValues = k.semValues ++ [1] := by
  have hl := lookup_filter_ne k.semNames name
  simp [ctor, hname, Posix.semCreate, Posix.semUnlink, Posix.log, hl]

theorem Wait_value (k k1 : Posix) (s : Semaphore) (sem : Nat) (hs : s.m_semaphore = some sem)
    (hlt : sem < k.semValues.length) (h : s.Wait k = some k1) :
    sem < k1.semValues.length ∧ 0 < k.semValue sem ∧ k1.semValue sem = k.semValue sem - 1 := by
  simp only [Wait, hs, Posix.semWait] at h
  split at h
  · rename_i hpos
    simp only [Option.some.injEq] at h
    rw [← h]
    refine ⟨by simp [Posix.log, hlt], hpos, ?_⟩
    simp only [Posix.semValue, Posix.log]
    exact getD_set_self _ _ _ hlt
  · exact absurd h (by simp)

theorem Post_value (k : Posix) (s : Semaphore) (sem : Nat) (hs : s.m_semaphore = some sem)
    (hlt : sem < k.semValues.length) :
    sem < (s.Post k).semValues.length ∧
    (s.Post k).semValue sem = if k.semValue sem < 1 then k.semValue sem + 1 else k.semValue sem := by
  simp only [Post, hs, Posix.semGetvalue]
  by_cases hv : k.semValue sem < 1
  · have hv2 : ((k.semValue sem : Nat) : Int) < 1 := by omega
    simp only [hv2, hv, if_true, Posix.semPost, Posix.log, List.length_set]
    refine ⟨hlt, ?_⟩
    simp only [Posix.semValue]
    exact getD_set_self _ _ _ hlt
  · have hv2 : ¬ ((k.semValue sem : Nat) : Int) < 1 := by omega
    simp only [hv2, hv, if_false, Posix.log]
    exact ⟨hlt, rfl⟩

theorem run_value (s : Semaphore) (sem : Nat) (hs : s.m_semaphore = some sem)
    (ops : List SemaphoreOp) (k k2 : Posix) (hlt : sem < k.semValues.length)
    (hk : k.semValue sem ≤ 1) (h : s.run ops k = some k2) :
    sem < k2.semValues.length ∧ k2.semValue sem ≤ 1 := by
  induction ops generalizing k with
  | nil =>
    simp only [run, Option.some.injEq] at h
    rw [← h]; exact ⟨hlt, hk⟩
  | cons op ops ih =>
    cases op with
    | Wait =>
      simp only [run] at h
      split at h
      · exact absurd h (by simp)
      · rename_i k1 hw
        obtain ⟨h1, h2, h3⟩ := Wait_value k k1 s sem hs hlt hw
        exact ih k1 h1 (by omega) h
    | Post =>
      simp only [run] at h
      obtain ⟨h1, h2⟩ := Post_value k s sem hs hlt
      refine ih (s.Post k) h1 ?_ h
      rw [h2]; split <;> omega

/-- C17. In the sequential model, an owner construction with a valid name gives a
semaphore of count 1; after every sequence of `Wait` and `Post` calls on it (that does
not block) the count is 0 or 1; and two `Post` calls in a row then leave the count at 1,
because `Post` increments only a count below 1. -/
theorem binary (k : Posix) (name : String) (hname : checkName name = NameCheck.valid) :
    ∃ sem, (ctor k name true).1.m_semaphore = some sem
      ∧ (ctor k name true).2.semValue sem = 1
      ∧ (∀ k2 : Posix, sem < k2.semValues.length →
          ((ctor k name true).1.Post k2).semValue sem
            = if k2.semValue sem < 1 then k2.semValue sem + 1 else k2.semValue sem)
      ∧ ∀ ops k2, (ctor k name true).1.run ops (ctor k name true).2 = some k2 →
          (k2.semValue sem = 0 ∨ k2.semValue sem = 1)
          ∧ ((ctor k name true).1.Post ((ctor k name true).1.Post k2)).semValue sem = 1 := by
  obtain ⟨hsem, hvals⟩ := ctor_owner k name hname
  have hlt : k.semValues.length < (ctor k name true).2.semValues.length := by
    rw [hvals]; simp
  have hone : (ctor k name true).2.semValue k.semValues.length = 1 := by
    simp only [Posix.semValue, hvals]
    simp [List.getD_eq_getElem?_getD]
  refine ⟨k.semValues.length, hsem, hone, ?_, ?_⟩
  · intro k2 h2
    exact (Post_value k2 _ _ hsem h2).2
  · intro ops k2 hrun
    obtain ⟨h1, h2⟩ := run_value _ _ hsem ops _ k2 hlt (by omega) hrun
    refine ⟨by omega, ?_⟩
    obtain ⟨p1, p2⟩ := Post_value k2 _ _ hsem h1
    obtain ⟨-, q2⟩ := Post_value _ _ _ hsem p1
    rw [q2, p2]
    by_cases hv : k2.semValue k.semValues.length < 1
    · have h0 : k2.semValue k.semValues.length = 0 := by omega
      simp [h0]
    · have h1 : k2.semValue k.semValues.length = 1 := by omega
      simp [h1]

/-- Witness for C17: the semaphore `/sem` created on a kernel with no named object. -/
theorem binary_witness :
    ∃ sem, (ctor emptyPosix "/sem" true).1.m_semaphore = some sem
      ∧ (ctor emptyPosix "/sem" true).2.semValue sem = 1
      ∧ (∀ k2 : Posix, sem < k2.semValues.length →
          ((ctor emptyPosix "/sem" true).1.Post k2).semValue sem
            = if k2.semValue sem < 1 then k2.semValue sem + 1 else k2.semValue sem)
      ∧ ∀ ops k2, (ctor emptyPosix "/sem" true).1.run ops (ctor emptyPosix "/sem" true).2
            = some k2 →
          (k2.semValue sem = 0 ∨ k2.semValue sem = 1)
          ∧ ((ctor emptyPosix "/sem" true).1.Post
              ((ctor emptyPosix "/sem" true).1.Post k2)).semValue sem = 1 :=
  binary emptyPosix "/sem" (by decide)

end Semaphore

/-! ## C18: invalid names -/

theorem checkName_invalid (name : String) (hbad : name.toList.head? ≠ some '/') :
    checkName name = NameCheck.empty ∨ checkName name = NameCheck.noSlash := by
  unfold checkName
  cases hl : name.toList with
  | nil => exact Or.inl rfl
  | cons c rest =>
    right
    rw [hl] at hbad
    have hc : c ≠ '/' := by
      intro h
      apply hbad
      rw [h]; rfl
    simp only [hc, ne_eq, not_false_eq_true, if_true]

/-- C18. For every name that is empty or whose first character is not `/`, every kernel
state and owner flag: `Semaphore::Exist` and `SharedMemory::Exist` return an error and
leave the kernel as it was (no call is made); constructing a `Semaphore` or a
`SharedMemory` with that name makes no kernel call and changes no kernel object (only a
line is written to standard error), leaves the handle null, and every later `Wait` and
`Post` on the object is a no-op. -/
theorem invalid_name_inert (name : String) (hbad : name.toList.head? ≠ some '/') (k : Posix)
    (isOwner : Bool) (size : Nat) :
    ((Semaphore.Exist k name).1.IsError = true ∧ (Semaphore.Exist k name).2 = k) ∧
    ((SharedMemory.Exist k name).1.IsError = true ∧ (SharedMemory.Exist k name).2 = k) ∧
    ((Semaphore.ctor k name isOwner).1.m_semaphore = none
      ∧ (Semaphore.ctor k name isOwner).2.calls = k.calls
      ∧ { (Semaphore.ctor k name isOwner).2 with stderr := k.stderr } = k
      ∧ ∀ k2 : Posix, (Semaphore.ctor k name isOwner).1.Wait k2 = some k2
          ∧ (Semaphore.ctor k name isOwner).1.Post k2 = k2) ∧
    ((SharedMemory.ctor k name size isOwner).1.m_memoryMap = none
      ∧ (SharedMemory.ctor k name size isOwner).1.m_semaphore = none
      ∧ (SharedMemory.ctor k name size isOwner).2.calls = k.calls
      ∧ { (SharedMemory.ctor k name size isOwner).2 with stderr := k.stderr } = k
      ∧ ∀ k2 : Posix, (SharedMemory.ctor k name size isOwner).1.Wait k2 = some k2
          ∧ (SharedMemory.ctor k name size isOwner).1.Post k2 = k2) := by
  rcases checkName_invalid name hbad with h | h
  · simp only [Semaphore.Exist, SharedMemory.Exist, Semaphore.ctor, SharedMemory.ctor, h,
      SharedMemory.inert, Posix.print, Semaphore.Wait, Semaphore.Post, SharedMemory.Wait,
      SharedMemory.Post, Result.CreateError_isError]
    simp
  · simp only [Semaphore.Exist, SharedMemory.Exist, Semaphore.ctor, SharedMemory.ctor, h,
      SharedMemory.inert, Posix.print, Semaphore.Wait, Semaphore.Post, SharedMemory.Wait,
      SharedMemory.Post, Result.CreateError_isError]
    simp

/-- Witness for C18: the name `sem` (no leading `/`), a non-owner, on a kernel with no
named object. -/
theorem invalid_name_inert_witness :
    ((Semaphore.Exist emptyPosix "sem").1.IsError = true
      ∧ (Semaphore.Exist emptyPosix "sem").2 = emptyPosix) ∧
    ((SharedMemory.Exist emptyPosix "sem").1.IsError = true
      ∧ (SharedMemory.Exist emptyPosix "sem").2 = emptyPosix) ∧
    ((Semaphore.ctor emptyPosix "sem" false).1.m_semaphore = none
      ∧ (Semaphore.ctor emptyPosix "sem" false).2.calls = emptyPosix.calls
      ∧ { (Semaphore.ctor emptyPosix "sem" false).2 with stderr := emptyPosix.stderr }
          = emptyPosix
      ∧ ∀ k2 : Posix, (Semaphore.ctor emptyPosix "sem" false).1.Wait k2 = some k2
          ∧ (Semaphore.ctor emptyPosix "sem" false).1.Post k2 = k2) ∧
    ((SharedMemory.ctor emptyPosix "sem" 8 false).1.m_memoryMap = none
      ∧ (SharedMemory.ctor emptyPosix "sem" 8 false).1.m_semaphore = none
      ∧ (SharedMemory.ctor emptyPosix "sem" 8 false).2.calls = emptyPosix.calls
      ∧ { (SharedMemory.ctor emptyPosix "sem" 8 false).2 with stderr := emptyPosix.stderr }
          = emptyPosix
      ∧ ∀ k2 : Posix, (SharedMemory.ctor emptyPosix "sem" 8 false).1.Wait k2 = some k2
          ∧ (SharedMemory.ctor emptyPosix "sem" 8 false).1.Post k2 = k2) :=
  invalid_name_inert "sem" (by decide) emptyPosix false 8

/-! ## C19: binding a name again -/

theorem lookup_none_keys {β : Type} (l : List (String × β)) (name : String)
    (h : l.lookup name = none) : name ∉ l.map Prod.fst := by
  induction l with
  | nil => simp
  | cons e rest ih =>
    obtain ⟨a, b⟩ := e
    rw [List.lookup_cons] at h
    cases hab : (name == a) with
    | true => rw [hab] at h; exact absurd h (by simp)
    | false =>
      rw [hab] at h
      have hne : name ≠ a := by simpa using hab
      simp only [List.map_cons, List.mem_cons, not_or]
      exact ⟨hne, ih h⟩

theorem lookup_mapInsert {β : Type} (l : List (String × β)) (name : String) (v : β)
    (h : l.lookup name = none) : (ByteBuffer.mapInsert l (name, v)).lookup name = some v := by
  induction l with
  | nil => simp [ByteBuffer.mapInsert, List.lookup_cons]
  | cons e rest ih =>
    obtain ⟨a, b⟩ := e
    rw [List.lookup_cons] at h
    cases hab : (name == a) with
    | true => rw [hab] at h; exact absurd h (by simp)
    | false =>
      rw [hab] at h
      have hne : ¬ name = a := by simpa using hab
      simp only [ByteBuffer.mapInsert, hne, if_false]
      split
      · simp [List.lookup_cons]
      · rw [List.lookup_cons, hab]
        exact ih h

theorem keys_mapInsert {β : Type} (l : List (String × β)) (name : String) (v : β)
    (h : l.lookup name = none) :
    ((ByteBuffer.mapInsert l (name, v)).map Prod.fst).Perm (name :: l.map Prod.fst) := by
  induction l with
  | nil => simp [ByteBuffer.mapInsert]
  | cons e rest ih =>
    obtain ⟨a, b⟩ := e
    rw [List.lookup_cons] at h
    cases hab : (name == a) with
    | true => rw [hab] at h; exact absurd h (by simp)
    | false =>
      rw [hab] at h
      have hne : ¬ name = a := by simpa using hab
      simp only [ByteBuffer.mapInsert, hne, if_false]
      split
      · exact List.Perm.refl _
      · simp only [List.map_cons]
        exact (List.Perm.cons a (ih h)).trans (List.Perm.swap name a _)

namespace SharedMemoryContext

/-- After any `Bind` of a name, the map holds the pointer returned for that name. -/
theorem Bind_lookup (k : Posix) (ctx : SharedMemoryContext) (sizeofT : Nat) (name : String)
    (isOwner : Bool) :
    (Bind k ctx sizeofT name isOwner).2.1.m_sharedMemories.lookup name
      = some (Bind k ctx sizeofT name isOwner).1 := by
  unfold Bind bindSharedMemory
  cases hl : ctx.m_sharedMemories.lookup name with
  | some sm => simp only [hl]
  | none =>
    simp only []
    apply lookup_mapInsert
    by_cases ho : isOwner = true
    · simp only [ho, if_true, newSharedMemory, hl]
    · simp only [ho, Bool.false_eq_true, if_false]
      split <;> simp only [newSharedMemory, hl]

/-- A `Bind` keeps the names of the map distinct. -/
theorem Bind_nodup (k : Posix) (ctx : SharedMemoryContext) (sizeofT : Nat) (name : String)
    (isOwner : Bool) (h : (ctx.m_sharedMemories.map Prod.fst).Nodup) :
    ((Bind k ctx sizeofT name isOwner).2.1.m_sharedMemories.map Prod.fst).Nodup := by
  unfold Bind bindSharedMemory
  cases hl : ctx.m_sharedMemories.lookup name with
  | some sm => simp only [hl]; exact h
  | none =>
    simp only []
    have hkeys := lookup_none_keys _ _ hl
    have hmaps : ∀ r : Option Nat × SharedMemoryContext × Posix,
        r.2.1.m_sharedMemories = ctx.m_sharedMemories →
        ((ByteBuffer.mapInsert r.2.1.m_sharedMemories (name, r.1)).map Prod.fst).Nodup := by
      intro r hr
      rw [hr]
      exact (keys_mapInsert _ name r.1 hl).nodup_iff.mpr (List.nodup_cons.mpr ⟨hkeys, h⟩)
    apply hmaps
    by_cases ho : isOwner = true
    · simp only [ho, if_true, newSharedMemory]
    · simp only [ho, Bool.false_eq_true, if_false]
      split <;> simp only [newSharedMemory]

theorem reachable_nodup (ctx : SharedMemoryContext) (h : ContextReachable ctx) :
    (ctx.m_sharedMemories.map Prod.fst).Nodup := by
  induction h with
  | ctor => exact List.nodup_nil
  | bind k ctx sizeofT name isOwner _ ih => exact Bind_nodup k ctx sizeofT name isOwner ih

/-- C19. For every context, name and pair of `Bind` calls on that name, with any sizes
`sizeof(T)`, any owner flags, and any kernel state at each call: the second `Bind`
returns the pointer the first returned, leaves the context as it was (no `SharedMemory`
is constructed) and makes no kernel call; and the map of the context holds at most one
entry per name. -/
theorem rebind (ctx : SharedMemoryContext) (hreach : ContextReachable ctx) (k1 k2 : Posix)
    (name : String) (size1 size2 : Nat) (owner1 owner2 : Bool) :
    (Bind k2 (Bind k1 ctx size1 name owner1).2.1 size2 name owner2).1
      = (Bind k1 ctx size1 name owner1).1 ∧
    (Bind k2 (Bind k1 ctx size1 name owner1).2.1 size2 name owner2).2.1
      = (Bind k1 ctx size1 name owner1).2.1 ∧
    (Bind k2 (Bind k1 ctx size1 name owner1).2.1 size2 name owner2).2.2 = k2 ∧
    ((Bind k1 ctx size1 name owner1).2.1.m_sharedMemories.map Prod.fst).Nodup ∧
    ((Bind k2 (Bind k1 ctx size1 name owner1).2.1 size2 name owner2).2.1.m_sharedMemories.map
      Prod.fst).Nodup := by
  have hl := Bind_lookup k1 ctx size1 name owner1
  have h2 : Bind k2 (Bind k1 ctx size1 name owner1).2.1 size2 name owner2
      = ((Bind k1 ctx size1 name owner1).1, (Bind k1 ctx size1 name owner1).2.1, k2) := by
    simp only [Bind, bindSharedMemory] at hl ⊢
    simp only [hl]
  have hn := Bind_nodup k1 ctx size1 name owner1 (reachable_nodup ctx hreach)
  rw [h2]
  exact ⟨rfl, rfl, rfl, hn, hn⟩

/-- Witness for C19: a fresh context binds `/r` as owner and then as non-owner. -/
theorem rebind_witness :
    (Bind emptyPosix (Bind emptyPosix ctor 8 "/r" true).2.1 4 "/r" false).1
      = (Bind emptyPosix ctor 8 "/r" true).1 ∧
    (Bind emptyPosix (Bind emptyPosix ctor 8 "/r" true).2.1 4 "/r" false).2.1
      = (Bind emptyPosix ctor 8 "/r" true).2.1 ∧
    (Bind emptyPosix (Bind emptyPosix ctor 8 "/r" true).2.1 4 "/r" false).2.2 = emptyPosix ∧
    ((Bind emptyPosix ctor 8 "/r" true).2.1.m_sharedMemories.map Prod.fst).Nodup ∧
    ((Bind emptyPosix (Bind emptyPosix ctor 8 "/r" true).2.1 4 "/r"
      false).2.1.m_sharedMemories.map Prod.fst).Nodup :=
  rebind ctor ContextReachable.ctor emptyPosix emptyPosix "/r" 8 4 true false

/-! ## C20: a non-owner `Bind` after an early one -/

/-- C20, evaluation at the failing input. A context calls `Bind<T>("/r", false)` while no
region `/r` exists and gets `NULL`; an owner then constructs `SharedMemory("/r", 8, true)`,
so the region exists (`SharedMemory::Exist("/r")` succeeds). The same context calls
`Bind<T>("/r", false)` again and still gets `NULL`, without any kernel call, while a fresh
context gets a region at that moment. -/
theorem Bind_returns_cached_null :
    (Bind emptyPosix ctor 8 "/r" false).1 = none ∧
    (SharedMemory.Exist ownerPosix "/r").1.IsSuccess = true ∧
    (Bind ownerPosix earlyBoundContext 8 "/r" false).1 = none ∧
    (Bind ownerPosix earlyBoundContext 8 "/r" false).2.2 = ownerPosix ∧
    (Bind ownerPosix ctor 8 "/r" false).1 = some 0 := by
  decide

end SharedMemoryContext

/-! ## C23: consistency of `Result` -/

theorem Result.Constructed_message (r : Result) (h : Result.Constructed r)
    (hs : r.IsSuccess = true) : r.ErrorMessage = "" := by
  induction h with
  | default => rfl
  | ctor b msg =>
    have hb : b = true := hs
    subst hb
    rfl
  | copy r _ ih => exact ih hs

set_option maxRecDepth 100000 in
theorem byteOf_ofNat (b : Byte) : byteOf (Char.ofNat b.val).toNat = b := by
  revert b
  decide

/-- The bytes of a `std::string` held with one character per byte. -/
theorem cText_bytes (bytes : List Byte) :
    (cText bytes).toList.map (fun c => byteOf c.toNat) = bytes := by
  induction bytes with
  | nil => rfl
  | cons b bs ih =>
    have ih2 : List.map (fun c => byteOf c.toNat) (List.map (fun b => Char.ofNat b.val) bs)
        = bs := ih
    simp only [cText, String.toList, List.map_cons, byteOf_ofNat, ih2]

theorem take_takeWhile_comm {α : Type} (p : α → Bool) (l : List α) (n : Nat) :
    (l.take n).takeWhile p = (l.takeWhile p).take n := by
  induction l generalizing n with
  | nil => simp
  | cons a l ih =>
    cases n with
    | zero => simp
    | succ n =>
      by_cases hp : p a = true
      · simp [List.takeWhile_cons, hp, ih]
      · simp [List.takeWhile_cons, hp]

/-- The bytes of the message of `CreateError`: the bytes of the formatted text before
its first zero byte, cut to the first 1022 of them. -/
theorem Result.CreateError_bytes (formatted : String) :
    (Result.CreateError formatted).messageBytes
      = ((utf8 formatted).takeWhile (fun b => b != 0)).take 1022 := by
  rw [← take_takeWhile_comm]
  exact cText_bytes _

theorem isAsciiText_replicate (n : Nat) (c : Char) (h : isAsciiText [c] = true) :
    isAsciiText (List.replicate n c) = true := by
  induction n with
  | zero => rfl
  | succ n ih =>
    rw [List.replicate_succ]
    exact (isAsciiText_append [c] (List.replicate n c)).mpr ⟨h, ih⟩

set_option maxRecDepth 100000 in
/-- C23, counterexample. The message of `CreateError` is not always the formatted text.
For a formatted text of 1023 bytes it holds the first 1022 of them
(`vsnprintf(text, TEXT_MAX_LEN - 1, ...)`); for the text that `CreateError("a%cb", 0)`
expands to, an `a`, a zero byte and a `b`, it holds the `a` only
(`std::string errorMessage(text)` stops at the zero byte). -/
theorem Result.CreateError_truncates :
    longErrorText.length = 1023 ∧
    (Result.CreateError longErrorText).IsError = true ∧
    (Result.CreateError longErrorText).ErrorMessage ≠ longErrorText ∧
    (Result.CreateError longErrorText).ErrorMessage.length = 1022 ∧
    (Result.CreateError "a\x00b").ErrorMessage = "a" ∧
    (Result.CreateError "a\x00b").ErrorMessage ≠ "a\x00b" := by
  have hl : longErrorText.length = 1023 := List.length_replicate 1023 'a'
  have hsplit : longErrorText = String.mk (List.replicate 1022 'a' ++ ['a']) := by
    apply String.ext
    exact List.replicate_succ' (n := 1022) (a := 'a')
  have hm : (Result.CreateError longErrorText).ErrorMessage.length = 1022 := by
    have h := Result.CreateError_prefix (List.replicate 1022 'a') ['a']
      (isAsciiText_replicate 1022 'a' (by decide))
      (by rw [List.length_replicate])
    rw [hsplit]
    show (Result.CreateError (String.mk (List.replicate 1022 'a' ++ ['a']))).ErrorMessage.data.length
      = 1022
    rw [h]
    simp only [List.length_append, List.length_replicate, Nat.sub_self, List.take_zero,
      List.takeWhile_nil, List.map_nil, List.length_nil, Nat.add_zero]
  refine ⟨hl, rfl, ?_, hm, by decide, by decide⟩
  intro h
  rw [h, hl] at hm
  exact absurd hm (by decide)

/-- C23 (amended). For every `Result` value `r` (built by a constructor or copied):
`bool(r)`, `IsSuccess()` and the negation of `IsError()` agree; `CreateSuccess()` and the
default constructor give a success with an empty message; `CreateError` gives an error
whose message holds the bytes of the formatted text before its first zero byte, cut to
the first 1022 of them: the whole text when it has no zero byte and at most 1022 bytes
(for an ASCII text: no NUL and at most 1022 characters); a success has an empty message,
also when built from `(true, msg)`; a copy has both fields of the original. -/
theorem Result.consistency (r : Result) (formatted msg : String)
    (hr : Result.Constructed r) :
    (r.toBool = r.IsSuccess ∧ r.IsSuccess = !r.IsError) ∧
    (Result.CreateSuccess.IsSuccess = true ∧ Result.CreateSuccess.ErrorMessage = "") ∧
    (Result.default.IsSuccess = true ∧ Result.default.ErrorMessage = "") ∧
    ((Result.CreateError formatted).IsError = true ∧
      (Result.CreateError formatted).messageBytes
        = ((utf8 formatted).takeWhile (fun b => b != 0)).take 1022) ∧
    ((∀ b ∈ utf8 formatted, b ≠ 0) → (utf8 formatted).length ≤ 1022 →
      (Result.CreateError formatted).messageBytes = utf8 formatted) ∧
    (isAsciiText formatted.toList = true → formatted.length ≤ 1022 →
      (Result.CreateError formatted).ErrorMessage = formatted) ∧
    (r.IsSuccess = true → r.ErrorMessage = "") ∧
    ((Result.ctor true msg).IsSuccess = true ∧ (Result.ctor true msg).ErrorMessage = "") ∧
    (r.copy.m_result = r.m_result ∧ r.copy.m_errorMessage = r.m_errorMessage ∧
      Result.Constructed r.copy) := by
  refine ⟨⟨rfl, ?_⟩, ⟨rfl, rfl⟩, ⟨rfl, rfl⟩, ⟨rfl, Result.CreateError_bytes formatted⟩,
    ?_, ?_, ?_, ⟨rfl, rfl⟩, ⟨rfl, rfl, Result.Constructed.copy r hr⟩⟩
  · simp [Result.IsSuccess, Result.IsError]
  · intro hnz hlen
    rw [Result.CreateError_bytes, List.takeWhile_eq_self_iff.mpr, List.take_of_length_le hlen]
    intro b hb
    simpa using hnz b hb
  · intro ha hlen
    exact Result.CreateError_message formatted hlen ha
  · exact Result.Constructed_message r hr

/-- Witness for C23 at a copy of the value built from `(true, "ignored")`: it is a
success with an empty message. -/
theorem Result.consistency_witness :
    Result.Constructed (Result.ctor true "ignored").copy ∧
    (Result.ctor true "ignored").copy.IsSuccess = true ∧
    (Result.ctor true "ignored").copy.ErrorMessage = "" :=
  ⟨Result.Constructed.copy _ (Result.Constructed.ctor true "ignored"), rfl,
   (Result.consistency (Result.ctor true "ignored").copy "closed socket" "ignored"
      (Result.Constructed.copy _ (Result.Constructed.ctor true "ignored"))).2.2.2.2.2.2.1 rfl⟩

/-! ## C27: the sleep helpers -/

theorem castULongToLong_small (n : Nat) (h : n < 9223372036854775808) :
    castULongToLong n = (n : Int) := by
  unfold castULongToLong
  split <;> omega

theorem Thread.NanoSleepFunc_nsec (time : Nat) :
    (Thread.NanoSleepFunc (time / 1000000000) (time % 1000000000)).tv_nsec < 1000000000 := by
  have h : time % 1000000000 < 1000000000 := Nat.mod_lt _ (by decide)
  show castULongToLong (time % 1000000000) < 1000000000
  rw [castULongToLong_small _ (by omega)]
  omega

/-- C27, evaluation at the failing input. `MilliSleep(5000)` requests 0 s and
705032704 ns, not 5 s: `5000*1000000` is reduced modulo `2^32` before it is widened;
likewise `MicroSleep(5000000)`. For every argument `NanoSleep` requests exactly that
many nanoseconds, and the nanosecond field of all three requests is below `10^9`. -/
theorem Thread.MilliSleep_wraps :
    Thread.MilliSleep 5000 = { tv_sec := 0, tv_nsec := 705032704 } ∧
    (Thread.MilliSleep 5000).nanoseconds ≠ 5000 * 1000000 ∧
    Thread.MicroSleep 5000000 = { tv_sec := 0, tv_nsec := 705032704 } ∧
    (Thread.MicroSleep 5000000).nanoseconds ≠ 5000000 * 1000 ∧
    (∀ n : CUInt, (Thread.NanoSleep n).nanoseconds = n.val ∧
      (Thread.NanoSleep n).tv_nsec < 1000000000 ∧
      (Thread.MilliSleep n).tv_nsec < 1000000000 ∧
      (Thread.MicroSleep n).tv_nsec < 1000000000) := by
  refine ⟨by decide, by decide, by decide, by decide, ?_⟩
  intro n
  refine ⟨?_, Thread.NanoSleepFunc_nsec _, Thread.NanoSleepFunc_nsec _,
    Thread.NanoSleepFunc_nsec _⟩
  have hn := n.isLt
  show castULongToLong (n.val / 1000000000) * 1000000000
      + castULongToLong (n.val % 1000000000) = n.val
  rw [castULongToLong_small _ (by omega), castULongToLong_small _ (by omega)]
  omega

/-! ## C22: `Start`, `Cancel` and `Join` by thread state -/

/-- C22, evaluation at the failing input. On a thread that was never started
(`IsActive()` false) `Cancel()` calls `pthread_cancel` and `Join()` calls `pthread_join`
on the value-initialised handle; likewise on a thread whose worker has finished, with the
handle of the finished worker. Neither changes a field, and `Start()` on an active thread
makes no call and changes no field. -/
theorem Thread.Cancel_Join_idle_call_pthread :
    Thread.ctor.IsActive = false ∧
    Thread.ctor.Cancel = (Thread.ctor, [ThreadCall.pthread_cancel 0]) ∧
    Thread.ctor.Join = (Thread.ctor, [ThreadCall.pthread_join 0]) ∧
    (∀ created : Nat, ((Thread.ctor.Start created).1.finished).IsActive = false ∧
      ((Thread.ctor.Start created).1.finished).Cancel.2 = [ThreadCall.pthread_cancel created] ∧
      ((Thread.ctor.Start created).1.finished).Join.2 = [ThreadCall.pthread_join created]) ∧
    (∀ (t : Thread) (created : Nat), (t.Cancel).1 = t ∧ (t.Join).1 = t ∧
      Thread.Start { t with m_isActive := true } created
        = ({ t with m_isActive := true }, [])) := by
  refine ⟨rfl, rfl, rfl, fun _ => ⟨rfl, rfl, rfl⟩, fun _ _ => ⟨rfl, rfl, rfl⟩⟩

/-! ## C29: the result of `OpenSocket` and the open state -/

/-- C29, evaluation at the failing input. The first `OpenSocket` of an owner endpoint
fails at `bind`: it returns an error and leaves the endpoint not open, with both
descriptors set. Whatever the operating system would answer, a second `OpenSocket` then
makes no call at all and returns success, while `IsOpend()` is still false. -/
theorem UnixDomainSocket.OpenSocket_success_not_open (env : OpenEnv) :
    (UnixDomainSocket.ctor "/tmp/ipc" true).OpenSocket bindFails
      = some (Result.CreateError "open socket error [Address already in use]", failedOpen,
          [SocketCall.socket 3, SocketCall.socket 4, SocketCall.unlink "/tmp/ipc.rx",
           SocketCall.bind 4 "/tmp/ipc.rx" (-1)]) ∧
    (Result.CreateError "open socket error [Address already in use]").IsError = true ∧
    failedOpen.IsOpend = false ∧
    failedOpen.OpenSocket env = some (Result.default, failedOpen, []) ∧
    Result.default.IsSuccess = true := by
  refine ⟨by decide, rfl, rfl, rfl, rfl⟩

/-! ## C25: the order of the steps of `Receive` -/

/-- C25, counterexample. An open endpoint with limit 4 receives a frame that declares a
body of 5 bytes: `Receive` returns the "body too big" error with the application header
and the body still pending: one datagram of the frame was consumed, not two. -/
theorem UnixDomainSocket.Receive_limit_consumes_one :
    ((openSocket.SetLimitSize 4).Receive { queue := echoFrame, errnoText := "Success" }
        ByteBuffer.ctor ByteBuffer.ctor).map (fun ro => (ro.result, ro.world.queue))
      = some (Result.CreateError "receive protocol header error [body too big size:5]",
              [RxEvent.datagram requestHeader.Data, RxEvent.datagram helloBody.Data]) ∧
    echoFrame.drop 1 = [RxEvent.datagram requestHeader.Data, RxEvent.datagram helloBody.Data] ∧
    echoFrame.drop 2 ≠ [RxEvent.datagram requestHeader.Data, RxEvent.datagram helloBody.Data] := by
  refine ⟨by decide, by decide, by decide⟩

/-- C25 (amended). `Receive` compares the declared body size with the limit right after
the protocol header, before it reads the application header: on an open endpoint with a
positive limit, for every frame whose protocol header declares a body of `n` bytes above
the limit, `Receive` returns the "body too big" error, leaves both output buffers as they
were, and has consumed exactly the protocol-header datagram (what follows it is still
pending). -/
theorem UnixDomainSocket.Receive_limit_before_header (s : UnixDomainSocket) (n : Nat)
    (q : List RxEvent) (errno : String) (outH outB : ByteBuffer)
    (hopen : s.IsOpend = true) (hn : n < 4294967296)
    (hpos : 0 < s.LimitSize.val) (hbig : s.LimitSize.val < n) :
    s.Receive { queue := RxEvent.datagram (protocolHeader n) :: q, errnoText := errno }
        outH outB
      = some { result := Result.CreateError
                 ("receive protocol header error [" ++ "body too big size" ++ ":"
                   ++ fmtLu n ++ "]"),
               outHeader := outH, outBody := outB,
               world := { queue := q, errnoText := errno } } := by
  have hph : (protocolHeader n).take 1024 = protocolHeader n :=
    List.take_of_length_le (by rw [protocolHeader_length]; decide)
  have hsize : leValue (((protocolHeader n).drop 4).take 4) = n := by
    have : ((protocolHeader n).drop 4).take 4 = leBytes 4 (n % 4294967296) := rfl
    rw [this]
    simp only [leBytes, leValue]
    omega
  have hlim : 0 < s.m_limitSize.val ∧ s.m_limitSize.val < n := ⟨hpos, hbig⟩
  simp only [UnixDomainSocket.Receive, hopen, Bool.not_true, Bool.false_eq_true, if_false,
    recvfrom, hph, protocolHeader_length, hsize, hlim]
  simp [protocolHeader]

/-- Witness for C25: limit 4, a frame declaring 5 bytes. -/
theorem UnixDomainSocket.Receive_limit_before_header_witness :
    (openSocket.SetLimitSize 4).Receive { queue := echoFrame, errnoText := "Success" }
        ByteBuffer.ctor ByteBuffer.ctor
      = some { result := Result.CreateError
                 ("receive protocol header error [" ++ "body too big size" ++ ":"
                   ++ fmtLu 5 ++ "]"),
               outHeader := ByteBuffer.ctor, outBody := ByteBuffer.ctor,
               world := { queue := [RxEvent.datagram requestHeader.Data,
                                    RxEvent.datagram helloBody.Data],
                          errnoText := "Success" } } :=
  UnixDomainSocket.Receive_limit_before_header (openSocket.SetLimitSize 4) 5
    [RxEvent.datagram requestHeader.Data, RxEvent.datagram helloBody.Data] "Success"
    ByteBuffer.ctor ByteBuffer.ctor rfl (by decide) (by decide) (by decide)

/-! ## C21: a message queue constructed with an invalid name -/

/-- C21, evaluation at the failing input. A `MessageQueue` constructed with the empty
name, or with the name "ipc" (no leading '/'), as owner or not, makes no call and writes
one line to standard error; but its descriptor is the value-initialised 0, not the -1 that
the methods test for. So `MaxMessageCount()` and `MaxMessageSize()` return 0, and on every
operating system `Send`, `TimedSend`, `Receive`, `TimedReceive` and
`CurrentMessageCount` pass descriptor 0 to `mq_send`, `mq_timedsend`, `mq_receive`,
`mq_timedreceive` and `mq_getattr`, and return what follows from the answer: none of
them returns the "queue not found" error of the test `m_messageQueue == -1`. -/
theorem MessageQueue.inert_handle_is_descriptor_zero {σ : Type} (K : MqKernel σ)
    (w w1 : MqWorld σ) (message out : ByteBuffer) (maxCount maxSize : Int) (millisec : Nat) :
    MessageQueue.ctor K "" w
      = (MessageQueue.initial "" false,
         w.print "message queue creation error [empty name]\n") ∧
    MessageQueue.ctorOwner K "ipc" maxCount maxSize w
      = (MessageQueue.initial "ipc" true,
         w.print "message queue creation error [it does not begin with '/']\n") ∧
    (∀ (name : String) (isOwner : Bool),
      (MessageQueue.initial name isOwner).m_messageQueue = 0 ∧
      (MessageQueue.initial name isOwner).MaxMessageCount = 0 ∧
      (MessageQueue.initial name isOwner).MaxMessageSize = 0 ∧
      MessageQueue.Send K (MessageQueue.initial name isOwner) w1 message
        = (K.mq_send w1.state 0 message.Data 10).map (fun r =>
            (if r.1 = -1 then
               Result.CreateError ("message queue send error [" ++ K.strerror r.2 ++ "]")
             else Result.CreateSuccess,
             w1.after (MqCall.mq_send 0 message.Data 10) r.2)) ∧
      MessageQueue.Receive K (MessageQueue.initial name isOwner) w1 out
        = (K.mq_receive w1.state 0 0).map (fun r =>
            (if r.1 = -1 then
               Result.CreateError ("message queue receive error [" ++ K.strerror r.2.2 ++ "]")
             else Result.CreateSuccess,
             if r.1 = -1 then out else ByteBuffer.ctorData (r.2.1.take r.1.toNat),
             w1.after (MqCall.mq_receive 0 0) r.2.2)) ∧
      ((MessageQueue.TimedSend K (MessageQueue.initial name isOwner) w1 message
          (millisec + 1)).map (fun r => r.2.calls))
        = some (w1.calls ++ [MqCall.clock_gettime,
            MqCall.mq_timedsend 0 message.Data 10
              (mqTimeout (K.clock_gettime w1.state).1 (millisec + 1))]) ∧
      ((MessageQueue.TimedReceive K (MessageQueue.initial name isOwner) w1 out
          (millisec + 1)).map (fun r => r.2.2.calls))
        = some (w1.calls ++ [MqCall.clock_gettime,
            MqCall.mq_timedreceive 0 0
              (mqTimeout (K.clock_gettime w1.state).1 (millisec + 1))]) ∧
      (MessageQueue.CurrentMessageCount K (MessageQueue.initial name isOwner) w1).2.2.calls
        = w1.calls ++ [MqCall.mq_getattr 0]) := by
  refine ⟨rfl, rfl, ?_⟩
  intro name isOwner
  refine ⟨rfl, rfl, rfl, ?_, ?_, ?_, ?_, ?_⟩
  · simp only [MessageQueue.Send, MessageQueue.TimedSend, MessageQueue.initial,
      MessageQueue.PRIORITY]
    cases h : K.mq_send w1.state 0 message.Data 10 with
    | none => simp
    | some r =>
      by_cases hr : r.1 = -1 <;> simp [hr, MqWorld.after]
  · simp only [MessageQueue.Receive, MessageQueue.TimedReceive, MessageQueue.initial,
      MessageQueue.MaxMessageSize]
    cases h : K.mq_receive w1.state 0 0 with
    | none => simp [h]
    | some r =>
      by_cases hr : r.1 = -1 <;> simp [h, hr, MqWorld.after]
  · simp [MessageQueue.TimedSend, MessageQueue.initial, MessageQueue.PRIORITY, MqWorld.after]
    split <;> rfl
  · simp [MessageQueue.TimedReceive, MessageQueue.initial, MessageQueue.MaxMessageSize,
      MqWorld.after]
    split <;> rfl
  · simp only [MessageQueue.CurrentMessageCount, MessageQueue.initial]
    by_cases ha : (K.mq_getattr w1.state 0).1 = -1 <;> simp [ha, MqWorld.after]

/-! ## C24: the shape of the hex dump -/

namespace ByteBuffer

theorem hexGroup_some (d : Byte) : fmt02x d ++ [' '] = hexGroup (some d) := rfl

theorem asciiCell_some (d : Byte) :
    (if isprint d then Char.ofNat d.val else '.') = asciiCell (some d) := by
  simp [isprint, asciiCell]

/-- The inner loop of `Dump` from a position past the end only pads. -/
theorem dumpCells_past (data : List Byte) (n pos : Nat) (hex ascii : List Char)
    (h : data.length ≤ pos) :
    dumpCells data n pos hex ascii
      = (hex ++ ((List.range n).map (fun i => hexGroup data[pos + i]?)).flatten,
         ascii ++ (List.range n).map (fun i => asciiCell data[pos + i]?), pos) := by
  have hnone : ∀ i, data[pos + i]? = none := fun i =>
    List.getElem?_eq_none (by omega)
  simp only [hnone]
  induction n generalizing hex ascii with
  | zero => simp [dumpCells]
  | succ n ih =>
    have hlt : ¬ pos < data.length := by omega
    simp only [dumpCells, hlt, if_false]
    rw [ih]
    simp [List.range_succ_eq_map, hexGroup, asciiCell, Function.comp_def]

/-- The inner loop of `Dump`: `n` cells from the position `pos`. -/
theorem dumpCells_eq (data : List Byte) (n pos : Nat) (hex ascii : List Char)
    (h : pos ≤ data.length) :
    dumpCells data n pos hex ascii
      = (hex ++ ((List.range n).map (fun i => hexGroup data[pos + i]?)).flatten,
         ascii ++ (List.range n).map (fun i => asciiCell data[pos + i]?),
         min (pos + n) data.length) := by
  induction n generalizing pos hex ascii with
  | zero => simp [dumpCells, Nat.min_eq_left h]
  | succ n ih =>
    by_cases hlt : pos < data.length
    · have hget : data[pos]? = some (data.getD pos 0) := by
        rw [List.getD_eq_getElem?_getD, List.getElem?_eq_getElem hlt]
        rfl
      simp only [dumpCells, hlt, if_true]
      rw [ih (pos + 1) _ _ hlt, hexGroup_some, asciiCell_some, ← hget]
      simp only [List.range_succ_eq_map, List.map_cons, List.map_map, List.flatten_cons,
        Nat.add_zero, List.append_assoc, List.singleton_append]
      have hidx : ∀ i, pos + 1 + i = pos + Nat.succ i := fun i => by omega
      have hm : pos + 1 + n = pos + (n + 1) := by omega
      simp only [Function.comp_def, hidx, hm]
    · have hpos : pos = data.length := by omega
      rw [dumpCells_past data (n + 1) pos hex ascii (by omega)]
      congr 2
      omega

end ByteBuffer

namespace ByteBuffer

/-- The outer loop of `Dump`, entered at the start of the row `row`: with enough passes
it ends and appends the remaining rows. -/
theorem dumpLoop_rows (data : List Byte) (fuel row : Nat) (dump : List Char)
    (hfuel : (data.length + 15) / 16 ≤ row + fuel) :
    dumpLoop data fuel (min (16 * row) data.length) row dump
      = some (dump ++ ((List.range' row ((data.length + 15) / 16 - row)).map
          (fun r => dumpRowShape data r (dumpRowLabel r))).flatten) := by
  induction fuel generalizing row dump with
  | zero =>
    have hle : data.length ≤ 16 * row := by omega
    have h0 : (data.length + 15) / 16 - row = 0 := by omega
    have hlt : ¬ min (16 * row) data.length < data.length := by omega
    simp [dumpLoop, hlt, h0]
  | succ fuel ih =>
    by_cases hrow : 16 * row < data.length
    · have hmin : min (16 * row) data.length = 16 * row := by omega
      have hnext : min (16 * row + 16) data.length = min (16 * (row + 1)) data.length := by
        congr 1
      have hcount : (data.length + 15) / 16 - row = ((data.length + 15) / 16 - (row + 1)) + 1 := by
        omega
      rw [hmin]
      simp only [dumpLoop, hrow, if_true]
      rw [dumpCells_eq data 16 (16 * row) [] [] (by omega)]
      simp only [List.nil_append]
      rw [hnext, ih (row + 1) _ (by omega), hcount, List.range'_succ]
      simp [dumpRowShape, dumpRowLabel]
    · have hle : data.length ≤ 16 * row := by omega
      have h0 : (data.length + 15) / 16 - row = 0 := by omega
      have hlt : ¬ min (16 * row) data.length < data.length := by omega
      simp [dumpLoop, hlt, h0]

theorem Dump_rows (b : ByteBuffer) :
    b.Dump = some (String.mk ("Size=".toList ++ (fmtLu b.Size).toList ++ ['\n']
        ++ ((List.range ((b.Size + 15) / 16)).map
              (fun r => dumpRowShape b.Data r (dumpRowLabel r))).flatten)) := by
  have h := dumpLoop_rows b.Data b.Size 0 ("Size=".toList ++ (fmtLu b.Size).toList ++ ['\n'])
    (by simp only [Data, Size]; omega)
  simp only [Nat.mul_zero, Nat.zero_min, Nat.sub_zero, Size, Data] at h
  simp only [Dump, Size, Data, h, Option.map_some', List.range_eq_range']

end ByteBuffer

/-- C24. For every buffer of `k` bytes `Dump()` returns the line `Size=<k>` followed by
exactly `ceil(k/16)` data rows (none when `k = 0`). The row of index `r` is its label,
`" | "`, 16 groups of three characters (the two hex digits of the byte at `16 r + i` and a
space, or three spaces when that position is past the end), `"| "`, 16 characters of the
ASCII column (a printable byte as itself, any other byte as a dot, a space past the end)
and a line feed. Padding occurs in the last row only. -/
theorem ByteBuffer.Dump_shape (b : ByteBuffer) :
    b.Dump = some (String.mk ("Size=".toList ++ (fmtLu b.Size).toList ++ ['\n']
        ++ ((List.range ((b.Size + 15) / 16)).map
              (fun r => dumpRowShape b.Data r (dumpRowLabel r))).flatten)) ∧
    ((List.range ((b.Size + 15) / 16)).map
        (fun r => dumpRowShape b.Data r (dumpRowLabel r))).length = (b.Size + 15) / 16 ∧
    (b.Size = 0 → b.Dump = some "Size=0\n") ∧
    (∀ o, (hexGroup o).length = 3) ∧
    (∀ r label, (dumpRowShape b.Data r label).length = label.length + 3 + 16 * 3 + 2 + 16 + 1) ∧
    (∀ r i, r + 1 < (b.Size + 15) / 16 → i < 16 → ∃ d, b.Data[16 * r + i]? = some d) := by
  refine ⟨ByteBuffer.Dump_rows b, by simp, ?_, ?_, ?_, ?_⟩
  · intro h0
    rw [ByteBuffer.Dump_rows, h0]
    rfl
  · intro o
    cases o <;> rfl
  · intro r label
    have hg : ∀ l : List Nat, ((l.map (fun i => hexGroup b.Data[16 * r + i]?)).flatten).length
        = l.length * 3 := by
      intro l
      induction l with
      | nil => rfl
      | cons a l ih =>
        have h3 : (hexGroup b.Data[16 * r + a]?).length = 3 := by
          cases b.Data[16 * r + a]? <;> rfl
        simp only [List.map_cons, List.flatten_cons, List.length_append, ih, h3,
          List.length_cons]
        omega
    simp only [dumpRowShape, List.length_append, hg, List.length_map, List.length_range]
    rfl
  · intro r i hr hi
    have hlt : 16 * r + i < b.Data.length := by
      simp only [ByteBuffer.Size] at hr
      simp only [ByteBuffer.Data]
      omega
    exact ⟨b.Data[16 * r + i], List.getElem?_eq_getElem hlt⟩
/-! ## C28: the label of a dump row -/

set_option maxRecDepth 100000 in
/-- C28, evaluation at the failing input. The dump of 161 zero bytes has the rows 0 to
10; the row of index 10, whose first byte has the offset 160 (hexadecimal `00a0`), begins
with `0100`: the label is the row number printed in decimal by `%03d`, followed by the
character 0. For the rows 0 to 9 that text is the hexadecimal offset on four digits. -/
theorem ByteBuffer.Dump_row_label_decimal :
    zeros161.Dump = some dump161 ∧
    dumpRowLabel 10 = "0100".toList ∧
    zeroPad 4 (Nat.toDigits 16 (16 * 10)) = "00a0".toList ∧
    (∀ r, r < 10 → dumpRowLabel r = zeroPad 4 (Nat.toDigits 16 (16 * r))) := by
  refine ⟨by decide, by decide, by decide, by decide⟩

/-! ## C26: frames with an unknown type tag -/

/-- C26, counterexample. A server with the echo handler registered receives without
error a frame whose type tag is 7: the worker calls `Received` with the body and sends a
response frame (protocol header, the received application header, the echoed body). -/
theorem UnixDomainSocketServer.Run_iteration_unknown_tag_answered :
    (unknownTagServer.sock.Receive unknownTagServer.rx unknownTagServer.header
        unknownTagServer.request) = some unknownTagReceived ∧
    (UnixDomainSocketServer.Run_iteration fifoChannel 1 unknownTagServer).map
        (fun sv => (sv.calls, sv.sent))
      = some ([ServerCallback.Received helloBody ByteBuffer.ctor],
              [protocolHeader 5, [7, 0, 0, 0], helloBody.Data]) := by
  refine ⟨by decide, by decide⟩

/-- C26 (amended). A frame received without error whose type tag is not 0, 1, 2 or 3.
The server worker (at the head of its loop, a handler registered) treats it as a request:
the pass is one call of `Received` with the received body and the empty response buffer,
then one `Send` of the received application header and the response the handler left
(followed by `ResponseError` when that `Send` fails); when every `sendto` transmits in
full and the response is within the limit, the frame sent is the protocol header, the
received header bytes and the response in pieces of 1024 bytes. The client worker
completes its pass without changing the captured response header and body and without
calling the notify receiver. -/
theorem UnixDomainSocketServer.Run_iteration_unknown_tag {σ τ : Type} (K : TxKernel σ)
    (fuel : Nat) (sv : ServerState σ) (c : ClientState τ) (ro roc : ReceiveOutcome)
    (header1 : ByteBuffer) (tag : CUInt) (receiver : IRequestReceiver)
    (hreach : ServerReachable K sv) (hactive : sv.m_isActive = true)
    (hhandler : sv.m_requestReceiver = some receiver)
    (hrecv : sv.sock.Receive sv.rx sv.header sv.request = some ro)
    (hok : ro.result.IsError = false)
    (htag : ro.outHeader.Value (T := CUInt) = (some tag, header1))
    (hunknown : tag ≠ 0 ∧ tag ≠ 1 ∧ tag ≠ 2 ∧ tag ≠ 3)
    (hcrecv : c.sock.Receive c.rx c.header c.response = some roc)
    (hcok : roc.result.IsError = false)
    (_hctag : (roc.outHeader.Value (T := CUInt)).1 = some tag) :
    header1.Data = ro.outHeader.Data ∧
    UnixDomainSocketServer.Run_iteration K fuel sv
      = (sv.sock.Send K fuel sv.tx header1
            (receiver.Received ro.outBody ByteBuffer.ctor).2).map
          (fun so =>
            { sv with result := so.result, header := header1,
                      request := ByteBuffer.ctor, response := ByteBuffer.ctor,
                      rx := ro.world, tx := so.state,
                      calls := (sv.calls ++ [ServerCallback.Received ro.outBody ByteBuffer.ctor])
                        ++ (if so.result.IsError then [ServerCallback.ResponseError so.result]
                            else []),
                      sendCalls := sv.sendCalls
                        ++ [(header1, (receiver.Received ro.outBody ByteBuffer.ctor).2)],
                      sent := sv.sent ++ so.datagrams }) ∧
    ((∀ st d, (K.sendto st d).1 = (d.length : Int)) →
      ¬ (0 < sv.sock.m_limitSize.val ∧
          sv.sock.m_limitSize.val < (receiver.Received ro.outBody ByteBuffer.ctor).2.Size) →
      (receiver.Received ro.outBody ByteBuffer.ctor).2.Size < 18446744073709551616 →
      (receiver.Received ro.outBody ByteBuffer.ctor).2.Size ≤ 1024 * fuel →
      ∃ next, UnixDomainSocketServer.Run_iteration K fuel sv = some next ∧
        next.calls = sv.calls ++ [ServerCallback.Received ro.outBody ByteBuffer.ctor] ∧
        next.sent = sv.sent
          ++ protocolHeader (receiver.Received ro.outBody ByteBuffer.ctor).2.Size
            :: ro.outHeader.Data
            :: chunks (receiver.Received ro.outBody ByteBuffer.ctor).2.Data) ∧
    (∃ nextc, UnixDomainSocketClient.Run_iteration c = some nextc ∧
      nextc.m_responseHeader = c.m_responseHeader ∧ nextc.m_response = c.m_response ∧
      nextc.notified = c.notified) := by
  have hresp := UnixDomainSocketServer.reachable_response K sv hreach
  have hdata : header1.Data = ro.outHeader.Data := by
    have : header1 = (ro.outHeader.Value (T := CUInt)).2 := by rw [htag]
    rw [this]; rfl
  have h2 : ¬ tag = 2 := hunknown.2.2.1
  have heq : UnixDomainSocketServer.Run_iteration K fuel sv
      = (sv.sock.Send K fuel sv.tx header1
            (receiver.Received ro.outBody ByteBuffer.ctor).2).map
          (fun so =>
            { sv with result := so.result, header := header1,
                      request := ByteBuffer.ctor, response := ByteBuffer.ctor,
                      rx := ro.world, tx := so.state,
                      calls := (sv.calls ++ [ServerCallback.Received ro.outBody ByteBuffer.ctor])
                        ++ (if so.result.IsError then [ServerCallback.ResponseError so.result]
                            else []),
                      sendCalls := sv.sendCalls
                        ++ [(header1, (receiver.Received ro.outBody ByteBuffer.ctor).2)],
                      sent := sv.sent ++ so.datagrams }) := by
    simp only [UnixDomainSocketServer.Run_iteration, hrecv, hok, hactive, htag, hresp,
      hhandler, h2, Bool.false_eq_true, if_false, Bool.not_true]
    cases hsend : sv.sock.Send K fuel sv.tx header1
        (receiver.Received ro.outBody ByteBuffer.ctor).2 with
    | none => rfl
    | some so =>
      by_cases herr : so.result.IsError = true
      · simp [herr, h2, ByteBuffer.Clear, ByteBuffer.ctor]
      · simp [herr, ByteBuffer.Clear, ByteBuffer.ctor]
  refine ⟨hdata, heq, ?_, ?_⟩
  · intro hfull hlim hsz hfuel
    obtain ⟨hopen, hsize⟩ := UnixDomainSocket.Receive_success _ _ _ _ _ hrecv hok
    have hH : header1.Size ≤ 512 := by
      have : header1.Size = ro.outHeader.Size := by
        simp only [ByteBuffer.Size]
        exact congrArg List.length hdata
      omega
    have hsend := UnixDomainSocket.Send_full K hfull sv.sock sv.tx header1
      (receiver.Received ro.outBody ByteBuffer.ctor).2 hopen hH hlim hsz fuel hfuel
    rw [heq, hsend]
    refine ⟨_, rfl, ?_, ?_⟩
    · simp [Result.CreateSuccess, Result.ctor, Result.IsError]
    · simp only [hdata]
  · have hctrue : roc.result.toBool = true := by
      simp only [Result.IsError, Bool.not_eq_false'] at hcok
      exact hcok
    have hrun : UnixDomainSocketClient.Run_iteration c
        = some { c with m_isResponseError := roc.result, header := roc.outHeader,
                        response := roc.outBody, rx := roc.world,
                        m_responseArrived := true, signals := c.signals + 1 } := by
      simp only [UnixDomainSocketClient.Run_iteration, hcrecv, hctrue, if_true]
    exact ⟨_, hrun, rfl, rfl, rfl⟩

/-- Witness for C26: the server with the echo handler and a started client with a notify
receiver each receive the frame of tag 7 over the reliable channel. -/
theorem UnixDomainSocketServer.Run_iteration_unknown_tag_witness :
    (∃ next, UnixDomainSocketServer.Run_iteration fifoChannel 1 unknownTagServer = some next ∧
      next.calls = [ServerCallback.Received helloBody ByteBuffer.ctor] ∧
      next.sent = [protocolHeader 5, [7, 0, 0, 0], helloBody.Data]) ∧
    (∃ nextc, UnixDomainSocketClient.Run_iteration (startedClient true unknownTagFrame)
        = some nextc ∧
      nextc.m_responseHeader = ByteBuffer.ctor ∧ nextc.m_response = ByteBuffer.ctor ∧
      nextc.notified = []) := by
  have h := UnixDomainSocketServer.Run_iteration_unknown_tag fifoChannel 1 unknownTagServer
    (startedClient true unknownTagFrame) unknownTagReceived unknownTagReceived
    { m_buffer := [7, 0, 0, 0], m_position := 4 } 7 echoHandler
    (ServerReachable.entry _) rfl rfl (by decide) (by decide) (by decide)
    ⟨by decide, by decide, by decide, by decide⟩ (by decide) (by decide) (by decide)
  obtain ⟨next, hn, hc, hs⟩ := h.2.2.1 (fun _ _ => rfl) (by decide) (by decide) (by decide)
  exact ⟨⟨next, hn, hc, hs⟩, h.2.2.2⟩

/-! ## C30: decoding a container into a non-empty output -/

namespace ByteBuffer

end ByteBuffer

end LightIPC
